import Mathlib

/-!
# SpadeOnlineGame: a shallow embedding of the rules engine and the session handlers

The definitions below follow `gameLogic.js` (deck, dealing, trick evaluation,
legal plays, scoring) and `server.js` (the socket handlers of one session and the
delayed continuations) function by function.  JavaScript arrays are Lean lists,
JavaScript numbers that only ever hold integers are `Int` or `Nat`, and a
JavaScript `TypeError` (reading a field of `undefined`) is `none`.
-/

namespace Spades

/-! ## Cards -/

/-- The four suits, in the order of `SUITS = ['♦', '♣', '♥', '♠']`. -/
inductive Suit where
  | diamonds
  | clubs
  | hearts
  | spades
  deriving DecidableEq, Repr

/-- The thirteen card values, in the order of `VALUES`. -/
inductive Value where
  | two
  | three
  | four
  | five
  | six
  | seven
  | eight
  | nine
  | ten
  | jack
  | queen
  | king
  | ace
  deriving DecidableEq, Repr

/-- The JavaScript string a value is written as in `VALUES`. -/
def Value.str : Value → String
  | .two => "2"
  | .three => "3"
  | .four => "4"
  | .five => "5"
  | .six => "6"
  | .seven => "7"
  | .eight => "8"
  | .nine => "9"
  | .ten => "10"
  | .jack => "J"
  | .queen => "Q"
  | .king => "K"
  | .ace => "A"

/-- The rank of a value in the words of the rules, not of the code: 2 is lowest, the ace
(14) is highest.  The code compares `valueIndex`; the two are compared in
`valueIndex_le_iff`. -/
def Value.rank : Value → Nat
  | .two => 2
  | .three => 3
  | .four => 4
  | .five => 5
  | .six => 6
  | .seven => 7
  | .eight => 8
  | .nine => 9
  | .ten => 10
  | .jack => 11
  | .queen => 12
  | .king => 13
  | .ace => 14

/-- A card `{ suit, value }`. -/
structure Card where
  suit : Suit
  value : Value
  deriving DecidableEq, Repr

/-- `const SUITS = ['♦', '♣', '♥', '♠']`. -/
def SUITS : List Suit := [.diamonds, .clubs, .hearts, .spades]

/-- `const VALUES = ['2', '3', ..., 'K', 'A']`. -/
def VALUES : List Value :=
  [.two, .three, .four, .five, .six, .seven, .eight, .nine, .ten, .jack, .queen, .king, .ace]

/-- `const VALUE_ORDER = '2,3,4,5,6,7,8,9,10,J,Q,K,A'`: one comma-separated string. -/
def VALUE_ORDER : String := "2,3,4,5,6,7,8,9,10,J,Q,K,A"

/-- Search for `needle` in `hay`, the position of `hay` being `pos` in the whole string:
the first position at which `needle` is a prefix, or `-1`. -/
def indexOfFrom (needle : List Char) : List Char → Nat → Int
  | [], pos => if needle.isEmpty then (pos : Int) else -1
  | c :: cs, pos =>
    if needle.isPrefixOf (c :: cs) then (pos : Int) else indexOfFrom needle cs (pos + 1)

/-- `String.prototype.indexOf` of JavaScript: the offset of the first occurrence of
`needle` in `hay`, or `-1` (all strings here are ASCII). -/
def jsIndexOf (hay needle : String) : Int :=
  indexOfFrom needle.data hay.data 0

/-- `VALUE_ORDER.indexOf(value)`: the number the code compares values by. -/
def valueIndex (v : Value) : Int :=
  jsIndexOf VALUE_ORDER v.str

/-! ## Deck -/

/-- `Deck.constructor`: `SUITS.flatMap(suit => VALUES.map(value => ({ suit, value })))`. -/
def Deck.new : List Card :=
  SUITS.flatMap (fun suit => VALUES.map (fun value => { suit := suit, value := value }))

/-- The destructuring swap `[cards[i], cards[j]] = [cards[j], cards[i]]` for two
indices inside the array (outside it the shuffle never goes). -/
def swapAt (cards : List Card) (i j : Nat) : List Card :=
  match cards[i]?, cards[j]? with
  | some ci, some cj => (cards.set i cj).set j ci
  | _, _ => cards

/-- The loop of `Deck.shuffle` from index `i` down to `1`; `draw i` is the value of
`Math.floor(Math.random() * (i + 1))` drawn at index `i`. -/
def shuffleFrom (draw : Nat → Nat) : Nat → List Card → List Card
  | 0, cards => cards
  | i + 1, cards => shuffleFrom draw i (swapAt cards (i + 1) (draw (i + 1)))

/-- `Deck.shuffle`, with the random draws given by `draw`. -/
def Deck.shuffle (cards : List Card) (draw : Nat → Nat) : List Card :=
  shuffleFrom draw (cards.length - 1) cards

/-- The draws of one shuffle of a 52-card deck: for every index `i + 1` from 1 to 51 a
number from 0 to `i + 1`, a value `Math.floor(Math.random() * (i + 2))` can take. -/
abbrev DrawSeq := (i : Fin 51) → Fin (i.val + 2)

/-- The draws of a `DrawSeq` as the function `shuffle` reads them: the draw at index `i`
for `1 ≤ i ≤ 51` (no other index is read on a 52-card deck). -/
def DrawSeq.draw (s : DrawSeq) (i : Nat) : Nat :=
  if h : 1 ≤ i ∧ i ≤ 51 then (s ⟨i - 1, by omega⟩).val else 0

/-- The comparator of `Deck.sortHand`'s table `suitOrder`. -/
def suitOrder : Suit → Int
  | .diamonds => 0
  | .clubs => 1
  | .hearts => 2
  | .spades => 3

/-- The comparator passed to `hand.sort` in `Deck.sortHand`. -/
def compareCards (a b : Card) : Int :=
  if a.suit ≠ b.suit then suitOrder a.suit - suitOrder b.suit
  else valueIndex a.value - valueIndex b.value

/-- `Deck.sortHand`: `Array.prototype.sort` is a stable sort by the comparator; an
insertion sort that puts `a` before `b` when the comparator is not positive is one. -/
def Deck.sortHand (hand : List Card) : List Card :=
  hand.insertionSort (fun a b => compareCards a b ≤ 0)

/-- The place of a suit in the suit order of the rules, ♦ < ♣ < ♥ < ♠ (in the words of
the rules, not of the code; the code orders suits by the table `suitOrder`). -/
def Suit.order : Suit → Nat
  | .diamonds => 0
  | .clubs => 1
  | .hearts => 2
  | .spades => 3

/-- The order a sorted hand is in by the rules: first by suit, ♦ < ♣ < ♥ < ♠, and within a
suit by rank, 2 lowest and the ace highest. -/
def cardLE (a b : Card) : Prop :=
  a.suit.order < b.suit.order ∨ (a.suit = b.suit ∧ a.value.rank ≤ b.value.rank)

/-- The state of the `while` loop of `Deck.deal`. -/
structure DealState where
  hands : List (List Card)
  cards : List Card
  cardIndex : Nat

/-- The `while` loop of `Deck.deal` as long as the deck has a card to pop: as long as
fewer than `cardsPerPlayer * numPlayers` cards lie in the hands, pop the last card of the
deck and push it on hand `cardIndex % numPlayers`.  `none` when the deck is empty at a
`pop`, where JavaScript pushes `undefined` and goes on (`dealArrayLoop` below is the loop
for every roster, and agrees with this one wherever this one returns), or when the fuel
runs out with the loop still going. -/
def dealLoop (numPlayers cardsPerPlayer : Nat) : Nat → DealState → Option DealState
  | fuel, st =>
    if st.hands.flatten.length < cardsPerPlayer * numPlayers then
      match fuel with
      | 0 => none
      | fuel + 1 =>
        match st.cards.getLast? with
        | none => none
        | some card =>
          dealLoop numPlayers cardsPerPlayer fuel
            { hands := st.hands.modify (fun hand => hand ++ [card]) (st.cardIndex % numPlayers)
              cards := st.cards.dropLast
              cardIndex := st.cardIndex + 1 }
    else some st

/-- `Deck.deal(players)` on a deck holding `cards`, for `numPlayers = players.length`,
where the deck serves the roster: shuffle, deal round-robin from the end of the deck,
sort every hand.  Every pass of the loop adds one card, so `cardsPerPlayer * numPlayers`
passes are all it can make.  `none` where a hand would hold `undefined`
(`Deck.dealArrays` below is `deal` for every roster). -/
def Deck.deal (cards : List Card) (draw : Nat → Nat) (numPlayers : Nat) :
    Option (List (List Card)) :=
  let shuffled := Deck.shuffle cards draw
  let hands : List (List Card) := List.replicate numPlayers []
  let cardsPerPlayer := if numPlayers = 6 then 8 else 13
  (dealLoop numPlayers cardsPerPlayer (cardsPerPlayer * numPlayers)
      { hands := hands, cards := shuffled, cardIndex := 0 }).map
    (fun st => st.hands.map Deck.sortHand)

/-- The state of the `while` loop of `Deck.deal` for any roster: an entry of a hand is a
card or `undefined` (`none`). -/
structure DealArrays where
  hands : List (List (Option Card))
  cards : List Card
  cardIndex : Nat

/-- The `while` loop of `Deck.deal` for any roster: as long as fewer than
`cardsPerPlayer * numPlayers` entries lie in the hands, push `this.cards.pop()` on hand
`cardIndex % numPlayers`; `pop` gives the last card of the deck, and `undefined` once the
deck is empty.  `none` only when the fuel runs out with the loop still going. -/
def dealArrayLoop (numPlayers cardsPerPlayer : Nat) : Nat → DealArrays → Option DealArrays
  | fuel, st =>
    if st.hands.flatten.length < cardsPerPlayer * numPlayers then
      match fuel with
      | 0 => none
      | fuel + 1 =>
        dealArrayLoop numPlayers cardsPerPlayer fuel
          { hands := st.hands.modify (fun hand => hand ++ [st.cards.getLast?])
              (st.cardIndex % numPlayers)
            cards := st.cards.dropLast
            cardIndex := st.cardIndex + 1 }
    else some st

/-- `sortHand` on an array that may hold `undefined`: `Array.prototype.sort` sorts the
other entries with the comparator and puts the `undefined` entries after them, without
calling the comparator on them. -/
def Deck.sortArray (hand : List (Option Card)) : List (Option Card) :=
  (Deck.sortHand hand.reduceOption).map some ++ List.replicate (hand.count none) none

/-- `Deck.deal(players)` for any roster: shuffle, deal round-robin from the end of the
deck (`undefined` once it is empty), sort every hand.  Every pass of the loop adds one
entry, so `cardsPerPlayer * numPlayers` passes are all it can make. -/
def Deck.dealArrays (cards : List Card) (draw : Nat → Nat) (numPlayers : Nat) :
    Option (List (List (Option Card))) :=
  let shuffled := Deck.shuffle cards draw
  let hands : List (List (Option Card)) := List.replicate numPlayers []
  let cardsPerPlayer := if numPlayers = 6 then 8 else 13
  (dealArrayLoop numPlayers cardsPerPlayer (cardsPerPlayer * numPlayers)
      { hands := hands, cards := shuffled, cardIndex := 0 }).map
    (fun st => st.hands.map Deck.sortArray)

/-- The sizes in a state of the dealing loop: the lengths of the hands, the number of
cards left in the deck, and `cardIndex`. -/
def DealState.sizes (st : DealState) : List Nat × Nat × Nat :=
  (st.hands.map List.length, st.cards.length, st.cardIndex)

/-- The loop of `dealLoop` run on sizes alone: which branch the loop takes depends on
the state only through its sizes. -/
def dealSizes (numPlayers cardsPerPlayer : Nat) :
    Nat → List Nat × Nat × Nat → Option (List Nat × Nat × Nat)
  | fuel, (lens, left, cardIndex) =>
    if lens.sum < cardsPerPlayer * numPlayers then
      match fuel with
      | 0 => none
      | fuel + 1 =>
        if left = 0 then none
        else
          dealSizes numPlayers cardsPerPlayer fuel
            (lens.modify (fun len => len + 1) (cardIndex % numPlayers), left - 1, cardIndex + 1)
    else some (lens, left, cardIndex)

/-! ## Tricks and legal plays -/

/-- The opaque connection identity `socket.id`. -/
abbrev SocketId := Nat

/-- One entry `{ card, playerId }` of a trick. -/
structure TrickEntry where
  card : Card
  playerId : SocketId
  deriving DecidableEq, Repr

/-- The callback of both `reduce` calls in `getTrickWinner`. -/
def higherEntry (highest current : TrickEntry) : TrickEntry :=
  if valueIndex current.card.value > valueIndex highest.card.value then current else highest

/-- `Array.prototype.reduce` without an initial value: a `TypeError` on the empty array. -/
def reduce1 {α : Type} (f : α → α → α) : List α → Option α
  | [] => none
  | x :: xs => some (xs.foldl f x)

/-- `getTrickWinner(trick)`; reading `trick[0].card` of an empty trick is a `TypeError`. -/
def getTrickWinner (trick : List TrickEntry) : Option TrickEntry :=
  match trick with
  | [] => none
  | first :: _ =>
    let leadSuit := first.card.suit
    let spadesInTrick := trick.filter (fun p => p.card.suit == Suit.spades)
    if spadesInTrick.length > 0 then
      reduce1 higherEntry spadesInTrick
    else
      let leadSuitCards := trick.filter (fun p => p.card.suit == leadSuit)
      reduce1 higherEntry leadSuitCards

/-- `getValidPlays(hand, leadSuit, spadesBroken)`; `leadSuit` is a suit or `null`. -/
def getValidPlays (hand : List Card) (leadSuit : Option Suit) (spadesBroken : Bool) :
    List Card :=
  match leadSuit with
  | some lead =>
    let cardsInLeadSuit := hand.filter (fun c => c.suit == lead)
    if cardsInLeadSuit.length > 0 then cardsInLeadSuit else hand
  | none =>
    if !spadesBroken then
      let nonSpadeCards := hand.filter (fun c => c.suit != Suit.spades)
      if nonSpadeCards.length > 0 then nonSpadeCards else hand
    else hand

/-! ## Session data and scoring -/

/-- A seat of the roster, one JavaScript object.  `ref` is not a field of the object but
its identity (objects are numbered as they are created), by which a closure that holds
the object finds it again.  `isHost` and `disconnected` are `false` where the object has
no such field; `team`, `bid` and `hand` are `none` where they are `undefined` or
`null`; `tricksWon` counts up from 0 within a round (a player pushed by `joinGame` has
none until the next deal, and nothing on the server reads it before).  A hand dealt from
a deck that ran out is an array holding `undefined` entries: it is kept in
`undefinedHand`, with `hand` at `none`, since `filter` and `some` with the callbacks of
the handlers throw on such an array as they do on `undefined`, and only its `length` can
be read. -/
structure Player where
  ref : Nat
  id : SocketId
  username : String
  isHost : Bool
  disconnected : Bool
  team : Option String
  bid : Option Int
  tricksWon : Nat
  hand : Option (List Card)
  undefinedHand : Option (List (Option Card)) := none
  deriving DecidableEq, Repr

/-- A team `{ name, players }`: the ids of its members as they were at team assignment. -/
structure Team where
  name : String
  players : List SocketId
  deriving DecidableEq, Repr

/-- A team's persistent entry `{ name, score, bags }` of `game.scores`. -/
structure ScoreEntry where
  name : String
  score : Int
  bags : Int
  deriving DecidableEq, Repr

/-- The values of `game.gameState`. -/
inductive GameState where
  | lobby
  | bidding
  | playing
  | finished
  deriving DecidableEq, Repr

/-- The value of `game.currentTurn`. -/
structure Turn where
  playerId : SocketId
  username : String
  deriving DecidableEq, Repr

/-- The value of `game.bidding`; `bids` maps a player id to the bid placed under it. -/
structure Bidding where
  currentPlayerIndex : Nat
  bids : List (SocketId × Int)
  deriving DecidableEq, Repr

/-- One session, the value of `games[gameCode]`.  The fields a session only gets in
`startNewRound` or `startTrick` hold `false`, `[]` or `none` before that.  `detached`
is not a field of the object: it keeps the player objects that `filter` has dropped
from `players` (kick, disconnect in the lobby), which a pending continuation may still
hold. -/
structure Game where
  host : SocketId
  players : List Player
  maxPlayers : Nat
  winScore : Int
  gameState : GameState
  teams : List Team
  scores : List ScoreEntry
  spadesBroken : Bool
  currentTrick : List TrickEntry
  currentTurn : Option Turn
  bidding : Option Bidding
  detached : List Player
  deriving DecidableEq, Repr

/-- The four accumulators of one team in `calculateScores`. -/
structure TeamTally where
  teamTotalBid : Int
  teamTotalTricksWon : Int
  teamRoundScore : Int
  bags : Int
  deriving DecidableEq, Repr

/-- The body of `team.players.forEach(playerId => ...)` in `calculateScores`: look the
player up by id, skip an id nobody holds, count the tricks, then either score the nil
bid or add the bid to the team's bid (`teamTotalBid += null` adds 0). -/
def tallyPlayer (game : Game) (acc : TeamTally) (playerId : SocketId) : TeamTally :=
  match game.players.find? (fun p => p.id == playerId) with
  | none => acc
  | some player =>
    let acc := { acc with teamTotalTricksWon := acc.teamTotalTricksWon + player.tricksWon }
    if player.bid = some 0 then
      if player.tricksWon = 0 then
        { acc with teamRoundScore := acc.teamRoundScore + 100 }
      else
        { acc with teamRoundScore := acc.teamRoundScore - 100
                   bags := acc.bags + player.tricksWon }
    else
      { acc with teamTotalBid := acc.teamTotalBid + player.bid.getD 0 }

/-- The `if (teamTotalBid > 0)` block of `calculateScores`. -/
def scoreTeamBid (acc : TeamTally) : TeamTally :=
  if acc.teamTotalBid > 0 then
    if acc.teamTotalTricksWon ≥ acc.teamTotalBid then
      { acc with teamRoundScore := acc.teamRoundScore + acc.teamTotalBid * 10
                 bags := acc.bags + (acc.teamTotalTricksWon - acc.teamTotalBid) }
    else
      { acc with teamRoundScore := acc.teamRoundScore - acc.teamTotalBid * 10 }
  else acc

/-- The accumulators after `forEach` has run over the member ids `ids`, all four
starting at 0. -/
def memberTally (game : Game) (ids : List SocketId) : TeamTally :=
  ids.foldl (tallyPlayer game)
    { teamTotalBid := 0, teamTotalTricksWon := 0, teamRoundScore := 0, bags := 0 }

/-- The round of one team in `calculateScores` up to the bag bookkeeping: the
accumulators after the members and the team bid have been scored. -/
def teamRound (game : Game) (team : Team) : TeamTally :=
  scoreTeamBid (memberTally game team.players)

/-- The members of a team that `calculateScores` finds: the players holding the ids
listed in `team.players`, in that order (an id nobody holds is skipped, as by
`if (!player) return`). -/
def teamMembers (game : Game) (team : Team) : List Player :=
  team.players.filterMap (fun playerId => game.players.find? (fun p => p.id == playerId))

/-- The sum of the bids of the members of a team (`teamBid` of the rules). -/
def teamBid (game : Game) (team : Team) : Int :=
  ((teamMembers game team).map (fun p => p.bid.getD 0)).sum

/-- The sum of the tricks won by the members of a team (`teamTricks` of the rules). -/
def teamTricks (game : Game) (team : Team) : Int :=
  ((teamMembers game team).map (fun p => (p.tricksWon : Int))).sum

/-- Two tallies added field by field. -/
def TeamTally.add (a d : TeamTally) : TeamTally :=
  { teamTotalBid := a.teamTotalBid + d.teamTotalBid
    teamTotalTricksWon := a.teamTotalTricksWon + d.teamTotalTricksWon
    teamRoundScore := a.teamRoundScore + d.teamRoundScore
    bags := a.bags + d.bags }

/-- The update of a team's `ScoreEntry` in `calculateScores`: add the round's bags
(`bags || 0` is `bags` for a number), take the bag penalty if the bags have reached 10
(an `if`, checked once), add the round score. -/
def applyRound (entry : ScoreEntry) (teamRoundScore bags : Int) : ScoreEntry :=
  let entry := { entry with bags := entry.bags + bags }
  let entry :=
    if entry.bags ≥ 10 then { entry with score := entry.score - 100, bags := entry.bags - 10 }
    else entry
  { entry with score := entry.score + teamRoundScore }

/-- The assignment `roundScores[teamIndex] = v` on a JavaScript array; `forEach` visits
the indices in order, so an index outside the array is its length. -/
def arrayAssign (xs : List Int) (i : Nat) (v : Int) : List Int :=
  if i < xs.length then xs.set i v else xs ++ [v]

/-- One pass of `game.teams.forEach((team, teamIndex) => ...)`: the state is the game
and `roundScores`; a `teamIndex` without a score entry is a `TypeError`. -/
def scoreTeam (st : Game × List Int) (team : Team) (teamIndex : Nat) :
    Option (Game × List Int) :=
  let game := st.1
  let tally := teamRound game team
  match game.scores[teamIndex]? with
  | none => none
  | some currentTotalScore =>
    some ({ game with
              scores := game.scores.set teamIndex
                (applyRound currentTotalScore tally.teamRoundScore tally.bags) },
          arrayAssign st.2 teamIndex (tally.teamRoundScore - tally.bags))

/-- The `forEach` over `game.teams`, from index `teamIndex` on. -/
def scoreTeams : List Team → Nat → Game × List Int → Option (Game × List Int)
  | [], _, st => some st
  | team :: rest, teamIndex, st =>
    match scoreTeam st team teamIndex with
    | none => none
    | some st => scoreTeams rest (teamIndex + 1) st

/-- `calculateScores(game)`: the game with its `scores` updated, and `roundScores`. -/
def calculateScores (game : Game) : Option (Game × List Int) :=
  scoreTeams game.teams 0 (game, [0, 0])

/-! ## Session handlers (`server.js`)

One session is followed: `games[gameCode]` is the `Game` the handler is given, and the
`socket.id` of the sender is an argument.  An uncaught `TypeError` in a handler is
`none`.  Of the events a handler emits only the `winner` of `gameOver` is kept; a
`setTimeout` call is returned as a `Timer`. -/

/-- Mutating the object that `array.find(p)` returns: the first element satisfying `p`
is replaced by `f` of it. -/
def updateFirst {α : Type} (p : α → Bool) (f : α → α) : List α → List α
  | [] => []
  | x :: xs => if p x then f x :: xs else x :: updateFirst p f xs

/-- The assignment `object[key] = value` on an object used as a map. -/
def objectAssign (entries : List (SocketId × Int)) (key : SocketId) (value : Int) :
    List (SocketId × Int) :=
  if entries.any (fun e => e.1 == key) then
    entries.map (fun e => if e.1 == key then (key, value) else e)
  else entries ++ [(key, value)]

/-- The callbacks handed to `setTimeout`: the end of a trick (closing over the winning
entry and the winning player object, named by its `ref`), the start of the next round,
and the deletion of the session. -/
inductive Timer where
  | trickEnd (winner : TrickEntry) (winningPlayer : Nat)
  | newRound
  | teardown
  deriving DecidableEq, Repr

/-- What a handler leaves behind: the session, the timers it has set, and the `winner`
of the `gameOver` event if it has emitted one. -/
structure Reply where
  game : Game
  timers : List Timer
  gameOver : Option String
  deriving DecidableEq, Repr

/-- A handler that returns without touching the session. -/
def Reply.unchanged (game : Game) : Reply :=
  { game := game, timers := [], gameOver := none }

/-- The handler of `createGame`; `players` and `winScore` are the parsed integers. -/
def createGame (socketId : SocketId) (username : String) (players : Nat) (winScore : Int) :
    Game :=
  { host := socketId
    players := [{ ref := 0, id := socketId, username := username, isHost := true,
                  disconnected := false, team := none, bid := none, tricksWon := 0,
                  hand := none }]
    maxPlayers := players
    winScore := winScore
    gameState := GameState.lobby
    teams := []
    scores := [{ name := "Team 1", score := 0, bags := 0 },
               { name := "Team 2", score := 0, bags := 0 }]
    spadesBroken := false
    currentTrick := []
    currentTurn := none
    bidding := none
    detached := [] }

/-- The handler of `joinGame`: a disconnected player of that username is reconnected
under the new id; otherwise, unless the roster is full, a new player is pushed. -/
def joinGame (game : Game) (socketId : SocketId) (username : String) : Game :=
  match game.players.find? (fun p => p.disconnected && p.username == username) with
  | some _ =>
    { game with
        players := updateFirst (fun p => p.disconnected && p.username == username)
          (fun p => { p with disconnected := false, id := socketId }) game.players }
  | none =>
    if game.players.length ≥ game.maxPlayers then game
    else
      { game with
          players := game.players ++
            [{ ref := game.players.length + game.detached.length, id := socketId,
               username := username, isHost := false, disconnected := false, team := none,
               bid := none, tricksWon := 0, hand := none }] }

/-- The handler of `kickPlayer`: only for the host; every player of that id is dropped. -/
def kickPlayer (game : Game) (socketId playerId : SocketId) : Game :=
  if game.host ≠ socketId then game
  else
    { game with
        players := game.players.filter (fun p => p.id != playerId)
        detached := game.detached ++ game.players.filter (fun p => p.id == playerId) }

/-- The first `forEach` of `startNewRound`, for one player at index `i`. -/
def assignTeam (i : Nat) (p : Player) : Player :=
  { p with team := some (if i % 2 = 0 then "Team 1" else "Team 2") }

/-- The ids `startNewRound` pushes on the team of the given parity. -/
def teamIds (players : List Player) (parity : Nat) : List SocketId :=
  players.enum.filterMap (fun ip => if ip.1 % 2 = parity then some ip.2.id else none)

/-- The assignment `p.hand = hands[i]` of `startNewRound`: a hand of cards, or an array
holding `undefined`. -/
def takeHand (p : Player) (array : List (Option Card)) : Player :=
  if array.all Option.isSome then
    { p with hand := some array.reduceOption, undefinedHand := none }
  else { p with hand := none, undefinedHand := some array }

/-- The function `startNewRound`; `draw` gives the draws of the shuffle.  `none` when
there is no player (`game.players[0].id` is read at the end). -/
def startNewRound (game : Game) (draw : Nat → Nat) : Option Game :=
  let game := { game with gameState := GameState.bidding, spadesBroken := false }
  let game :=
    if game.teams.length = 0 then
      { game with
          players := game.players.enum.map (fun ip => assignTeam ip.1 ip.2)
          teams := [{ name := "Team 1", players := teamIds game.players 0 },
                    { name := "Team 2", players := teamIds game.players 1 }] }
    else game
  let game :=
    { game with players := game.players.map (fun (p : Player) => { p with bid := none, tricksWon := 0 }) }
  match Deck.dealArrays Deck.new draw game.players.length with
  | none => none
  | some hands =>
    let game :=
      { game with
          players := List.zipWith takeHand game.players hands
          bidding := some { currentPlayerIndex := 0, bids := [] } }
    match game.players[0]? with
    | none => none
    | some _ => some game

/-- The handler of `startGame`: only for the host, only with a full roster. -/
def startGame (game : Game) (socketId : SocketId) (draw : Nat → Nat) : Option Game :=
  if game.host ≠ socketId then some game
  else if game.players.length ≠ game.maxPlayers then some game
  else startNewRound game draw

/-- The call `getValidPlays(player.hand, leadSuit, spadesBroken)` where the hand may be
`undefined`: a `TypeError` (`none`) when `filter` is called on it, else the value
returned, which is `undefined` (`some none`) when the hand itself is returned. -/
def getValidPlaysOf (hand : Option (List Card)) (leadSuit : Option Suit)
    (spadesBroken : Bool) : Option (Option (List Card)) :=
  match hand with
  | some hand => some (some (getValidPlays hand leadSuit spadesBroken))
  | none => if leadSuit.isSome || !spadesBroken then none else some none

/-- The lead suit as the handlers compute it:
`currentTrick.length > 0 ? currentTrick[0].card.suit : null`. -/
def leadSuitOf (currentTrick : List TrickEntry) : Option Suit :=
  match currentTrick with
  | [] => none
  | first :: _ => some first.card.suit

/-- The function `setNextTurn`: the turn goes to the first player holding `playerId`. -/
def setNextTurn (game : Game) (playerId : SocketId) : Option Game :=
  match game.players.find? (fun p => p.id == playerId) with
  | none => none
  | some player =>
    let game :=
      { game with currentTurn := some { playerId := player.id, username := player.username } }
    match getValidPlaysOf player.hand (leadSuitOf game.currentTrick) game.spadesBroken with
    | none => none
    | some _ => some game

/-- The function `startTrick`. -/
def startTrick (game : Game) (startingPlayerId : SocketId) : Option Game :=
  setNextTurn { game with currentTrick := [] } startingPlayerId

/-- The handler of `submitBid`. -/
def submitBid (game : Game) (socketId : SocketId) (bid : Int) : Option Game :=
  if game.gameState ≠ GameState.bidding then some game
  else
    match game.bidding with
    | none => none
    | some bidding =>
      let playerIndex := bidding.currentPlayerIndex
      match game.players[playerIndex]? with
      | none => none
      | some player =>
        if player.id ≠ socketId then some game
        else
          let game :=
            { game with
                players := game.players.set playerIndex { player with bid := some bid }
                bidding := some
                  { currentPlayerIndex := bidding.currentPlayerIndex + 1
                    bids := objectAssign bidding.bids player.id bid } }
          if bidding.currentPlayerIndex + 1 ≥ game.players.length then
            match game.players[0]? with
            | none => none
            | some first => startTrick { game with gameState := GameState.playing } first.id
          else some game

/-- The handler of `playCard`. -/
def playCard (game : Game) (socketId : SocketId) (card : Card) : Option Reply :=
  if game.gameState ≠ GameState.playing then some (Reply.unchanged game)
  else
    match game.players.find? (fun p => p.id == socketId) with
    | none => some (Reply.unchanged game)
    | some player =>
      match game.currentTurn with
      | none => none
      | some currentTurn =>
        if player.id ≠ currentTurn.playerId then some (Reply.unchanged game)
        else
          match getValidPlaysOf player.hand (leadSuitOf game.currentTrick) game.spadesBroken,
              player.hand with
          | some (some validPlays), some hand =>
            if !validPlays.any (fun c => c.suit == card.suit && c.value == card.value) then
              some (Reply.unchanged game)
            else
              let game :=
                { game with
                    players := updateFirst (fun p => p.id == socketId)
                      (fun p => { p with
                        hand := some (hand.filter
                          (fun c => !(c.suit == card.suit && c.value == card.value))) })
                      game.players
                    currentTrick := game.currentTrick ++ [{ card := card, playerId := player.id }]
                    spadesBroken := if card.suit = Suit.spades then true else game.spadesBroken }
              if game.currentTrick.length = game.players.length then
                match getTrickWinner game.currentTrick with
                | none => none
                | some winner =>
                  match game.players.find? (fun p => p.id == winner.playerId) with
                  | none => none
                  | some winningPlayer =>
                    some
                      { game :=
                          { game with
                              players := updateFirst (fun p => p.id == winner.playerId)
                                (fun p => { p with tricksWon := p.tricksWon + 1 }) game.players }
                        timers := [Timer.trickEnd winner winningPlayer.ref]
                        gameOver := none }
              else
                let currentPlayerIndex := game.players.findIdx (fun p => p.id == player.id)
                let nextPlayerIndex := (currentPlayerIndex + 1) % game.players.length
                match game.players[nextPlayerIndex]? with
                | none => none
                | some next =>
                  (setNextTurn game next.id).map Reply.unchanged
          | _, _ => none

/-- The branch of the trick continuation that settles the round: `calculateScores`, the
win check by `findIndex`, then `gameOver` and the teardown timer, or the timer of the
next round. -/
def settleRound (game : Game) : Option Reply :=
  match calculateScores game with
  | none => none
  | some (game, _) =>
    match game.scores.findIdx? (fun s => s.score ≥ game.winScore) with
    | some winnerTeam =>
      match game.teams[winnerTeam]? with
      | none => none
      | some team =>
        some { game := { game with gameState := GameState.finished }
               timers := [Timer.teardown]
               gameOver := some team.name }
    | none => some { game := game, timers := [Timer.newRound], gameOver := none }

/-- The value of `player.hand.length`: a `TypeError` (`none`) where the hand is
`undefined`. -/
def Player.handLength (player : Player) : Option Nat :=
  match player.hand with
  | some hand => some hand.length
  | none => player.undefinedHand.map List.length

/-- The callback of the `setTimeout` in `playCard` (the end of a trick), closing over
`winner` and the winning player object. -/
def trickEnd (game : Game) (winner : TrickEntry) (winningPlayer : Nat) : Option Reply :=
  match (game.players ++ game.detached).find? (fun p => p.ref == winningPlayer) with
  | none => none
  | some player =>
    match player.handLength with
    | none => none
    | some length =>
      if length = 0 then settleRound game
      else (startTrick game winner.playerId).map Reply.unchanged

/-- The first step of the `disconnect` handler: in the lobby every player of that id is
dropped from the roster, in any other state the player found is marked disconnected. -/
def leaveRoster (game : Game) (socketId : SocketId) : Game :=
  if game.gameState = GameState.lobby then
    { game with
        players := game.players.filter (fun p => p.id != socketId)
        detached := game.detached ++ game.players.filter (fun p => p.id == socketId) }
  else
    { game with
        players := updateFirst (fun p => p.id == socketId)
          (fun p => { p with disconnected := true }) game.players }

/-- The second step of the `disconnect` handler, for the player object `player` that has
left: if it carries `isHost` and some player is connected, the first connected player
gets `isHost` and `game.host` becomes its id. -/
def transferHost (game : Game) (player : Player) : Game :=
  if player.isHost && game.players.any (fun p => !p.disconnected) then
    match game.players.find? (fun p => !p.disconnected) with
    | some newHost =>
      { game with
          players := updateFirst (fun p => !p.disconnected)
            (fun p => { p with isHost := true }) game.players
          host := newHost.id }
    | none => game
  else game

/-- The handler of `disconnect` for the session the socket is a player of: the session
as it is left, and whether it has been deleted from `games`. -/
def disconnect (game : Game) (socketId : SocketId) : Game × Bool :=
  match game.players.find? (fun p => p.id == socketId) with
  | none => (game, false)
  | some player =>
    let game := transferHost (leaveRoster game socketId) player
    (game, game.players.all (fun p => p.disconnected) || game.players.length == 0)

/-- The session right after `submitBid` has recorded `bid` for `player`, the player at
the cursor of `bidding`: the bid on the player and in `bids`, the cursor one further. -/
def recordBid (game : Game) (bidding : Bidding) (player : Player) (bid : Int) : Game :=
  { game with
      players := game.players.set bidding.currentPlayerIndex { player with bid := some bid }
      bidding := some
        { currentPlayerIndex := bidding.currentPlayerIndex + 1
          bids := objectAssign bidding.bids player.id bid } }

/-- A sequence of `submitBid` commands `(socket.id, bid)`, handled one after the other. -/
def submitBids : Game → List (SocketId × Int) → Option Game
  | game, [] => some game
  | game, (socketId, bid) :: rest =>
    match submitBid game socketId bid with
    | none => none
    | some game => submitBids game rest

/-- The session right after `playCard` has accepted `card` from `player`, whose hand is
`hand`, and before it looks whether the trick is full: the card is out of the hand and
on the trick, and `spadesBroken` is set if it is a spade. -/
def playedGame (game : Game) (socketId : SocketId) (player : Player) (hand : List Card)
    (card : Card) : Game :=
  { game with
      players := updateFirst (fun p => p.id == socketId)
        (fun p => { p with
          hand := some (hand.filter
            (fun c => !(c.suit == card.suit && c.value == card.value))) })
        game.players
      currentTrick := game.currentTrick ++ [{ card := card, playerId := player.id }]
      spadesBroken := if card.suit = Suit.spades then true else game.spadesBroken }

/-- The rest of `playCard` after the play of `player` is on the trick: the trick is
full, its winner is credited and the end of the trick is scheduled; or the turn goes
to the next seat. -/
def finishPlay (game : Game) (player : Player) : Option Reply :=
  if game.currentTrick.length = game.players.length then
    match getTrickWinner game.currentTrick with
    | none => none
    | some winner =>
      match game.players.find? (fun p => p.id == winner.playerId) with
      | none => none
      | some winningPlayer =>
        some
          { game :=
              { game with
                  players := updateFirst (fun p => p.id == winner.playerId)
                    (fun p => { p with tricksWon := p.tricksWon + 1 }) game.players }
            timers := [Timer.trickEnd winner winningPlayer.ref]
            gameOver := none }
  else
    let currentPlayerIndex := game.players.findIdx (fun p => p.id == player.id)
    let nextPlayerIndex := (currentPlayerIndex + 1) % game.players.length
    match game.players[nextPlayerIndex]? with
    | none => none
    | some next =>
      (setNextTurn game next.id).map Reply.unchanged

/-! ## Sessions over time

A session is followed from its creation: player commands are handled one at a time, and
a pending `setTimeout` callback fires as a step of its own. -/

/-- A session with what surrounds the `Game` object: the callbacks that `setTimeout`
holds and have not fired yet, and whether `games[gameCode]` still holds the session. -/
structure Session where
  game : Game
  timers : List Timer
  live : Bool

/-- One step of a session: a command of a connection, or the firing of the pending
timer at `index` (`draw` gives the draws of the shuffle where a round is started). -/
inductive Step where
  | joinGame (socketId : SocketId) (username : String)
  | kickPlayer (socketId playerId : SocketId)
  | startGame (socketId : SocketId) (draw : Nat → Nat)
  | submitBid (socketId : SocketId) (bid : Int)
  | playCard (socketId : SocketId) (card : Card)
  | disconnect (socketId : SocketId)
  | fire (index : Nat) (draw : Nat → Nat)

/-- The session right after `createGame`. -/
def Session.create (socketId : SocketId) (username : String) (players : Nat)
    (winScore : Int) : Session :=
  { game := createGame socketId username players winScore, timers := [], live := true }

/-- A pending timer fires: the end of a trick and the start of a round run on the `Game`
object their closure holds; the teardown deletes `games[gameCode]`. -/
def Session.fire (s : Session) (index : Nat) (draw : Nat → Nat) : Option Session :=
  match s.timers[index]? with
  | none => some s
  | some (Timer.trickEnd winner winningPlayer) =>
    (trickEnd s.game winner winningPlayer).map
      (fun reply =>
        { game := reply.game, timers := s.timers.eraseIdx index ++ reply.timers, live := s.live })
  | some Timer.newRound =>
    (startNewRound s.game draw).map
      (fun game => { game := game, timers := s.timers.eraseIdx index, live := s.live })
  | some Timer.teardown =>
    some { game := s.game, timers := s.timers.eraseIdx index, live := false }

/-- One step of a session; `none` when the handler throws.  A command for a session that
`games` no longer holds finds no game and changes nothing. -/
def Session.step (s : Session) : Step → Option Session
  | Step.fire index draw => s.fire index draw
  | Step.joinGame socketId username =>
    if s.live then some { s with game := joinGame s.game socketId username } else some s
  | Step.kickPlayer socketId playerId =>
    if s.live then some { s with game := kickPlayer s.game socketId playerId } else some s
  | Step.startGame socketId draw =>
    if s.live then (startGame s.game socketId draw).map (fun game => { s with game := game })
    else some s
  | Step.submitBid socketId bid =>
    if s.live then (submitBid s.game socketId bid).map (fun game => { s with game := game })
    else some s
  | Step.playCard socketId card =>
    if s.live then
      (playCard s.game socketId card).map
        (fun reply => { s with game := reply.game, timers := s.timers ++ reply.timers })
    else some s
  | Step.disconnect socketId =>
    if s.live then
      some { s with
               game := (disconnect s.game socketId).1
               live := !(disconnect s.game socketId).2 }
    else some s

/-- A sequence of steps, taken one after the other. -/
def Session.run : Session → List Step → Option Session
  | s, [] => some s
  | s, step :: rest =>
    match s.step step with
    | none => none
    | some s => s.run rest

/-- Whether a step starts a round (and deals): `startGame`, or the firing of the timer of
the next round. -/
def Step.startsRound (s : Session) : Step → Prop
  | Step.startGame _ _ => True
  | Step.fire index _ => s.timers[index]? = some Timer.newRound
  | _ => False

/-! ## Sample sessions -/

/-- A seat in the middle of a game: a bid, a number of tricks won, an empty hand; the
seats are created in the order of their ids 1, 2, 3, 4. -/
def seat (id : SocketId) (username team : String) (isHost : Bool) (bid : Int)
    (tricksWon : Nat) : Player :=
  { ref := id - 1, id := id, username := username, isHost := isHost, disconnected := false,
    team := some team, bid := some bid, tricksWon := tricksWon, hand := some [] }

/-- A four-player session at the end of a round (all 13 tricks played, the hands
empty), with the given bids and tricks won per seat and the given carried-in score and
bags of Team 1.  `calculateScores` reads its `players`, `teams` and `scores`. -/
def sampleGame (bids : List Int) (tricks : List Nat) (score1 bags1 : Int) : Game :=
  { host := 1
    players := [seat 1 "ann" "Team 1" true (bids.getD 0 0) (tricks.getD 0 0),
                seat 2 "bob" "Team 2" false (bids.getD 1 0) (tricks.getD 1 0),
                seat 3 "cat" "Team 1" false (bids.getD 2 0) (tricks.getD 2 0),
                seat 4 "dan" "Team 2" false (bids.getD 3 0) (tricks.getD 3 0)]
    maxPlayers := 4
    winScore := 500
    gameState := GameState.playing
    teams := [{ name := "Team 1", players := [1, 3] }, { name := "Team 2", players := [2, 4] }]
    scores := [{ name := "Team 1", score := score1, bags := bags1 },
               { name := "Team 2", score := 0, bags := 0 }]
    spadesBroken := true
    currentTrick := []
    currentTurn := some { playerId := 1, username := "ann" }
    bidding := some { currentPlayerIndex := 4,
                      bids := [(1, bids.getD 0 0), (2, bids.getD 1 0), (3, bids.getD 2 0),
                               (4, bids.getD 3 0)] }
    detached := [] }

/-- A four-player session in the middle of a round: eleven tricks are played, every
player holds two cards, no spade has been played, and `ann` at seat 0 is to lead. -/
def tableGame : Game :=
  { sampleGame [3, 2, 3, 4] [3, 2, 3, 3] 0 0 with
    players :=
      [{ seat 1 "ann" "Team 1" true 3 3 with hand := some [⟨.diamonds, .five⟩, ⟨.spades, .ace⟩] },
       { seat 2 "bob" "Team 2" false 2 2 with hand := some [⟨.diamonds, .king⟩, ⟨.clubs, .two⟩] },
       { seat 3 "cat" "Team 1" false 3 3 with hand := some [⟨.hearts, .nine⟩, ⟨.spades, .three⟩] },
       { seat 4 "dan" "Team 2" false 4 3 with hand := some [⟨.diamonds, .two⟩, ⟨.hearts, .queen⟩] }]
    spadesBroken := false }

/-- The session of `tableGame` at the start of its bidding: nobody has bid, no trick is
won, the cursor is at seat 0. -/
def biddingGame : Game :=
  { tableGame with
    players := tableGame.players.map (fun p => { p with bid := none, tricksWon := 0 })
    gameState := GameState.bidding
    bidding := some { currentPlayerIndex := 0, bids := [] } }

/-- A session at the end of a round in which both teams reach `winScore = 500`: Team 1
goes from 480 to 540, Team 2 from 470 to 510. -/
def bothWinGame : Game :=
  { sampleGame [3, 2, 3, 2] [4, 3, 4, 2] 480 0 with
    scores := [{ name := "Team 1", score := 480, bags := 0 },
               { name := "Team 2", score := 470, bags := 0 }] }

/-- The session `bothWinGame` after its last round is settled: `finished`, with the
final scores 540 and 510 and the hands played out. -/
def finishedGame : Game :=
  { bothWinGame with
    gameState := GameState.finished
    scores := [{ name := "Team 1", score := 540, bags := 2 },
               { name := "Team 2", score := 510, bags := 1 }] }

/-- The session `tableGame` after `ann`, whose turn it is, has lost her connection and
has joined again with the same username from connection 9. -/
def reconnectedGame : Game :=
  joinGame (disconnect tableGame 1).1 9 "ann"

/-- The commands that take a new session of four to the first lead: three players join,
the host starts the game (the shuffle swaps every card with itself), and the four seats
bid in seat order. -/
def openingSteps : List Step :=
  [Step.joinGame 2 "bob", Step.joinGame 3 "cat", Step.joinGame 4 "dan",
   Step.startGame 1 (fun i => i),
   Step.submitBid 1 3, Step.submitBid 2 2, Step.submitBid 3 3, Step.submitBid 4 4]

/-- The first trick after `openingSteps`: `ann` leads ♦5, and `bob`, `cat` and `dan`
follow with ♦4, ♦3 and ♦2. -/
def firstTrickSteps : List Step :=
  [Step.playCard 1 ⟨.diamonds, .five⟩, Step.playCard 2 ⟨.diamonds, .four⟩,
   Step.playCard 3 ⟨.diamonds, .three⟩, Step.playCard 4 ⟨.diamonds, .two⟩]

/-- The session `tableGame` after `ann` has led ♦5, `bob` has followed with ♦K and `cat`,
void in diamonds, has played ♥9: `dan` is to play the last card of the trick. -/
def lastCardGame : Game :=
  { tableGame with
    players :=
      [{ seat 1 "ann" "Team 1" true 3 3 with hand := some [⟨.spades, .ace⟩] },
       { seat 2 "bob" "Team 2" false 2 2 with hand := some [⟨.clubs, .two⟩] },
       { seat 3 "cat" "Team 1" false 3 3 with hand := some [⟨.spades, .three⟩] },
       { seat 4 "dan" "Team 2" false 4 3 with hand := some [⟨.diamonds, .two⟩, ⟨.hearts, .queen⟩] }]
    currentTrick := [⟨⟨.diamonds, .five⟩, 1⟩, ⟨⟨.diamonds, .king⟩, 2⟩, ⟨⟨.hearts, .nine⟩, 3⟩]
    currentTurn := some { playerId := 4, username := "dan" } }

/-- The commands `openingSteps` and a first trick in the middle of which `bob`
reconnects: `ann` leads ♦5, `bob` follows with ♦Q, disconnects and joins again from
connection 8, and `cat` plays ♦3; `dan` is to play the last card of the trick. -/
def reconnectInTrickSteps : List Step :=
  openingSteps ++
    [Step.playCard 1 ⟨.diamonds, .five⟩, Step.playCard 2 ⟨.diamonds, .queen⟩,
     Step.disconnect 2, Step.joinGame 8 "bob", Step.playCard 3 ⟨.diamonds, .three⟩]

/-- The commands `openingSteps` and a first trick after which `bob` reconnects: ♦5, ♦Q,
♦3 and ♦2 fill the trick, which the ♦Q of `bob` wins; while the end of the trick is
pending, `bob` disconnects and joins again from connection 8. -/
def reconnectAfterTrickSteps : List Step :=
  openingSteps ++
    [Step.playCard 1 ⟨.diamonds, .five⟩, Step.playCard 2 ⟨.diamonds, .queen⟩,
     Step.playCard 3 ⟨.diamonds, .three⟩, Step.playCard 4 ⟨.diamonds, .two⟩,
     Step.disconnect 2, Step.joinGame 8 "bob"]

/-- The commands that fill and start a session of five: four players join and the host
starts the game (the shuffle swaps every card with itself). -/
def fiveSeatSteps : List Step :=
  [Step.joinGame 2 "bob", Step.joinGame 3 "cat", Step.joinGame 4 "dan",
   Step.joinGame 5 "eve", Step.startGame 1 (fun i => i)]

/-! ## Legal plays -/

/-- C7. When the hand holds a card of the lead suit, `getValidPlays` returns exactly the
cards of the hand in the lead suit, in hand order, whatever `spadesBroken` is. -/
theorem getValidPlays_follow_suit (hand : List Card) (lead : Suit) (spadesBroken : Bool)
    (h : ∃ c ∈ hand, c.suit = lead) :
    getValidPlays hand (some lead) spadesBroken = hand.filter (fun c => c.suit == lead) := by
  obtain ⟨c, hc, hs⟩ := h
  have hmem : c ∈ hand.filter (fun c => c.suit == lead) := by
    simp [List.mem_filter, hc, hs]
  have hpos : 0 < (hand.filter (fun c => c.suit == lead)).length :=
    List.length_pos_of_mem hmem
  simp only [getValidPlays]
  rw [if_pos (by simpa using hpos)]

/-- The hand `[♦5, ♠A, ♦K]` with lead `♦` has the legal plays `[♦5, ♦K]`. -/
theorem getValidPlays_follow_suit_witness :
    getValidPlays [⟨.diamonds, .five⟩, ⟨.spades, .ace⟩, ⟨.diamonds, .king⟩]
      (some .diamonds) false = [⟨.diamonds, .five⟩, ⟨.diamonds, .king⟩] :=
  (getValidPlays_follow_suit [⟨.diamonds, .five⟩, ⟨.spades, .ace⟩, ⟨.diamonds, .king⟩]
    .diamonds false ⟨⟨.diamonds, .five⟩, by decide, rfl⟩).trans (by decide)

/-- C8. With no lead suit and spades unbroken, a hand that holds a non-spade card has
exactly its non-spade cards as legal plays, so no legal play is a spade. -/
theorem getValidPlays_no_spade_lead (hand : List Card)
    (h : ∃ c ∈ hand, c.suit ≠ Suit.spades) :
    getValidPlays hand none false = hand.filter (fun c => c.suit != Suit.spades) ∧
      ∀ c ∈ getValidPlays hand none false, c.suit ≠ Suit.spades := by
  obtain ⟨c, hc, hs⟩ := h
  have hmem : c ∈ hand.filter (fun c => c.suit != Suit.spades) := by
    simp [List.mem_filter, hc, hs]
  have hpos : 0 < (hand.filter (fun c => c.suit != Suit.spades)).length :=
    List.length_pos_of_mem hmem
  have heq : getValidPlays hand none false = hand.filter (fun c => c.suit != Suit.spades) := by
    simp only [getValidPlays]
    simp only [Bool.not_false, if_true]
    rw [if_pos (by simpa using hpos)]
  refine ⟨heq, ?_⟩
  intro d hd
  rw [heq] at hd
  simpa using (List.mem_filter.mp hd).2

/-- A hand with two spades and a heart may only lead the heart while spades are unbroken. -/
theorem getValidPlays_no_spade_lead_witness :
    getValidPlays [⟨.spades, .two⟩, ⟨.hearts, .nine⟩, ⟨.spades, .ace⟩] none false
        = [⟨.hearts, .nine⟩] ∧
      ∀ c ∈ getValidPlays [⟨.spades, .two⟩, ⟨.hearts, .nine⟩, ⟨.spades, .ace⟩] none false,
        c.suit ≠ Suit.spades :=
  ⟨(getValidPlays_no_spade_lead [⟨.spades, .two⟩, ⟨.hearts, .nine⟩, ⟨.spades, .ace⟩]
      ⟨⟨.hearts, .nine⟩, by decide, by decide⟩).1.trans (by decide),
   (getValidPlays_no_spade_lead [⟨.spades, .two⟩, ⟨.hearts, .nine⟩, ⟨.spades, .ace⟩]
      ⟨⟨.hearts, .nine⟩, by decide, by decide⟩).2⟩

/-- The legal plays are always one of three lists: the lead-suit cards, the non-spade
cards, or the whole hand; the first two only when they are not empty. -/
theorem getValidPlays_cases (hand : List Card) (leadSuit : Option Suit) (spadesBroken : Bool) :
    getValidPlays hand leadSuit spadesBroken = hand ∨
      (getValidPlays hand leadSuit spadesBroken ≠ [] ∧
        ∃ p : Card → Bool, getValidPlays hand leadSuit spadesBroken = hand.filter p) := by
  cases leadSuit with
  | some lead =>
    simp only [getValidPlays]
    split
    · rename_i hlen
      right
      exact ⟨List.ne_nil_of_length_pos hlen, _, rfl⟩
    · left; rfl
  | none =>
    simp only [getValidPlays]
    split
    · split
      · rename_i hlen
        right
        exact ⟨List.ne_nil_of_length_pos hlen, _, rfl⟩
      · left; rfl
    · left; rfl

/-- C9. For a non-empty hand `getValidPlays` returns a non-empty list of cards of the
hand (a sublist of it, in hand order); when the hand has no card of the lead suit (or
there is no lead suit) and the rule against leading spades does not apply (a lead suit
is set, or spades are broken, or the hand has only spades), it returns the whole hand. -/
theorem getValidPlays_nonempty_subset (hand : List Card) (leadSuit : Option Suit)
    (spadesBroken : Bool) (hne : hand ≠ []) :
    getValidPlays hand leadSuit spadesBroken ≠ [] ∧
      (getValidPlays hand leadSuit spadesBroken).Sublist hand ∧
      (∀ c ∈ getValidPlays hand leadSuit spadesBroken, c ∈ hand) ∧
      ((¬ ∃ lead, leadSuit = some lead ∧ ∃ c ∈ hand, c.suit = lead) →
        (¬ (leadSuit = none ∧ spadesBroken = false ∧ ∃ c ∈ hand, c.suit ≠ Suit.spades)) →
        getValidPlays hand leadSuit spadesBroken = hand) := by
  have hsub : (getValidPlays hand leadSuit spadesBroken).Sublist hand := by
    rcases getValidPlays_cases hand leadSuit spadesBroken with h | ⟨_, p, hp⟩
    · rw [h]
    · rw [hp]; exact List.filter_sublist hand
  refine ⟨?_, hsub, fun c hc => hsub.subset hc, ?_⟩
  · rcases getValidPlays_cases hand leadSuit spadesBroken with h | ⟨h, _⟩
    · rw [h]; exact hne
    · exact h
  · intro hfollow hlead
    cases leadSuit with
    | some lead =>
      simp only [getValidPlays]
      split
      · rename_i hlen
        exfalso
        obtain ⟨c, hc⟩ := List.exists_mem_of_length_pos hlen
        have hc2 := List.mem_filter.mp hc
        exact hfollow ⟨lead, rfl, c, hc2.1, by simpa using hc2.2⟩
      · rfl
    | none =>
      simp only [getValidPlays]
      split
      · split
        · rename_i hsb hlen
          exfalso
          obtain ⟨c, hc⟩ := List.exists_mem_of_length_pos hlen
          have hc2 := List.mem_filter.mp hc
          exact hlead ⟨rfl, by simpa using hsb, c, hc2.1, by simpa using hc2.2⟩
        · rfl
      · rfl

/-- A hand of spades only, led while spades are unbroken: the whole hand is legal. -/
theorem getValidPlays_nonempty_subset_witness :
    getValidPlays [⟨.spades, .two⟩, ⟨.spades, .ace⟩] none false ≠ [] ∧
      (getValidPlays [⟨.spades, .two⟩, ⟨.spades, .ace⟩] none false).Sublist
        [⟨.spades, .two⟩, ⟨.spades, .ace⟩] ∧
      (∀ c ∈ getValidPlays [⟨.spades, .two⟩, ⟨.spades, .ace⟩] none false,
        c ∈ [(⟨.spades, .two⟩ : Card), ⟨.spades, .ace⟩]) ∧
      getValidPlays [⟨.spades, .two⟩, ⟨.spades, .ace⟩] none false
        = [⟨.spades, .two⟩, ⟨.spades, .ace⟩] :=
  have h := getValidPlays_nonempty_subset [⟨.spades, .two⟩, ⟨.spades, .ace⟩] none false
    (by decide)
  ⟨h.1, h.2.1, h.2.2.1, h.2.2.2 (by decide) (by decide)⟩

/-! ## Trick evaluation -/

/-- The offsets in `VALUE_ORDER` order the values as their ranks do. -/
theorem valueIndex_le_iff (a b : Value) : valueIndex a ≤ valueIndex b ↔ a.rank ≤ b.rank := by
  cases a <;> cases b <;> decide

/-- Two values of the same rank are the same value. -/
theorem Value.rank_injective (a b : Value) (h : a.rank = b.rank) : a = b := by
  cases a <;> cases b <;> first | rfl | exact absurd h (by decide)

/-- The fold of `higherEntry` returns an entry of the list whose offset is maximal. -/
theorem foldl_higherEntry (xs : List TrickEntry) (x : TrickEntry) :
    xs.foldl higherEntry x ∈ x :: xs ∧
      ∀ e ∈ x :: xs, valueIndex e.card.value ≤ valueIndex (xs.foldl higherEntry x).card.value := by
  induction xs generalizing x with
  | nil => simp
  | cons y ys ih =>
    simp only [List.foldl_cons]
    obtain ⟨hmem, hmax⟩ := ih (higherEntry x y)
    have hx : valueIndex x.card.value ≤ valueIndex (higherEntry x y).card.value := by
      unfold higherEntry; split <;> omega
    have hy : valueIndex y.card.value ≤ valueIndex (higherEntry x y).card.value := by
      unfold higherEntry; split <;> omega
    have hin : higherEntry x y = x ∨ higherEntry x y = y := by
      unfold higherEntry; split <;> simp
    have htop := hmax (higherEntry x y) (List.mem_cons_self _ _)
    refine ⟨?_, ?_⟩
    · rcases List.mem_cons.mp hmem with h | h
      · rcases hin with h2 | h2
        · rw [h, h2]; exact List.mem_cons_self _ _
        · rw [h, h2]; exact List.mem_cons_of_mem _ (List.mem_cons_self _ _)
      · exact List.mem_cons_of_mem _ (List.mem_cons_of_mem _ h)
    · intro e he
      rcases List.mem_cons.mp he with h | h
      · rw [h]; exact le_trans hx htop
      · rcases List.mem_cons.mp h with h | h
        · rw [h]; exact le_trans hy htop
        · exact hmax e (List.mem_cons_of_mem _ h)

/-- On a non-empty list `reduce` with `higherEntry` returns an entry of the list of
maximal rank. -/
theorem reduce1_higherEntry (xs : List TrickEntry) (hne : xs ≠ []) :
    ∃ w, reduce1 higherEntry xs = some w ∧ w ∈ xs ∧
      ∀ e ∈ xs, e.card.value.rank ≤ w.card.value.rank := by
  cases xs with
  | nil => exact absurd rfl hne
  | cons x rest =>
    obtain ⟨hmem, hmax⟩ := foldl_higherEntry rest x
    exact ⟨rest.foldl higherEntry x, rfl, hmem,
      fun e he => (valueIndex_le_iff _ _).mp (hmax e he)⟩

/-- Among the entries of one suit of a trick of distinct cards, an entry other than
one of maximal rank has a strictly lower rank. -/
theorem rank_lt_of_distinct (trick : List TrickEntry) (hnodup : (trick.map (·.card)).Nodup)
    (w e : TrickEntry) (hw : w ∈ trick) (he : e ∈ trick) (hsuit : e.card.suit = w.card.suit)
    (hne : e ≠ w) (hle : e.card.value.rank ≤ w.card.value.rank) :
    e.card.value.rank < w.card.value.rank := by
  rcases Nat.lt_or_ge e.card.value.rank w.card.value.rank with h | h
  · exact h
  · exfalso
    have hval : e.card.value = w.card.value := Value.rank_injective _ _ (le_antisymm hle h)
    have hcard : e.card = w.card := by
      cases hc : e.card; cases hd : w.card
      rw [hc] at hsuit hval; rw [hd] at hsuit hval
      simp only at hsuit hval
      rw [hsuit, hval]
    exact hne (List.inj_on_of_nodup_map hnodup he hw hcard)

/-- C6. On a non-empty trick of pairwise distinct cards `getTrickWinner` returns an entry
`w` of the trick.  If the trick holds a spade, `w` is the spade of highest rank: every
other spade of the trick ranks strictly lower, whatever the lead suit.  If it holds no
spade, `w` is in the suit of `trick[0]` and every other entry of that suit ranks
strictly lower. -/
theorem getTrickWinner_highest (trick : List TrickEntry) (first : TrickEntry)
    (hfirst : trick.head? = some first) (hnodup : (trick.map (·.card)).Nodup) :
    ∃ w, getTrickWinner trick = some w ∧ w ∈ trick ∧
      ((∃ e ∈ trick, e.card.suit = Suit.spades) →
        w.card.suit = Suit.spades ∧
        ∀ e ∈ trick, e.card.suit = Suit.spades → e ≠ w →
          e.card.value.rank < w.card.value.rank) ∧
      ((¬ ∃ e ∈ trick, e.card.suit = Suit.spades) →
        w.card.suit = first.card.suit ∧
        ∀ e ∈ trick, e.card.suit = first.card.suit → e ≠ w →
          e.card.value.rank < w.card.value.rank) := by
  cases trick with
  | nil => simp at hfirst
  | cons x rest =>
    simp only [List.head?_cons, Option.some.injEq] at hfirst
    subst hfirst
    by_cases hsp : ∃ e ∈ x :: rest, e.card.suit = Suit.spades
    · obtain ⟨s, hs, hss⟩ := hsp
      have hmem : s ∈ (x :: rest).filter (fun p => p.card.suit == Suit.spades) := by
        simp only [List.mem_filter, beq_iff_eq]; exact ⟨hs, hss⟩
      obtain ⟨w, hw, hwmem, hwmax⟩ := reduce1_higherEntry _ (List.ne_nil_of_mem hmem)
      have hw2 := List.mem_filter.mp hwmem
      have hwsuit : w.card.suit = Suit.spades := by simpa using hw2.2
      refine ⟨w, ?_, hw2.1, ?_, ?_⟩
      · simp only [getTrickWinner]
        rw [if_pos (by simpa using List.length_pos_of_mem hmem)]
        exact hw
      · intro _
        refine ⟨hwsuit, fun e he hes hne => ?_⟩
        have hef : e ∈ (x :: rest).filter (fun p => p.card.suit == Suit.spades) := by
          simp only [List.mem_filter, beq_iff_eq]; exact ⟨he, hes⟩
        exact rank_lt_of_distinct _ hnodup w e hw2.1 he (hes.trans hwsuit.symm) hne
          (hwmax e hef)
      · intro hno
        exact absurd ⟨s, hs, hss⟩ hno
    · have hempty : (x :: rest).filter (fun p => p.card.suit == Suit.spades) = [] := by
        rw [List.filter_eq_nil_iff]
        intro e he hes
        exact hsp ⟨e, he, by simpa using hes⟩
      have hmem : x ∈ (x :: rest).filter (fun p => p.card.suit == x.card.suit) := by
        simp
      obtain ⟨w, hw, hwmem, hwmax⟩ := reduce1_higherEntry _ (List.ne_nil_of_mem hmem)
      have hw2 := List.mem_filter.mp hwmem
      have hwsuit : w.card.suit = x.card.suit := by simpa using hw2.2
      refine ⟨w, ?_, hw2.1, ?_, ?_⟩
      · simp only [getTrickWinner]
        rw [hempty, if_neg (by simp)]
        exact hw
      · intro hyes
        exact absurd hyes hsp
      · intro _
        refine ⟨hwsuit, fun e he hes hne => ?_⟩
        have hef : e ∈ (x :: rest).filter (fun p => p.card.suit == x.card.suit) := by
          simp only [List.mem_filter, beq_iff_eq]; exact ⟨he, hes⟩
        exact rank_lt_of_distinct _ hnodup w e hw2.1 he (hes.trans hwsuit.symm) hne
          (hwmax e hef)

/-- The trick `[♥K, ♠2, ♥A, ♠9]` is won by the ♠9 although hearts were led. -/
theorem getTrickWinner_highest_witness :
    ∃ w, getTrickWinner [⟨⟨.hearts, .king⟩, 1⟩, ⟨⟨.spades, .two⟩, 2⟩, ⟨⟨.hearts, .ace⟩, 3⟩,
        ⟨⟨.spades, .nine⟩, 4⟩] = some w ∧
      w ∈ [(⟨⟨.hearts, .king⟩, 1⟩ : TrickEntry), ⟨⟨.spades, .two⟩, 2⟩, ⟨⟨.hearts, .ace⟩, 3⟩,
        ⟨⟨.spades, .nine⟩, 4⟩] ∧
      w.card.suit = Suit.spades ∧ w = ⟨⟨.spades, .nine⟩, 4⟩ := by
  obtain ⟨w, hw, hmem, hsp, _⟩ := getTrickWinner_highest
    [⟨⟨.hearts, .king⟩, 1⟩, ⟨⟨.spades, .two⟩, 2⟩, ⟨⟨.hearts, .ace⟩, 3⟩, ⟨⟨.spades, .nine⟩, 4⟩]
    ⟨⟨.hearts, .king⟩, 1⟩ rfl (by decide)
  refine ⟨w, hw, hmem, (hsp ⟨⟨⟨.spades, .two⟩, 2⟩, by decide, rfl⟩).1, ?_⟩
  have h2 : getTrickWinner [⟨⟨.hearts, .king⟩, 1⟩, ⟨⟨.spades, .two⟩, 2⟩,
      ⟨⟨.hearts, .ace⟩, 3⟩, ⟨⟨.spades, .nine⟩, 4⟩] = some ⟨⟨.spades, .nine⟩, 4⟩ := by decide
  rw [h2] at hw
  exact (Option.some.inj hw).symm

/-! ## Scoring -/

/-- What one member id adds to the accumulators does not depend on what they hold. -/
theorem tallyPlayer_add (game : Game) (acc : TeamTally) (playerId : SocketId) :
    tallyPlayer game acc playerId
      = acc.add (tallyPlayer game
          { teamTotalBid := 0, teamTotalTricksWon := 0, teamRoundScore := 0, bags := 0 }
          playerId) := by
  unfold tallyPlayer
  cases game.players.find? (fun p => p.id == playerId) with
  | none => simp [TeamTally.add]
  | some player =>
    simp only
    split
    · split <;> simp [TeamTally.add, sub_eq_add_neg]
    · simp [TeamTally.add]

/-- Adding tallies is associative. -/
theorem tally_add_assoc (a b c : TeamTally) : (a.add b).add c = a.add (b.add c) := by
  simp only [TeamTally.add, TeamTally.mk.injEq]
  refine ⟨?_, ?_, ?_, ?_⟩ <;> ring

/-- Adding tallies is commutative. -/
theorem tally_add_comm (a b : TeamTally) : a.add b = b.add a := by
  simp only [TeamTally.add, TeamTally.mk.injEq]
  refine ⟨?_, ?_, ?_, ?_⟩ <;> ring

/-- The fold over member ids from any accumulators is the fold from 0, added. -/
theorem foldl_tallyPlayer_add (game : Game) (ids : List SocketId) (acc : TeamTally) :
    ids.foldl (tallyPlayer game) acc = acc.add (memberTally game ids) := by
  induction ids generalizing acc with
  | nil => simp [memberTally, TeamTally.add]
  | cons id rest ih =>
    simp only [memberTally, List.foldl_cons]
    rw [ih (tallyPlayer game acc id), ih (tallyPlayer game _ id), tallyPlayer_add game acc id,
      tally_add_assoc]

/-- The tally of a member list is the tally of the list without one member, plus what
that member adds. -/
theorem memberTally_insert (game : Game) (pre post : List SocketId) (playerId : SocketId) :
    memberTally game (pre ++ playerId :: post)
      = (memberTally game (pre ++ post)).add (tallyPlayer game
          { teamTotalBid := 0, teamTotalTricksWon := 0, teamRoundScore := 0, bags := 0 }
          playerId) := by
  have h1 : memberTally game (pre ++ playerId :: post)
      = ((memberTally game pre).add (tallyPlayer game
          { teamTotalBid := 0, teamTotalTricksWon := 0, teamRoundScore := 0, bags := 0 }
          playerId)).add (memberTally game post) := by
    simp only [memberTally, List.foldl_append, List.foldl_cons]
    rw [foldl_tallyPlayer_add, tallyPlayer_add]
    rfl
  have h2 : memberTally game (pre ++ post)
      = (memberTally game pre).add (memberTally game post) := by
    simp only [memberTally, List.foldl_append]
    rw [foldl_tallyPlayer_add]
    rfl
  rw [h1, h2, tally_add_assoc, tally_add_assoc,
    tally_add_comm (memberTally game post)]

/-- The tally of `id :: rest` is what `id` adds plus the tally of `rest`. -/
theorem memberTally_cons (game : Game) (playerId : SocketId) (rest : List SocketId) :
    memberTally game (playerId :: rest)
      = (tallyPlayer game
          { teamTotalBid := 0, teamTotalTricksWon := 0, teamRoundScore := 0, bags := 0 }
          playerId).add (memberTally game rest) := by
  have h := foldl_tallyPlayer_add game rest (tallyPlayer game
    { teamTotalBid := 0, teamTotalTricksWon := 0, teamRoundScore := 0, bags := 0 } playerId)
  simpa [memberTally] using h

/-- When every member found bid more than 0, the accumulators after the members are the
sum of the bids, the sum of the tricks, and no nil score or bags. -/
theorem memberTally_standard (game : Game) (ids : List SocketId)
    (hall : ∀ p ∈ teamMembers game { name := "", players := ids },
      ∃ b, p.bid = some b ∧ 0 < b) :
    memberTally game ids
      = { teamTotalBid := teamBid game { name := "", players := ids }
          teamTotalTricksWon := teamTricks game { name := "", players := ids }
          teamRoundScore := 0
          bags := 0 } := by
  induction ids with
  | nil => simp [memberTally, teamBid, teamTricks, teamMembers]
  | cons id rest ih =>
    have hrest : ∀ p ∈ teamMembers game { name := "", players := rest },
        ∃ b, p.bid = some b ∧ 0 < b := by
      intro p hp
      apply hall p
      simp only [teamMembers, List.filterMap_cons] at hp ⊢
      split
      · exact hp
      · exact List.mem_cons_of_mem _ hp
    rw [memberTally_cons, ih hrest]
    cases hfind : game.players.find? (fun p => p.id == id) with
    | none =>
      simp [tallyPlayer, hfind, TeamTally.add, teamBid, teamTricks, teamMembers]
    | some player =>
      obtain ⟨b, hb, hpos⟩ := hall player (by simp [teamMembers, hfind])
      have hne : ¬ (b = 0) := by omega
      simp [tallyPlayer, hfind, TeamTally.add, teamBid, teamTricks, teamMembers, hb, hne]

/-- C4. For a team whose members all bid more than 0, with `teamBid` the sum of their
bids and `teamTricks` the sum of their tricks: if `teamTricks ≥ teamBid` the round score
is `teamBid * 10` and the round bags are `teamTricks - teamBid`; if `teamTricks < teamBid`
the round score is `-(teamBid * 10)` and there are no round bags. -/
theorem teamRound_standard_bids (game : Game) (team : Team)
    (hall : ∀ p ∈ teamMembers game team, ∃ b, p.bid = some b ∧ 0 < b) :
    (teamTricks game team ≥ teamBid game team →
      (teamRound game team).teamRoundScore = teamBid game team * 10 ∧
      (teamRound game team).bags = teamTricks game team - teamBid game team) ∧
    (teamTricks game team < teamBid game team →
      (teamRound game team).teamRoundScore = -(teamBid game team * 10) ∧
      (teamRound game team).bags = 0) := by
  have hbidnn : 0 ≤ teamBid game team := by
    unfold teamBid
    apply List.sum_nonneg
    intro x hx
    obtain ⟨p, hp, rfl⟩ := List.mem_map.mp hx
    obtain ⟨b, hb, hpos⟩ := hall p hp
    rw [hb]; simp; omega
  have htally := memberTally_standard game team.players hall
  have hB : teamBid game { name := "", players := team.players } = teamBid game team := rfl
  have hT : teamTricks game { name := "", players := team.players } = teamTricks game team := rfl
  rw [hB, hT] at htally
  unfold teamRound
  rw [htally]
  unfold scoreTeamBid
  constructor
  · intro hge
    by_cases hpos : teamBid game team > 0
    · simp [hpos, hge]
    · have hz : teamBid game team = 0 := by omega
      have hnil : teamMembers game team = [] := by
        cases hm : teamMembers game team with
        | nil => rfl
        | cons p ps =>
          exfalso
          obtain ⟨b, hb, hbpos⟩ := hall p (by rw [hm]; exact List.mem_cons_self _ _)
          have hps : 0 ≤ (ps.map (fun p => p.bid.getD 0)).sum := by
            apply List.sum_nonneg
            intro x hx
            obtain ⟨q, hq, rfl⟩ := List.mem_map.mp hx
            obtain ⟨c, hc, hcpos⟩ := hall q (by rw [hm]; exact List.mem_cons_of_mem _ hq)
            rw [hc]; simp; omega
          have hsum : teamBid game team = b + (ps.map (fun p => p.bid.getD 0)).sum := by
            simp [teamBid, hm, hb]
          omega
      have htz : teamTricks game team = 0 := by simp [teamTricks, hnil]
      simp [hz, htz]
  · intro hlt
    have hpos : teamBid game team > 0 := by
      have hnn : 0 ≤ teamTricks game team := by
        unfold teamTricks
        apply List.sum_nonneg
        intro x hx
        obtain ⟨p, _, rfl⟩ := List.mem_map.mp hx
        exact Int.ofNat_nonneg _
      omega
    have hnge : ¬ (teamTricks game team ≥ teamBid game team) := by omega
    simp [hpos, hnge]

/-- Team 1 bids 2 + 2 and wins 4 + 3 tricks: 40 points and 3 bags. -/
theorem teamRound_standard_bids_witness :
    (teamRound (sampleGame [2, 3, 2, 3] [4, 3, 3, 3] 50 8)
        { name := "Team 1", players := [1, 3] }).teamRoundScore = 4 * 10 ∧
      (teamRound (sampleGame [2, 3, 2, 3] [4, 3, 3, 3] 50 8)
        { name := "Team 1", players := [1, 3] }).bags = 7 - 4 := by
  have hm : teamMembers (sampleGame [2, 3, 2, 3] [4, 3, 3, 3] 50 8)
      { name := "Team 1", players := [1, 3] }
      = [seat 1 "ann" "Team 1" true 2 4, seat 3 "cat" "Team 1" false 2 3] := by decide
  have hb : teamBid (sampleGame [2, 3, 2, 3] [4, 3, 3, 3] 50 8)
      { name := "Team 1", players := [1, 3] } = 4 := by decide
  have ht : teamTricks (sampleGame [2, 3, 2, 3] [4, 3, 3, 3] 50 8)
      { name := "Team 1", players := [1, 3] } = 7 := by decide
  have h := (teamRound_standard_bids (sampleGame [2, 3, 2, 3] [4, 3, 3, 3] 50 8)
    { name := "Team 1", players := [1, 3] } (by
      intro p hp
      rw [hm] at hp
      rcases List.mem_cons.mp hp with h | h
      · exact ⟨2, by rw [h]; rfl, by decide⟩
      · rw [List.mem_singleton] at h
        exact ⟨2, by rw [h]; rfl, by decide⟩)).1 (by rw [hb, ht]; decide)
  rw [hb, ht] at h
  exact h

/-- C3. A nil bidder (bid 0) who won no trick adds exactly 100 to the round score of the
team and nothing to its round bags: the round score and bags of the team are those of
the team's other members alone, plus 100 and plus 0. -/
theorem teamRound_nil_made (game : Game) (name : String) (pre post : List SocketId)
    (playerId : SocketId) (player : Player)
    (hfind : game.players.find? (fun p => p.id == playerId) = some player)
    (hbid : player.bid = some 0) (htricks : player.tricksWon = 0) :
    (teamRound game { name := name, players := pre ++ playerId :: post }).teamRoundScore
        = (teamRound game { name := name, players := pre ++ post }).teamRoundScore + 100 ∧
      (teamRound game { name := name, players := pre ++ playerId :: post }).bags
        = (teamRound game { name := name, players := pre ++ post }).bags + 0 := by
  have hins := memberTally_insert game pre post playerId
  have hone : tallyPlayer game
      { teamTotalBid := 0, teamTotalTricksWon := 0, teamRoundScore := 0, bags := 0 } playerId
      = { teamTotalBid := 0, teamTotalTricksWon := 0, teamRoundScore := 100, bags := 0 } := by
    simp [tallyPlayer, hfind, hbid, htricks]
  rw [hone] at hins
  simp only [teamRound, hins]
  generalize memberTally game (pre ++ post) = others
  simp only [scoreTeamBid, TeamTally.add, add_zero]
  split
  · split
    · exact ⟨by simp only []; ring, rfl⟩
    · exact ⟨by simp only []; ring, rfl⟩
  · exact ⟨rfl, rfl⟩

/-- The nil bidder `ann` made the nil: Team 1 scores 100 more than `cat` alone. -/
theorem teamRound_nil_made_witness :
    (teamRound (sampleGame [0, 4, 3, 4] [0, 5, 3, 5] 0 0)
        { name := "Team 1", players := [] ++ 1 :: [3] }).teamRoundScore
        = (teamRound (sampleGame [0, 4, 3, 4] [0, 5, 3, 5] 0 0)
            { name := "Team 1", players := [] ++ [3] }).teamRoundScore + 100 ∧
      (teamRound (sampleGame [0, 4, 3, 4] [0, 5, 3, 5] 0 0)
        { name := "Team 1", players := [] ++ 1 :: [3] }).bags
        = (teamRound (sampleGame [0, 4, 3, 4] [0, 5, 3, 5] 0 0)
            { name := "Team 1", players := [] ++ [3] }).bags + 0 :=
  teamRound_nil_made (sampleGame [0, 4, 3, 4] [0, 5, 3, 5] 0 0) "Team 1" [] [3] 1
    (seat 1 "ann" "Team 1" true 0 0) (by decide) (by decide) (by decide)

/-- C2, as the code has it. A nil bidder who won `t > 0` tricks adds `-100` to the round
score and `t` to the round bags, and its `t` tricks are also counted in the team's
tricks that are compared with the team's bid: the round of the team is the team-bid
scoring of the other members' accumulators with `t` more tricks, 100 points less and `t`
more bags.  When the other members' bids add up to no more than 0, the round score and
bags are those of the other members alone, minus 100 and plus `t`. -/
theorem teamRound_nil_failed (game : Game) (name : String) (pre post : List SocketId)
    (playerId : SocketId) (player : Player)
    (hfind : game.players.find? (fun p => p.id == playerId) = some player)
    (hbid : player.bid = some 0) (htricks : 0 < player.tricksWon) :
    teamRound game { name := name, players := pre ++ playerId :: post }
        = scoreTeamBid
            { teamTotalBid := (memberTally game (pre ++ post)).teamTotalBid
              teamTotalTricksWon :=
                (memberTally game (pre ++ post)).teamTotalTricksWon + player.tricksWon
              teamRoundScore := (memberTally game (pre ++ post)).teamRoundScore - 100
              bags := (memberTally game (pre ++ post)).bags + player.tricksWon } ∧
      ((memberTally game (pre ++ post)).teamTotalBid ≤ 0 →
        (teamRound game { name := name, players := pre ++ playerId :: post }).teamRoundScore
          = (teamRound game { name := name, players := pre ++ post }).teamRoundScore - 100 ∧
        (teamRound game { name := name, players := pre ++ playerId :: post }).bags
          = (teamRound game { name := name, players := pre ++ post }).bags
              + player.tricksWon) := by
  have hins := memberTally_insert game pre post playerId
  have hne : ¬ (player.tricksWon = 0) := by omega
  have hone : tallyPlayer game
      { teamTotalBid := 0, teamTotalTricksWon := 0, teamRoundScore := 0, bags := 0 } playerId
      = { teamTotalBid := 0, teamTotalTricksWon := player.tricksWon, teamRoundScore := -100,
          bags := player.tricksWon } := by
    simp [tallyPlayer, hfind, hbid, hne]
  rw [hone] at hins
  simp only [teamRound, hins]
  generalize memberTally game (pre ++ post) = others
  constructor
  · simp only [TeamTally.add, add_zero, sub_eq_add_neg]
  · intro hle
    have hnot : ¬ (others.teamTotalBid > 0) := by omega
    simp [scoreTeamBid, TeamTally.add, hnot, sub_eq_add_neg]

/-- The nil bidder `ann` won 2 tricks next to `cat`, who bid 3 and won 3: the round of
Team 1 is the team-bid scoring of `cat` with 5 tricks, 100 points less and 2 bags more. -/
theorem teamRound_nil_failed_witness :
    teamRound (sampleGame [0, 4, 3, 4] [2, 4, 3, 4] 0 0)
        { name := "Team 1", players := [] ++ 1 :: [3] }
      = { teamTotalBid := 3, teamTotalTricksWon := 5, teamRoundScore := -70, bags := 4 } :=
  (teamRound_nil_failed (sampleGame [0, 4, 3, 4] [2, 4, 3, 4] 0 0) "Team 1" [] [3] 1
    (seat 1 "ann" "Team 1" true 0 2) (by decide) (by decide) (by decide)).1.trans (by decide)

/-- The claim C2 fails where the other members bid: `ann` bids nil and wins 2 tricks,
her partner `cat` bids 3 and wins 3.  `cat` alone scores 30 with 0 bags; the team scores
-70 with 4 bags, not 2: the two tricks of the failed nil are bags once as the nil
bidder's and once more as tricks over the team's bid. -/
theorem teamRound_nil_failed_counterexample :
    (sampleGame [0, 4, 3, 4] [2, 4, 3, 4] 0 0).players.find? (fun p => p.id == 1)
        = some (seat 1 "ann" "Team 1" true 0 2) ∧
      (teamRound (sampleGame [0, 4, 3, 4] [2, 4, 3, 4] 0 0)
        { name := "Team 1", players := [3] }).bags = 0 ∧
      (teamRound (sampleGame [0, 4, 3, 4] [2, 4, 3, 4] 0 0)
        { name := "Team 1", players := [1, 3] }).bags = 4 ∧
      ¬ ((teamRound (sampleGame [0, 4, 3, 4] [2, 4, 3, 4] 0 0)
            { name := "Team 1", players := [1, 3] }).teamRoundScore
            = (teamRound (sampleGame [0, 4, 3, 4] [2, 4, 3, 4] 0 0)
                { name := "Team 1", players := [3] }).teamRoundScore - 100 ∧
          (teamRound (sampleGame [0, 4, 3, 4] [2, 4, 3, 4] 0 0)
            { name := "Team 1", players := [1, 3] }).bags
            = (teamRound (sampleGame [0, 4, 3, 4] [2, 4, 3, 4] 0 0)
                { name := "Team 1", players := [3] }).bags + 2) := by
  decide

/-- C1, the code at a failing input. Team 1 enters the round with a score of 20 and 9
bags in `[0, 9]`, bids 1 + 1 and wins all 13 tricks: 11 round bags.  `calculateScores`
takes the bag penalty once and leaves Team 1 with 10 bags, outside `[0, 9]`. -/
theorem calculateScores_bags_overflow :
    (calculateScores (sampleGame [1, 3, 1, 3] [13, 0, 0, 0] 20 9)).map
        (fun result => result.1.scores)
      = some [{ name := "Team 1", score := -60, bags := 10 },
              { name := "Team 2", score := -60, bags := 0 }] := by
  decide

/-- A team's round depends on the game only through its players. -/
theorem teamRound_congr (game game' : Game) (team : Team) (h : game'.players = game.players) :
    teamRound game' team = teamRound game team := by
  have htally : ∀ acc id, tallyPlayer game' acc id = tallyPlayer game acc id := by
    intro acc id
    simp only [tallyPlayer, h]
  simp only [teamRound, memberTally]
  congr 2
  funext acc id
  exact htally acc id

/-- Running `forEach` over teams `teams` from index `i` on, with a score entry for each:
the result is the game with only its `scores` changed; the entries below `i` are kept,
and the entry of each team is `applyRound` of the old entry with that team's round. -/
theorem scoreTeams_spec (teams : List Team) :
    ∀ (i : Nat) (game : Game) (roundScores : List Int),
      i + teams.length ≤ game.scores.length →
      ∃ scores roundScores',
        scoreTeams teams i (game, roundScores) = some ({ game with scores := scores }, roundScores') ∧
        scores.length = game.scores.length ∧
        (∀ k, k < i → scores[k]? = game.scores[k]?) ∧
        (∀ j team, teams[j]? = some team →
          scores[i + j]? = (game.scores[i + j]?).map (fun entry =>
            applyRound entry (teamRound game team).teamRoundScore (teamRound game team).bags)) := by
  induction teams with
  | nil =>
    intro i game roundScores _
    exact ⟨game.scores, roundScores, rfl, rfl, fun _ _ => rfl, fun j team h => by simp at h⟩
  | cons team rest ih =>
    intro i game roundScores hlen
    simp only [List.length_cons] at hlen
    have hi : i < game.scores.length := by omega
    obtain ⟨scores, roundScores', hrun, hlen', hkeep, hteam⟩ :=
      ih (i + 1)
        { game with
            scores := (game.scores.set i
              (applyRound game.scores[i] (teamRound game team).teamRoundScore
                (teamRound game team).bags)) }
        (arrayAssign roundScores i ((teamRound game team).teamRoundScore - (teamRound game team).bags))
        (by simp only [List.length_set]; omega)
    refine ⟨scores, roundScores', ?_, ?_, ?_, ?_⟩
    · simp only [scoreTeams, scoreTeam, List.getElem?_eq_getElem hi]
      exact hrun
    · simpa using hlen'
    · intro k hk
      rw [hkeep k (by omega)]
      simp only
      rw [List.getElem?_set_ne (by omega)]
    · intro j t hj
      cases j with
      | zero =>
        simp only [List.getElem?_cons_zero, Option.some.injEq] at hj
        subst hj
        rw [Nat.add_zero, hkeep i (by omega)]
        simp [List.getElem?_eq_getElem hi, List.getElem?_set]
        exact hi
      | succ j =>
        simp only [List.getElem?_cons_succ] at hj
        have h := hteam j t hj
        rw [show i + (j + 1) = i + 1 + j by omega, h]
        simp only
        rw [List.getElem?_set_ne (by omega)]
        rfl

/-- C5. A team that carries `b` bags in `[0, 9]` into the round and earns `r` round bags
with `10 ≤ b + r ≤ 19` leaves `calculateScores` with `b + r - 10` bags and with the bag
penalty taken exactly once: its score is the old score plus the round score minus 100. -/
theorem calculateScores_single_rollover (game : Game) (k : Nat) (team : Team)
    (entry : ScoreEntry) (hteams : game.teams.length ≤ game.scores.length)
    (hteam : game.teams[k]? = some team) (hentry : game.scores[k]? = some entry)
    (hb : 0 ≤ entry.bags ∧ entry.bags ≤ 9)
    (hsum : 10 ≤ entry.bags + (teamRound game team).bags ∧
      entry.bags + (teamRound game team).bags ≤ 19) :
    ∃ game' roundScores, calculateScores game = some (game', roundScores) ∧
      game'.scores[k]? = some
        { name := entry.name
          score := entry.score + (teamRound game team).teamRoundScore - 100
          bags := entry.bags + (teamRound game team).bags - 10 } ∧
      0 ≤ entry.bags + (teamRound game team).bags - 10 ∧
      entry.bags + (teamRound game team).bags - 10 ≤ 9 := by
  obtain ⟨scores, roundScores', hrun, _, _, hscore⟩ :=
    scoreTeams_spec game.teams 0 game [0, 0] (by omega)
  refine ⟨{ game with scores := scores }, roundScores', hrun, ?_, by omega, by omega⟩
  have h := hscore k team hteam
  rw [Nat.zero_add, hentry] at h
  simp only [h, Option.map_some', applyRound]
  rw [if_pos hsum.1]
  simp only [Option.some.injEq, ScoreEntry.mk.injEq, true_and, and_true]
  ring

/-- Team 1 enters with 8 bags and a score of 50, bids 2 + 2 and wins 4 + 3 tricks (40
points, 3 bags): it leaves with 1 bag and a score of 50 + 40 - 100. -/
theorem calculateScores_single_rollover_witness :
    ∃ game' roundScores,
      calculateScores (sampleGame [2, 3, 2, 3] [4, 3, 3, 3] 50 8) = some (game', roundScores) ∧
      game'.scores[0]? = some { name := "Team 1", score := -10, bags := 1 } := by
  have hs : (teamRound (sampleGame [2, 3, 2, 3] [4, 3, 3, 3] 50 8)
      { name := "Team 1", players := [1, 3] }).teamRoundScore = 40 := by decide
  have hr : (teamRound (sampleGame [2, 3, 2, 3] [4, 3, 3, 3] 50 8)
      { name := "Team 1", players := [1, 3] }).bags = 3 := by decide
  obtain ⟨game', roundScores, hrun, hscore, _⟩ :=
    calculateScores_single_rollover (sampleGame [2, 3, 2, 3] [4, 3, 3, 3] 50 8) 0
      { name := "Team 1", players := [1, 3] } { name := "Team 1", score := 50, bags := 8 }
      (by decide) (by decide) (by decide) (by decide) (by rw [hr]; decide)
  rw [hs, hr] at hscore
  exact ⟨game', roundScores, hrun, hscore⟩

/-! ## Shuffling and dealing -/

/-- Swapping two cards of a deck permutes it. -/
theorem swapAt_perm (cards : List Card) (i j : Nat) : (swapAt cards i j).Perm cards := by
  unfold swapAt
  split
  · rename_i ci cj hi hj
    obtain ⟨hi', hci⟩ := List.getElem?_eq_some_iff.mp hi
    obtain ⟨hj', hcj⟩ := List.getElem?_eq_some_iff.mp hj
    rw [List.perm_iff_count]
    intro b
    have hj2 : j < (cards.set i cj).length := by simpa using hj'
    rw [List.count_set _ _ _ _ hj2, List.count_set _ _ _ _ hi']
    have hget : (cards.set i cj)[j] = cj := by
      rw [List.getElem_set]
      split
      · rfl
      · exact hcj
    rw [hget, hci]
    have hle := List.boole_getElem_le_count b cards i hi'
    rw [hci] at hle
    split <;> split <;> simp_all
  · exact List.Perm.refl _

/-- The shuffle loop permutes the deck, whatever is drawn. -/
theorem shuffleFrom_perm (draw : Nat → Nat) (i : Nat) (cards : List Card) :
    (shuffleFrom draw i cards).Perm cards := by
  induction i generalizing cards with
  | zero => exact List.Perm.refl _
  | succ i ih => exact (ih _).trans (swapAt_perm _ _ _)

/-- `Deck.shuffle` permutes the deck. -/
theorem Deck.shuffle_perm (cards : List Card) (draw : Nat → Nat) :
    (Deck.shuffle cards draw).Perm cards :=
  shuffleFrom_perm draw _ cards

/-- Pushing a card on one hand adds at most that card to the cards held. -/
theorem flatten_modify_subperm (card : Card) (hands : List (List Card)) (i : Nat) :
    (hands.modify (fun hand => hand ++ [card]) i).flatten.Subperm (card :: hands.flatten) := by
  induction hands generalizing i with
  | nil => simp [List.nil_subperm]
  | cons hand rest ih =>
    cases i with
    | zero =>
      simp only [List.modify_zero_cons, List.flatten_cons, List.append_assoc]
      apply List.Perm.subperm
      exact (List.perm_middle).trans (List.Perm.refl _)
    | succ i =>
      simp only [List.modify_succ_cons, List.flatten_cons]
      have h1 : (hand ++ (rest.modify (fun hand => hand ++ [card]) i).flatten).Subperm
          (hand ++ card :: rest.flatten) := (List.subperm_append_left hand).mpr (ih i)
      exact h1.trans (List.perm_middle).subperm

/-- The cards in the hands after the dealing loop come from the hands and the deck
before it, each at most as often. -/
theorem dealLoop_subperm (numPlayers cardsPerPlayer : Nat) :
    ∀ (fuel : Nat) (st st' : DealState),
      dealLoop numPlayers cardsPerPlayer fuel st = some st' →
      st'.hands.flatten.Subperm (st.hands.flatten ++ st.cards) := by
  intro fuel
  induction fuel with
  | zero =>
    intro st st' h
    unfold dealLoop at h
    split at h
    · simp at h
    · simp only [Option.some.injEq] at h
      subst h
      exact (List.sublist_append_left _ _).subperm
  | succ fuel ih =>
    intro st st' h
    unfold dealLoop at h
    split at h
    · simp only at h
      split at h
      · simp at h
      · rename_i card hlast
        have hstep := ih _ _ h
        simp only at hstep
        have hcards : st.cards = st.cards.dropLast ++ [card] :=
          (List.dropLast_append_getLast? card hlast).symm
        refine hstep.trans ?_
        have h1 := (List.subperm_append_right st.cards.dropLast).mpr
          (flatten_modify_subperm card st.hands (st.cardIndex % numPlayers))
        refine h1.trans (List.Perm.subperm ?_)
        conv_rhs => rw [hcards]
        simp only [List.cons_append]
        rw [← List.append_assoc]
        exact (List.perm_append_singleton _ _).symm
    · simp only [Option.some.injEq] at h
      subst h
      exact (List.sublist_append_left _ _).subperm

/-- Pushing on a hand adds one to its length. -/
theorem map_length_modify (card : Card) (hands : List (List Card)) (i : Nat) :
    (hands.modify (fun hand => hand ++ [card]) i).map List.length
      = (hands.map List.length).modify (fun len => len + 1) i := by
  induction hands generalizing i with
  | nil => simp
  | cons hand rest ih =>
    cases i with
    | zero => simp
    | succ i => simp [ih i]

/-- The dealing loop and the loop on sizes run alike. -/
theorem dealLoop_sizes (numPlayers cardsPerPlayer : Nat) :
    ∀ (fuel : Nat) (st : DealState),
      (dealLoop numPlayers cardsPerPlayer fuel st).map DealState.sizes
        = dealSizes numPlayers cardsPerPlayer fuel st.sizes := by
  intro fuel
  induction fuel with
  | zero =>
    intro st
    unfold dealLoop dealSizes
    simp only [DealState.sizes, List.length_flatten]
    split <;> rfl
  | succ fuel ih =>
    intro st
    unfold dealLoop dealSizes
    simp only [DealState.sizes, List.length_flatten]
    split
    · cases hlast : st.cards.getLast? with
      | none =>
        have hnil : st.cards = [] := List.getLast?_eq_none_iff.mp hlast
        simp [hnil]
      | some card =>
        have hne : st.cards ≠ [] := by
          intro hnil; rw [hnil] at hlast; simp at hlast
        have hlen : st.cards.length ≠ 0 := by
          intro h0; exact hne (List.length_eq_zero.mp h0)
        simp only [if_neg hlen]
        rw [ih]
        simp only [DealState.sizes, map_length_modify, List.length_dropLast]
    · rfl

/-- Sorting a hand permutes it. -/
theorem Deck.sortHand_perm (hand : List Card) : (Deck.sortHand hand).Perm hand :=
  List.perm_insertionSort _ hand

/-- Sorting every hand permutes the cards held. -/
theorem flatten_map_sortHand_perm (hands : List (List Card)) :
    (hands.map Deck.sortHand).flatten.Perm hands.flatten := by
  induction hands with
  | nil => exact List.Perm.refl _
  | cons hand rest ih =>
    simp only [List.map_cons, List.flatten_cons]
    exact (Deck.sortHand_perm hand).append ih

/-- The fresh deck holds no card twice. -/
theorem Deck.new_nodup : Deck.new.Nodup := by decide

/-- C10. For 4 and for 6 players, whatever the order of the 52 cards of the deck and
whatever the shuffle draws, `Deck.deal` returns hands: as many as there are players, each
of exactly `cardsPerPlayer` cards (13 for 4 players, 8 for 6), with no card dealt twice
and every card dealt one of the 52 cards of the fresh deck. -/
theorem Deck.deal_hands (cards : List Card) (draw : Nat → Nat) (numPlayers : Nat)
    (hdeck : cards.Perm Deck.new) (hdraw : ∀ i, draw i ≤ i)
    (hn : numPlayers = 4 ∨ numPlayers = 6) :
    ∃ hands, Deck.deal cards draw numPlayers = some hands ∧
      hands.length = numPlayers ∧
      (∀ hand ∈ hands, hand.length = if numPlayers = 6 then 8 else 13) ∧
      hands.flatten.Nodup ∧
      ∀ c ∈ hands.flatten, c ∈ Deck.new := by
  have hperm : (Deck.shuffle cards draw).Perm Deck.new := (Deck.shuffle_perm cards draw).trans hdeck
  have hlen : (Deck.shuffle cards draw).length = 52 := by
    rw [hperm.length_eq]; decide
  -- the loop on sizes, run on the two table sizes
  have hrun : ∃ st, dealLoop numPlayers (if numPlayers = 6 then 8 else 13)
        ((if numPlayers = 6 then 8 else 13) * numPlayers)
        { hands := List.replicate numPlayers [], cards := Deck.shuffle cards draw, cardIndex := 0 }
          = some st ∧
        st.hands.map List.length
          = List.replicate numPlayers (if numPlayers = 6 then 8 else 13) := by
    have hsim := dealLoop_sizes numPlayers (if numPlayers = 6 then 8 else 13)
      ((if numPlayers = 6 then 8 else 13) * numPlayers)
      { hands := List.replicate numPlayers [], cards := Deck.shuffle cards draw, cardIndex := 0 }
    simp only [DealState.sizes, hlen] at hsim
    rcases hn with h | h
    · subst h
      have hsz : dealSizes 4 13 (13 * 4) ([0, 0, 0, 0], 52, 0)
          = some ([13, 13, 13, 13], 0, 52) := by decide
      simp only [List.replicate, List.map_cons, List.map_nil, List.length_nil,
        show ((4 : Nat) = 6) = False by decide, if_false] at hsim ⊢
      rw [hsz] at hsim
      cases hd : dealLoop 4 13 (13 * 4)
          { hands := [[], [], [], []], cards := Deck.shuffle cards draw, cardIndex := 0 } with
      | none => rw [hd] at hsim; simp at hsim
      | some st =>
        rw [hd] at hsim
        simp only [Option.map_some', Option.some.injEq, DealState.sizes, Prod.mk.injEq] at hsim
        exact ⟨st, rfl, hsim.1⟩
    · subst h
      have hsz : dealSizes 6 8 (8 * 6) ([0, 0, 0, 0, 0, 0], 52, 0)
          = some ([8, 8, 8, 8, 8, 8], 4, 48) := by decide
      simp only [List.replicate, List.map_cons, List.map_nil, List.length_nil,
        if_true] at hsim ⊢
      rw [hsz] at hsim
      cases hd : dealLoop 6 8 (8 * 6)
          { hands := [[], [], [], [], [], []], cards := Deck.shuffle cards draw,
            cardIndex := 0 } with
      | none => rw [hd] at hsim; simp at hsim
      | some st =>
        rw [hd] at hsim
        simp only [Option.map_some', Option.some.injEq, DealState.sizes, Prod.mk.injEq] at hsim
        exact ⟨st, rfl, hsim.1⟩
  obtain ⟨st, hst, hlens⟩ := hrun
  have hsub := dealLoop_subperm _ _ _ _ _ hst
  simp only [List.flatten_replicate_nil, List.nil_append] at hsub
  have hsub2 : (st.hands.map Deck.sortHand).flatten.Subperm Deck.new :=
    ((flatten_map_sortHand_perm st.hands).subperm.trans hsub).trans hperm.subperm
  refine ⟨st.hands.map Deck.sortHand, ?_, ?_, ?_, ?_, ?_⟩
  · simp only [Deck.deal, hst, Option.map_some']
  · have h := congrArg List.length hlens
    simpa using h
  · intro hand hhand
    obtain ⟨raw, hraw, rfl⟩ := List.mem_map.mp hhand
    have hmem : raw.length ∈ st.hands.map List.length := List.mem_map.mpr ⟨raw, hraw, rfl⟩
    rw [hlens] at hmem
    rw [Deck.sortHand, List.length_insertionSort]
    exact (List.mem_replicate.mp hmem).2
  · obtain ⟨l, hl, hls⟩ := hsub2
    exact hl.nodup_iff.mp (Deck.new_nodup.sublist hls)
  · exact fun c hc => hsub2.subset hc

/-- Dealing the fresh deck to 4 players with a shuffle that draws `i` at every index
(each card swapped with itself). -/
theorem Deck.deal_hands_witness :
    ∃ hands, Deck.deal Deck.new (fun i => i) 4 = some hands ∧
      hands.length = 4 ∧
      (∀ hand ∈ hands, hand.length = if 4 = 6 then 8 else 13) ∧
      hands.flatten.Nodup ∧
      ∀ c ∈ hands.flatten, c ∈ Deck.new :=
  Deck.deal_hands Deck.new (fun i => i) 4 (List.Perm.refl _) (fun i => Nat.le_refl i)
    (Or.inl rfl)

/-! ## Session handlers -/

/-- The test `validPlays.some(c => c.suit === card.suit && c.value === card.value)` is
membership of the card. -/
theorem any_same_card (validPlays : List Card) (card : Card) :
    validPlays.any (fun c => c.suit == card.suit && c.value == card.value) = true
      ↔ card ∈ validPlays := by
  rw [List.any_eq_true]
  constructor
  · rintro ⟨c, hc, h⟩
    have h2 : c.suit = card.suit ∧ c.value = card.value := by simpa using h
    have : c = card := by
      cases c; cases card
      simp only at h2
      rw [h2.1, h2.2]
    rw [← this]; exact hc
  · intro h
    exact ⟨card, h, by simp⟩

/-- C11. In state `playing`, a `playCard` that does not come from the id named by
`currentTurn`, or comes from an id no player of the roster holds, or whose card is not
among the legal plays `getValidPlays` gives for the sender's hand, the lead suit of the
current trick (none if the trick is empty) and `spadesBroken`, leaves the whole session
as it was and sets no timer. -/
theorem playCard_rejected (game : Game) (socketId : SocketId) (card : Card) (turn : Turn)
    (hstate : game.gameState = GameState.playing) (hturn : game.currentTurn = some turn)
    (hrej : socketId ≠ turn.playerId ∨
      game.players.find? (fun p => p.id == socketId) = none ∨
      ∃ player hand, game.players.find? (fun p => p.id == socketId) = some player ∧
        player.hand = some hand ∧
        card ∉ getValidPlays hand (leadSuitOf game.currentTrick) game.spadesBroken) :
    playCard game socketId card = some (Reply.unchanged game) := by
  unfold playCard
  rw [if_neg (by simp [hstate])]
  cases hfind : game.players.find? (fun p => p.id == socketId) with
  | none => rfl
  | some player =>
    have hid : player.id = socketId := by simpa using List.find?_some hfind
    simp only [hturn]
    by_cases hsame : player.id = turn.playerId
    · rw [if_neg (by simpa using hsame)]
      rcases hrej with hne | hnone | ⟨player', hand, hfind', hhand, hcard⟩
      · exact absurd (hid.symm.trans hsame) hne
      · rw [hfind] at hnone
        exact absurd hnone (by simp)
      · rw [hfind] at hfind'
        cases hfind'
        simp only [hhand, getValidPlaysOf]
        rw [if_pos]
        simp only [Bool.not_eq_true', ← Bool.not_eq_true, any_same_card]
        exact hcard
    · rw [if_pos (by simpa using hsame)]

/-- A `submitBid` from another id than that of the player at the cursor changes
nothing. -/
theorem submitBid_other (game : Game) (bidding : Bidding) (player : Player)
    (socketId : SocketId) (bid : Int)
    (hstate : game.gameState = GameState.bidding) (hbidding : game.bidding = some bidding)
    (hseat : game.players[bidding.currentPlayerIndex]? = some player)
    (hother : socketId ≠ player.id) :
    submitBid game socketId bid = some game := by
  unfold submitBid
  rw [if_neg (by simp [hstate])]
  simp only [hbidding, hseat]
  rw [if_pos (fun h => hother h.symm)]

/-- A `submitBid` from the player at the cursor, with a seat left after it: the bid is
recorded and the cursor moves on. -/
theorem submitBid_next (game : Game) (bidding : Bidding) (player : Player) (bid : Int)
    (hstate : game.gameState = GameState.bidding) (hbidding : game.bidding = some bidding)
    (hseat : game.players[bidding.currentPlayerIndex]? = some player)
    (hmore : bidding.currentPlayerIndex + 1 < game.players.length) :
    submitBid game player.id bid = some (recordBid game bidding player bid) := by
  unfold submitBid
  rw [if_neg (by simp [hstate])]
  simp only [hbidding, hseat]
  rw [if_neg (by simp)]
  simp only [List.length_set]
  rw [if_neg (by omega)]
  rfl

/-- Opening a trick for the player at seat 0, whose hand is dealt: the trick is empty
and the turn is that player's. -/
theorem startTrick_first (game : Game) (first : Player) (hand : List Card)
    (hfirst : game.players[0]? = some first) (hhand : first.hand = some hand) :
    startTrick game first.id
      = some { game with
                 currentTrick := []
                 currentTurn := some { playerId := first.id, username := first.username } } := by
  have hfind : game.players.find? (fun p => p.id == first.id) = some first := by
    cases hp : game.players with
    | nil => rw [hp] at hfirst; simp at hfirst
    | cons x xs =>
      rw [hp] at hfirst
      simp only [List.getElem?_cons_zero, Option.some.injEq] at hfirst
      subst hfirst
      simp [List.find?_cons]
  simp only [startTrick, setNextTurn, hfind, hhand, getValidPlaysOf]

/-- A `submitBid` from the player at the cursor, the last seat: the bid is recorded,
the state is `playing`, the trick is empty and the turn is that of seat 0. -/
theorem submitBid_last (game : Game) (bidding : Bidding) (player first : Player)
    (hand : List Card) (bid : Int)
    (hstate : game.gameState = GameState.bidding) (hbidding : game.bidding = some bidding)
    (hseat : game.players[bidding.currentPlayerIndex]? = some player)
    (hlast : bidding.currentPlayerIndex + 1 ≥ game.players.length)
    (hfirst : (recordBid game bidding player bid).players[0]? = some first)
    (hhand : first.hand = some hand) :
    submitBid game player.id bid
      = some { recordBid game bidding player bid with
                 gameState := GameState.playing
                 currentTrick := []
                 currentTurn := some { playerId := first.id, username := first.username } } := by
  unfold submitBid
  rw [if_neg (by simp [hstate])]
  simp only [hbidding, hseat]
  rw [if_neg (by simp)]
  simp only [List.length_set]
  rw [if_pos hlast]
  have hfirst' : (game.players.set bidding.currentPlayerIndex { player with bid := some bid })[0]?
      = some first := hfirst
  simp only [hfirst']
  exact startTrick_first _ first hand hfirst hhand

/-- Recording a bid keeps the ids of the roster. -/
theorem recordBid_ids (game : Game) (bidding : Bidding) (player : Player) (bid : Int)
    (hseat : game.players[bidding.currentPlayerIndex]? = some player) :
    (recordBid game bidding player bid).players.map (fun p => p.id)
      = game.players.map (fun p => p.id) := by
  obtain ⟨hlt, hget⟩ := List.getElem?_eq_some_iff.mp hseat
  apply List.ext_getElem?
  intro i
  simp only [recordBid, List.getElem?_map, List.getElem?_set]
  by_cases hi : bidding.currentPlayerIndex = i
  · subst hi
    simp [hlt, hseat]
  · simp [hi]

/-- The ids from the cursor on start with the id of the player at the cursor. -/
theorem drop_ids (players : List Player) (k : Nat) (player : Player)
    (hseat : players[k]? = some player) :
    (players.map (fun p => p.id)).drop k
      = player.id :: (players.map (fun p => p.id)).drop (k + 1) := by
  obtain ⟨hlt, hget⟩ := List.getElem?_eq_some_iff.mp hseat
  have hlt' : k < (players.map (fun p => p.id)).length := by simpa using hlt
  rw [List.drop_eq_getElem_cons hlt']
  simp [hget]

/-- From the cursor on, the bids of the remaining seats, each sent from the id of its
seat in seat order, are all accepted; the last one moves the session to `playing` with
an empty trick and the turn at seat 0. -/
theorem submitBids_run (pid : SocketId) (uname : String) (hand : List Card) :
    ∀ (bids : List Int) (game : Game) (bidding : Bidding),
      game.gameState = GameState.bidding → game.bidding = some bidding →
      bids ≠ [] → bidding.currentPlayerIndex + bids.length = game.players.length →
      (∃ first, game.players[0]? = some first ∧ first.id = pid ∧ first.username = uname ∧
        first.hand = some hand) →
      ∃ game', submitBids game
          (((game.players.map (fun p => p.id)).drop bidding.currentPlayerIndex).zip bids)
            = some game' ∧
        game'.gameState = GameState.playing ∧ game'.currentTrick = [] ∧
        game'.currentTurn = some { playerId := pid, username := uname } ∧
        game'.players.length = game.players.length ∧
        (∀ i, i < bidding.currentPlayerIndex → game'.players[i]? = game.players[i]?) ∧
        (∀ j bid, bids[j]? = some bid →
          ∃ p, game.players[bidding.currentPlayerIndex + j]? = some p ∧
            game'.players[bidding.currentPlayerIndex + j]? = some { p with bid := some bid }) := by
  intro bids
  induction bids with
  | nil => intro game bidding _ _ hne; exact absurd rfl hne
  | cons bid rest ih =>
    intro game bidding hstate hbidding _ hlen hfirst
    simp only [List.length_cons] at hlen
    have hlt : bidding.currentPlayerIndex < game.players.length := by omega
    have hseat : game.players[bidding.currentPlayerIndex]?
        = some game.players[bidding.currentPlayerIndex] := List.getElem?_eq_getElem hlt
    generalize game.players[bidding.currentPlayerIndex] = player at hseat
    rw [drop_ids game.players _ player hseat]
    simp only [List.zip_cons_cons, submitBids]
    -- seat 0 after the bid is recorded
    have hfirst' : ∃ first, (recordBid game bidding player bid).players[0]? = some first ∧
        first.id = pid ∧ first.username = uname ∧ first.hand = some hand := by
      obtain ⟨p0, h0, h1, h2, h3⟩ := hfirst
      simp only [recordBid, List.getElem?_set]
      by_cases hk : bidding.currentPlayerIndex = 0
      · rw [hk] at hseat
        rw [h0] at hseat
        have hp : p0 = player := Option.some.inj hseat
        rw [hp] at h1 h2 h3
        refine ⟨{ player with bid := some bid }, ?_, h1, h2, h3⟩
        simp [hk]
        intro hnil
        rw [hnil] at hlt
        simp at hlt
      · exact ⟨p0, by simp [hk, h0], h1, h2, h3⟩
    have hkeep : ∀ i, i ≠ bidding.currentPlayerIndex →
        (recordBid game bidding player bid).players[i]? = game.players[i]? := by
      intro i hi
      simp only [recordBid]
      rw [List.getElem?_set_ne (fun h => hi h.symm)]
    have hset : (recordBid game bidding player bid).players[bidding.currentPlayerIndex]?
        = some { player with bid := some bid } := by
      simp only [recordBid, List.getElem?_set]
      simp [hlt]
    cases rest with
    | nil =>
      obtain ⟨p0, h0, h1, h2, h3⟩ := hfirst'
      rw [submitBid_last game bidding player p0 hand bid hstate hbidding hseat
        (by simp at hlen; omega) h0 h3]
      simp only [List.zip_nil_right, List.zipWith_nil_right, submitBids]
      refine ⟨_, rfl, rfl, rfl, by rw [h1, h2], by simp [recordBid], ?_, ?_⟩
      · intro i hi
        exact hkeep i (by omega)
      · intro j b hj
        cases j with
        | zero =>
          simp only [List.getElem?_cons_zero, Option.some.injEq] at hj
          subst hj
          exact ⟨player, hseat, hset⟩
        | succ j => simp at hj
    | cons bid2 rest2 =>
      simp only [List.length_cons] at hlen
      rw [submitBid_next game bidding player bid hstate hbidding hseat (by omega)]
      simp only
      obtain ⟨game', hrun, hs, ht, hturn, hlen', hbefore, hbids⟩ :=
        ih (recordBid game bidding player bid)
          { currentPlayerIndex := bidding.currentPlayerIndex + 1
            bids := objectAssign bidding.bids player.id bid }
          hstate rfl (by simp) (by simp [recordBid]; omega) hfirst'
      rw [recordBid_ids game bidding player bid hseat] at hrun
      refine ⟨game', hrun, hs, ht, hturn, by rw [hlen']; simp [recordBid], ?_, ?_⟩
      · intro i hi
        rw [hbefore i (by simp only; omega)]
        exact hkeep i (by omega)
      · intro j b hj
        cases j with
        | zero =>
          simp only [List.getElem?_cons_zero, Option.some.injEq] at hj
          subst hj
          refine ⟨player, hseat, ?_⟩
          rw [Nat.add_zero, hbefore _ (by simp only; omega)]
          exact hset
        | succ j =>
          simp only [List.getElem?_cons_succ] at hj
          obtain ⟨p, hp, hp'⟩ := hbids j b hj
          simp only at hp hp'
          rw [show bidding.currentPlayerIndex + (j + 1) = bidding.currentPlayerIndex + 1 + j
            by omega]
          refine ⟨p, ?_, hp'⟩
          rw [← hkeep _ (by omega)]
          exact hp

/-- C12. In state `bidding`, with `player` the player at the cursor: a `submitBid` from
any other id changes nothing; a `submitBid` from the id of `player` is recorded on that
player and moves the cursor on by one, the state staying `bidding` while a seat is left
and becoming `playing`, with an empty trick and the turn at seat 0, after the last seat;
so the bids of the remaining seats, each sent from the id of its seat in seat order, are
all accepted and recorded and leave the session `playing`, the trick empty and the turn
at seat 0. -/
theorem submitBid_seat_order (game : Game) (bidding : Bidding) (player p0 : Player)
    (hand : List Card)
    (hstate : game.gameState = GameState.bidding) (hbidding : game.bidding = some bidding)
    (hseat : game.players[bidding.currentPlayerIndex]? = some player)
    (hfirst : game.players[0]? = some p0) (hhand : p0.hand = some hand) :
    (∀ socketId bid, socketId ≠ player.id → submitBid game socketId bid = some game) ∧
    (∀ bid, ∃ game', submitBid game player.id bid = some game' ∧
      game'.players
        = game.players.set bidding.currentPlayerIndex { player with bid := some bid } ∧
      game'.bidding.map (fun b => b.currentPlayerIndex)
        = some (bidding.currentPlayerIndex + 1) ∧
      (bidding.currentPlayerIndex + 1 < game.players.length →
        game'.gameState = GameState.bidding) ∧
      (bidding.currentPlayerIndex + 1 ≥ game.players.length →
        game'.gameState = GameState.playing ∧ game'.currentTrick = [] ∧
        game'.currentTurn = some { playerId := p0.id, username := p0.username })) ∧
    (∀ bids : List Int, bidding.currentPlayerIndex + bids.length = game.players.length →
      ∃ game', submitBids game
          (((game.players.map (fun p => p.id)).drop bidding.currentPlayerIndex).zip bids)
            = some game' ∧
        game'.gameState = GameState.playing ∧ game'.currentTrick = [] ∧
        game'.currentTurn = some { playerId := p0.id, username := p0.username } ∧
        (∀ j bid, bids[j]? = some bid →
          ∃ p, game.players[bidding.currentPlayerIndex + j]? = some p ∧
            game'.players[bidding.currentPlayerIndex + j]? = some { p with bid := some bid })) := by
  obtain ⟨hlt, _⟩ := List.getElem?_eq_some_iff.mp hseat
  refine ⟨?_, ?_, ?_⟩
  · intro socketId bid hother
    exact submitBid_other game bidding player socketId bid hstate hbidding hseat hother
  · intro bid
    by_cases hmore : bidding.currentPlayerIndex + 1 < game.players.length
    · refine ⟨_, submitBid_next game bidding player bid hstate hbidding hseat hmore,
        rfl, rfl, fun _ => hstate, fun h => ?_⟩
      omega
    · have hfirst' : ∃ q, (recordBid game bidding player bid).players[0]? = some q ∧
          q.id = p0.id ∧ q.username = p0.username ∧ q.hand = some hand := by
        simp only [recordBid, List.getElem?_set]
        by_cases hk : bidding.currentPlayerIndex = 0
        · rw [hk, hfirst] at hseat
          have hp : p0 = player := Option.some.inj hseat
          refine ⟨{ player with bid := some bid }, ?_, by rw [hp], by rw [hp], by rw [← hp]; exact hhand⟩
          simp [hk]
          intro hnil
          rw [hnil] at hlt
          simp at hlt
        · exact ⟨p0, by simp [hk, hfirst], rfl, rfl, hhand⟩
      obtain ⟨q, hq0, hq1, hq2, hq3⟩ := hfirst'
      refine ⟨_, submitBid_last game bidding player q hand bid hstate hbidding hseat
        (by omega) hq0 hq3, rfl, rfl, fun h => absurd h hmore, fun _ => ?_⟩
      exact ⟨rfl, rfl, by rw [hq1, hq2]⟩
  · intro bids hlen
    have hne : bids ≠ [] := by
      intro hnil
      rw [hnil] at hlen
      simp at hlen
      omega
    obtain ⟨game', hrun, hs, ht, hturn, _, _, hbids⟩ :=
      submitBids_run p0.id p0.username hand bids game bidding hstate hbidding hne hlen
        ⟨p0, hfirst, rfl, rfl, hhand⟩
    exact ⟨game', hrun, hs, ht, hturn, hbids⟩

/-- The four seats of `biddingGame` bid 3, 2, 0 and 4 in seat order: the session is
`playing`, the trick is empty and `ann` at seat 0 has the turn. -/
theorem submitBid_seat_order_witness :
    ∃ game', submitBids biddingGame [(1, 3), (2, 2), (3, 0), (4, 4)] = some game' ∧
      game'.gameState = GameState.playing ∧ game'.currentTrick = [] ∧
      game'.currentTurn = some { playerId := 1, username := "ann" } := by
  obtain ⟨game', hrun, hs, ht, hturn, _⟩ :=
    (submitBid_seat_order biddingGame { currentPlayerIndex := 0, bids := [] }
      { seat 1 "ann" "Team 1" true 3 3 with
        hand := some [⟨.diamonds, .five⟩, ⟨.spades, .ace⟩], bid := none, tricksWon := 0 }
      { seat 1 "ann" "Team 1" true 3 3 with
        hand := some [⟨.diamonds, .five⟩, ⟨.spades, .ace⟩], bid := none, tricksWon := 0 }
      [⟨.diamonds, .five⟩, ⟨.spades, .ace⟩] (by decide) (by decide) (by decide) (by decide)
      (by decide)).2.2 [3, 2, 0, 4] (by decide)
  exact ⟨game', hrun, hs, ht, hturn⟩

/-- It is `ann`'s turn in `tableGame`: a card played by `bob` is ignored. -/
theorem playCard_rejected_witness :
    playCard tableGame 2 ⟨.diamonds, .king⟩ = some (Reply.unchanged tableGame) :=
  playCard_rejected tableGame 2 ⟨.diamonds, .king⟩ { playerId := 1, username := "ann" }
    (by decide) (by decide) (Or.inl (by decide))

/-- When `find` returns an element, `updateFirst` changes the list at one index only:
there the element found stood, and `f` of it stands now. -/
theorem updateFirst_spec {α : Type} (p : α → Bool) (f : α → α) (l : List α) (x : α)
    (hfind : l.find? p = some x) :
    ∃ i : Nat, l[i]? = some x ∧ (∀ j : Nat, j < i → ∀ y, l[j]? = some y → p y = false) ∧
      (updateFirst p f l)[i]? = some (f x) ∧
      (∀ j : Nat, j ≠ i → (updateFirst p f l)[j]? = l[j]?) ∧
      (updateFirst p f l).length = l.length := by
  induction l with
  | nil => simp at hfind
  | cons a rest ih =>
    rw [List.find?_cons] at hfind
    cases hp : p a with
    | true =>
      rw [hp] at hfind
      simp only [Option.some.injEq] at hfind
      subst hfind
      refine ⟨0, by simp, fun j hj => absurd hj (Nat.not_lt_zero j), ?_, ?_, ?_⟩
      · simp [updateFirst, hp]
      · intro j hj
        cases j with
        | zero => exact absurd rfl hj
        | succ j => simp [updateFirst, hp]
      · simp [updateFirst, hp]
    | false =>
      rw [hp] at hfind
      obtain ⟨i, hi, hbefore, hat, hother, hlen⟩ := ih hfind
      refine ⟨i + 1, by simpa using hi, ?_, ?_, ?_, ?_⟩
      · intro j hj y hy
        cases j with
        | zero =>
          simp only [List.getElem?_cons_zero, Option.some.injEq] at hy
          rw [← hy]; exact hp
        | succ j =>
          simp only [List.getElem?_cons_succ] at hy
          exact hbefore j (by omega) y hy
      · simpa [updateFirst, hp] using hat
      · intro j hj
        cases j with
        | zero => simp [updateFirst, hp]
        | succ j =>
          have h := hother j (by omega)
          simpa [updateFirst, hp] using h
      · simp [updateFirst, hp, hlen]

/-- C15. A `joinGame` under the username of a disconnected player of the session is a
reconnect.  With `seat` the first disconnected player of that username in seat order:
only the roster of the session changes; it keeps its length and every other player;
at the index of `seat` stands `seat` with `disconnected` cleared and `id` the new
connection id, its `hand`, `bid`, `tricksWon` and `username` as before; no player is
added, whether the roster is full or not. -/
theorem joinGame_reconnect (game : Game) (socketId : SocketId) (username : String)
    (seat : Player)
    (hfind : game.players.find? (fun p => p.disconnected && p.username == username)
      = some seat) :
    joinGame game socketId username
        = { game with players := (joinGame game socketId username).players } ∧
      (joinGame game socketId username).players.length = game.players.length ∧
      ∃ i : Nat, game.players[i]? = some seat ∧
        (∀ j : Nat, j < i → ∀ p : Player, game.players[j]? = some p →
          ¬ (p.disconnected = true ∧ p.username = username)) ∧
        (joinGame game socketId username).players[i]?
          = some { seat with disconnected := false, id := socketId } ∧
        ({ seat with disconnected := false, id := socketId } : Player).hand = seat.hand ∧
        ({ seat with disconnected := false, id := socketId } : Player).bid = seat.bid ∧
        ({ seat with disconnected := false, id := socketId } : Player).tricksWon
          = seat.tricksWon ∧
        ({ seat with disconnected := false, id := socketId } : Player).username
          = seat.username ∧
        ∀ j : Nat, j ≠ i → (joinGame game socketId username).players[j]? = game.players[j]? := by
  obtain ⟨i, hi, hbefore, hat, hother, hlen⟩ :=
    updateFirst_spec (fun p => p.disconnected && p.username == username)
      (fun p => { p with disconnected := false, id := socketId }) game.players seat hfind
  have hjoin : joinGame game socketId username
      = { game with
            players := updateFirst (fun p => p.disconnected && p.username == username)
              (fun p => { p with disconnected := false, id := socketId }) game.players } := by
    simp only [joinGame, hfind]
  rw [hjoin]
  refine ⟨rfl, hlen, i, hi, ?_, hat, rfl, rfl, rfl, rfl, hother⟩
  intro j hj p hp hmatch
  have := hbefore j hj p hp
  simp [hmatch.1, hmatch.2] at this

/-- In `tableGame` with `cat` marked disconnected, a `joinGame` as `cat` from
connection 7 puts `cat`'s seat under id 7, although the roster is full. -/
theorem joinGame_reconnect_witness :
    (joinGame (disconnect tableGame 3).1 7 "cat").players.length = 4 ∧
      (joinGame (disconnect tableGame 3).1 7 "cat").players.map (fun p => (p.id, p.username))
        = [(1, "ann"), (2, "bob"), (7, "cat"), (4, "dan")] :=
  ⟨(joinGame_reconnect (disconnect tableGame 3).1 7 "cat"
      { seat 3 "cat" "Team 1" false 3 3 with
        hand := some [⟨.hearts, .nine⟩, ⟨.spades, .three⟩], disconnected := true }
      (by decide)).2.1.trans (by decide), by decide⟩

/-- C17. Settling a round of a session in state `playing` that has a team per score
entry: the session becomes `finished` if and only if some team's score, as settled, is
at least `winScore`; when it does, one `gameOver` is emitted, and its winner is the
first team in team order whose settled score is at least `winScore` (every team before
it is below), whether or not a later team qualifies too; otherwise the session stays
`playing`, no winner is announced and the next round is scheduled. -/
theorem settleRound_win_check (game : Game) (hstate : game.gameState = GameState.playing)
    (hlen : game.teams.length = game.scores.length) :
    ∃ reply, settleRound game = some reply ∧
      (calculateScores game).map (fun result => result.1.scores) = some reply.game.scores ∧
      (reply.game.gameState = GameState.finished ↔
        ∃ entry ∈ reply.game.scores, entry.score ≥ game.winScore) ∧
      (reply.game.gameState = GameState.finished →
        ∃ (i : Nat) (team : Team) (entry : ScoreEntry),
          game.teams[i]? = some team ∧ reply.game.scores[i]? = some entry ∧
          entry.score ≥ game.winScore ∧
          (∀ j : Nat, j < i → ∀ e : ScoreEntry, reply.game.scores[j]? = some e →
            e.score < game.winScore) ∧
          reply.gameOver = some team.name ∧ reply.timers = [Timer.teardown]) ∧
      (reply.game.gameState ≠ GameState.finished →
        reply.game.gameState = GameState.playing ∧ reply.gameOver = none ∧
        reply.timers = [Timer.newRound]) := by
  obtain ⟨scores, roundScores, hrun, hslen, _, _⟩ :=
    scoreTeams_spec game.teams 0 game [0, 0] (by omega)
  have hcalc : calculateScores game = some ({ game with scores := scores }, roundScores) := hrun
  cases hidx : scores.findIdx? (fun s => decide (s.score ≥ game.winScore)) with
  | none =>
    have hnone := List.findIdx?_eq_none_iff.mp hidx
    refine ⟨{ game := { game with scores := scores }, timers := [Timer.newRound],
              gameOver := none }, ?_, ?_, ?_, ?_, ?_⟩
    · simp only [settleRound, hcalc, hidx]
    · simp only [hcalc, Option.map_some']
    · simp only [hstate]
      constructor
      · intro h; exact absurd h (by decide)
      · rintro ⟨entry, hmem, hge⟩
        have := hnone entry hmem
        simp at this
        omega
    · intro h
      simp only [hstate] at h
      exact absurd h (by decide)
    · intro _
      exact ⟨hstate, rfl, rfl⟩
  | some w =>
    obtain ⟨hw, hpw, hbefore⟩ := List.findIdx?_eq_some_iff_getElem.mp hidx
    have hwt : w < game.teams.length := by omega
    refine ⟨{ game := { game with scores := scores, gameState := GameState.finished },
              timers := [Timer.teardown], gameOver := some game.teams[w].name },
            ?_, ?_, ?_, ?_, ?_⟩
    · simp only [settleRound, hcalc, hidx, List.getElem?_eq_getElem hwt]
    · simp only [hcalc, Option.map_some']
    · constructor
      · intro _
        exact ⟨scores[w], List.getElem_mem hw, by simpa using hpw⟩
      · intro _; rfl
    · intro _
      refine ⟨w, game.teams[w], scores[w], List.getElem?_eq_getElem hwt,
        List.getElem?_eq_getElem hw, by simpa using hpw, ?_, rfl, rfl⟩
      intro j hj e he
      obtain ⟨hjlt, hje⟩ := List.getElem?_eq_some_iff.mp he
      have := hbefore j hj
      rw [hje] at this
      simp at this
      omega
    · intro h
      exact absurd rfl h

/-- Both teams of `bothWinGame` pass 500 in the same settlement: the session is
`finished` and the winner announced is Team 1. -/
theorem settleRound_win_check_witness :
    ∃ reply, settleRound bothWinGame = some reply ∧
      reply.game.gameState = GameState.finished ∧
      reply.game.scores.map (fun entry => entry.score) = [540, 510] ∧
      reply.gameOver = some "Team 1" := by
  obtain ⟨reply, hrun, _, _, _, _⟩ := settleRound_win_check bothWinGame (by decide) (by decide)
  have hstate : (settleRound bothWinGame).map (fun r => r.game.gameState)
      = some GameState.finished := by decide
  have hscores : (settleRound bothWinGame).map
      (fun r => r.game.scores.map (fun entry => entry.score)) = some [540, 510] := by decide
  have hover : (settleRound bothWinGame).map (fun r => r.gameOver)
      = some (some "Team 1") := by decide
  rw [hrun] at hstate hscores hover
  simp only [Option.map_some', Option.some.injEq] at hstate hscores hover
  exact ⟨reply, hrun, hstate, hscores, hover⟩

/-- After `isHost` is set on the first connected player, that player is still the
first connected one. -/
theorem find?_updateFirst_isHost (players : List Player) (newHost : Player)
    (hfind : players.find? (fun p => !p.disconnected) = some newHost) :
    (updateFirst (fun p => !p.disconnected) (fun p => { p with isHost := true }) players).find?
        (fun p => !p.disconnected)
      = some { newHost with isHost := true } := by
  induction players with
  | nil => simp at hfind
  | cons a rest ih =>
    rw [List.find?_cons] at hfind
    cases hp : (!a.disconnected) with
    | true =>
      rw [hp] at hfind
      simp only [Option.some.injEq] at hfind
      subst hfind
      simp only [updateFirst, hp, if_true, List.find?_cons]
    | false =>
      rw [hp] at hfind
      simp only [updateFirst, hp, Bool.false_eq_true, if_false, List.find?_cons]
      exact ih hfind

/-- An element that does not satisfy `p` stays in the list under `updateFirst p`. -/
theorem mem_updateFirst_of_not {α : Type} (p : α → Bool) (f : α → α) (x : α) :
    ∀ l : List α, x ∈ l → p x = false → x ∈ updateFirst p f l := by
  intro l
  induction l with
  | nil => intro h; simp at h
  | cons a rest ih =>
    intro hmem hp
    simp only [updateFirst]
    split
    · rename_i ha
      rcases List.mem_cons.mp hmem with h | h
      · rw [← h, hp] at ha
        exact absurd ha (by decide)
      · exact List.mem_cons_of_mem _ h
    · rcases List.mem_cons.mp hmem with h | h
      · rw [h]; exact List.mem_cons_self _ _
      · exact List.mem_cons_of_mem _ (ih h hp)

/-- A player of another id stays in the roster when a player leaves it. -/
theorem mem_leaveRoster (game : Game) (socketId : SocketId) (other : Player)
    (hother : other ∈ game.players) (hid : other.id ≠ socketId) :
    other ∈ (leaveRoster game socketId).players := by
  unfold leaveRoster
  split
  · simp only [List.mem_filter]
    exact ⟨hother, by simpa using hid⟩
  · exact mem_updateFirst_of_not _ _ other game.players hother (by simpa using hid)

/-- C18. When the player who disconnects carries the host flag and a connected player
of another id remains in the roster, then after the `disconnect` handler the host of
the session is the first player in seat order that is connected: `game.host` is that
player's id and that player's `isHost` is `true`; the session is not deleted. -/
theorem disconnect_host_transfer (game : Game) (socketId : SocketId) (player other : Player)
    (hfind : game.players.find? (fun p => p.id == socketId) = some player)
    (hhost : player.isHost = true)
    (hother : other ∈ game.players) (hid : other.id ≠ socketId)
    (hconn : other.disconnected = false) :
    ∃ newHost, (disconnect game socketId).1.players.find? (fun p => !p.disconnected)
        = some newHost ∧
      (disconnect game socketId).1.host = newHost.id ∧ newHost.isHost = true ∧
      (disconnect game socketId).2 = false := by
  have hmem := mem_leaveRoster game socketId other hother hid
  have hany : (leaveRoster game socketId).players.any (fun p => !p.disconnected) = true := by
    rw [List.any_eq_true]
    exact ⟨other, hmem, by simp [hconn]⟩
  cases hf : (leaveRoster game socketId).players.find? (fun p => !p.disconnected) with
  | none =>
    exfalso
    rw [List.find?_eq_none] at hf
    exact hf other hmem (by simp [hconn])
  | some newHost =>
    have hgame : (disconnect game socketId).1
        = { leaveRoster game socketId with
              players := updateFirst (fun p => !p.disconnected)
                (fun p => { p with isHost := true }) (leaveRoster game socketId).players
              host := newHost.id } := by
      simp only [disconnect, hfind, transferHost, hhost, hany, Bool.and_self, if_true, hf]
    have hfound := find?_updateFirst_isHost _ newHost hf
    have hdel : (disconnect game socketId).2
        = ((disconnect game socketId).1.players.all (fun p => p.disconnected) ||
            (disconnect game socketId).1.players.length == 0) := by
      simp only [disconnect, hfind]
    refine ⟨{ newHost with isHost := true }, ?_, ?_, rfl, ?_⟩
    · rw [hgame]; exact hfound
    · rw [hgame]
    · rw [hdel, hgame]
      have hm := List.mem_of_find?_eq_some hfound
      have hc := List.find?_some hfound
      simp only [Bool.or_eq_false_iff]
      constructor
      · rw [← Bool.not_eq_true, List.all_eq_true]
        intro hall
        have hd : newHost.disconnected = true := hall { newHost with isHost := true } hm
        have hc2 : newHost.disconnected = false := by simpa using hc
        rw [hd] at hc2
        exact absurd hc2 (by decide)
      · have hpos : 0 < (updateFirst (fun p => !p.disconnected)
            (fun p => { p with isHost := true }) (leaveRoster game socketId).players).length :=
          List.length_pos_of_mem hm
        simp only [beq_eq_false_iff_ne, ne_eq]
        omega

/-- The host `ann` leaves `tableGame`: `bob`, the next connected seat, is the host. -/
theorem disconnect_host_transfer_witness :
    ∃ newHost, (disconnect tableGame 1).1.players.find? (fun p => !p.disconnected)
        = some newHost ∧
      (disconnect tableGame 1).1.host = newHost.id ∧ newHost.isHost = true ∧
      (disconnect tableGame 1).2 = false ∧ newHost.username = "bob" := by
  obtain ⟨newHost, h1, h2, h3, h4⟩ := disconnect_host_transfer tableGame 1
    { seat 1 "ann" "Team 1" true 3 3 with hand := some [⟨.diamonds, .five⟩, ⟨.spades, .ace⟩] }
    { seat 2 "bob" "Team 2" false 2 2 with hand := some [⟨.diamonds, .king⟩, ⟨.clubs, .two⟩] }
    (by decide) (by decide) (by decide) (by decide) (by decide)
  have hname : ((disconnect tableGame 1).1.players.find? (fun p => !p.disconnected)).map
      (fun p => p.username) = some "bob" := by decide
  rw [h1] at hname
  exact ⟨newHost, h1, h2, h3, h4, by simpa using hname⟩

/-- C13, the code at a failing input. At the end of a round `cat` (seat 2, Team 1, bid 3,
5 tricks) loses her connection and joins again from connection 7.  Without the
reconnect Team 1 (bids 3 + 3, tricks 4 + 5) scores 60 with 3 bags; after it
`calculateScores` finds only `ann` under the ids of Team 1 and scores 30 with 1 bag:
the bid and the tricks of the reconnected player are not counted. -/
theorem calculateScores_after_reconnect :
    (calculateScores (sampleGame [3, 2, 3, 2] [4, 2, 5, 2] 0 0)).map
        (fun result => result.1.scores)
      = some [{ name := "Team 1", score := 60, bags := 3 },
              { name := "Team 2", score := 40, bags := 0 }] ∧
    (joinGame (disconnect (sampleGame [3, 2, 3, 2] [4, 2, 5, 2] 0 0) 3).1 7 "cat").players.map
        (fun p => (p.id, p.username, p.team, p.bid, p.tricksWon))
      = [(1, "ann", some "Team 1", some 3, 4), (2, "bob", some "Team 2", some 2, 2),
         (7, "cat", some "Team 1", some 3, 5), (4, "dan", some "Team 2", some 2, 2)] ∧
    (calculateScores
        (joinGame (disconnect (sampleGame [3, 2, 3, 2] [4, 2, 5, 2] 0 0) 3).1 7 "cat")).map
        (fun result => result.1.scores)
      = some [{ name := "Team 1", score := 30, bags := 1 },
              { name := "Team 2", score := 40, bags := 0 }] := by
  decide

/-- C14, the code at a failing input. In `tableGame` it is the turn of `ann` (id 1, hand
♦5 ♠A, no lead suit, spades unbroken, so ♦5 is legal).  She loses her connection and
joins again from connection 9: her seat has id 9, `currentTurn` still names id 1, and
her `playCard` of ♦5 from connection 9 is ignored; so is one from the old id 1. -/
theorem playCard_after_reconnect :
    reconnectedGame.gameState = GameState.playing ∧
    reconnectedGame.currentTurn = some { playerId := 1, username := "ann" } ∧
    reconnectedGame.players.map (fun p => (p.id, p.username, p.disconnected, p.hand))
      = [(9, "ann", false, some [⟨.diamonds, .five⟩, ⟨.spades, .ace⟩]),
         (2, "bob", false, some [⟨.diamonds, .king⟩, ⟨.clubs, .two⟩]),
         (3, "cat", false, some [⟨.hearts, .nine⟩, ⟨.spades, .three⟩]),
         (4, "dan", false, some [⟨.diamonds, .two⟩, ⟨.hearts, .queen⟩])] ∧
    (⟨.diamonds, .five⟩ : Card) ∈ getValidPlays [⟨.diamonds, .five⟩, ⟨.spades, .ace⟩]
      (leadSuitOf reconnectedGame.currentTrick) reconnectedGame.spadesBroken ∧
    playCard reconnectedGame 9 ⟨.diamonds, .five⟩ = some (Reply.unchanged reconnectedGame) ∧
    playCard reconnectedGame 1 ⟨.diamonds, .five⟩ = some (Reply.unchanged reconnectedGame) := by
  decide

set_option maxRecDepth 100000 in
/-- C16, the code at a failing input. In the `finished` session `finishedGame` the host
(id 1, roster full) sends `startGame`: the session is in state `bidding` again, every
player holds 13 freshly dealt cards, the bids are cleared and the cursor is at seat 0. -/
theorem startGame_after_finished :
    finishedGame.gameState = GameState.finished ∧
    finishedGame.players.map (fun p => p.hand.map List.length)
      = [some 0, some 0, some 0, some 0] ∧
    (startGame finishedGame 1 (fun i => i)).map
        (fun game => (game.gameState, game.players.map (fun p => p.hand.map List.length),
          game.players.map (fun p => p.bid), game.bidding))
      = some (GameState.bidding, [some 13, some 13, some 13, some 13],
          [none, none, none, none], some { currentPlayerIndex := 0, bids := [] }) := by
  decide!

/-! ## The shuffle is unbiased -/

/-- The deck after a swap of two positions inside it, read position by position. -/
theorem getElem?_swapAt (cards : List Card) (i j k : Nat) (hi : i < cards.length)
    (hj : j < cards.length) :
    (swapAt cards i j)[k]?
      = if k = j then cards[i]? else if k = i then cards[j]? else cards[k]? := by
  have hci : cards[i]? = some cards[i] := List.getElem?_eq_getElem hi
  have hcj : cards[j]? = some cards[j] := List.getElem?_eq_getElem hj
  simp only [swapAt, hci, hcj]
  rw [List.getElem?_set, List.getElem?_set]
  by_cases hkj : k = j
  · subst hkj
    simp [hj]
  · by_cases hki : k = i
    · subst hki
      simp [hkj, Ne.symm hkj, hi]
    · simp [hkj, hki, Ne.symm hkj, Ne.symm hki]

/-- A swap keeps the length of the deck. -/
theorem length_swapAt (cards : List Card) (i j : Nat) :
    (swapAt cards i j).length = cards.length :=
  (swapAt_perm cards i j).length_eq

/-- The shuffle loop keeps the length of the deck. -/
theorem length_shuffleFrom (draw : Nat → Nat) (i : Nat) (cards : List Card) :
    (shuffleFrom draw i cards).length = cards.length :=
  (shuffleFrom_perm draw i cards).length_eq

/-- The shuffle loop from index `i` down leaves every position above `i` as it is, when
each draw is at most its index. -/
theorem shuffleFrom_above (draw : Nat → Nat) :
    ∀ (i : Nat) (cards : List Card), i < cards.length →
      (∀ m, 1 ≤ m → m ≤ i → draw m ≤ m) →
      ∀ k, i < k → (shuffleFrom draw i cards)[k]? = cards[k]? := by
  intro i
  induction i with
  | zero => intro cards _ _ k _; rfl
  | succ i ih =>
    intro cards hlen hdraw k hk
    have hj : draw (i + 1) ≤ i + 1 := hdraw (i + 1) (by omega) (by omega)
    simp only [shuffleFrom]
    rw [ih (swapAt cards (i + 1) (draw (i + 1))) (by rw [length_swapAt]; omega)
      (fun m h1 h2 => hdraw m h1 (by omega)) k (by omega)]
    rw [getElem?_swapAt cards (i + 1) (draw (i + 1)) k hlen (by omega)]
    rw [if_neg (by omega), if_neg (by omega)]

/-- The shuffle loop from index `i` down depends on the draws at indices 1 to `i` only. -/
theorem shuffleFrom_congr (draw draw' : Nat → Nat) :
    ∀ (i : Nat) (cards : List Card), (∀ m, 1 ≤ m → m ≤ i → draw m = draw' m) →
      shuffleFrom draw i cards = shuffleFrom draw' i cards := by
  intro i
  induction i with
  | zero => intro cards _; rfl
  | succ i ih =>
    intro cards h
    simp only [shuffleFrom]
    rw [h (i + 1) (by omega) (by omega)]
    exact ih _ (fun m h1 h2 => h m h1 (by omega))

/-- Two draw sequences that shuffle a deck of distinct cards to the same order are the
same sequence. -/
theorem shuffleFrom_injective (draw draw' : Nat → Nat) :
    ∀ (i : Nat) (cards : List Card), cards.Nodup → i < cards.length →
      (∀ m, 1 ≤ m → m ≤ i → draw m ≤ m) → (∀ m, 1 ≤ m → m ≤ i → draw' m ≤ m) →
      shuffleFrom draw i cards = shuffleFrom draw' i cards →
      ∀ m, 1 ≤ m → m ≤ i → draw m = draw' m := by
  intro i
  induction i with
  | zero => intro cards _ _ _ _ _ m h1 h2; omega
  | succ i ih =>
    intro cards hnodup hlen hd hd' heq m h1 h2
    have hj : draw (i + 1) ≤ i + 1 := hd (i + 1) (by omega) (by omega)
    have hj' : draw' (i + 1) ≤ i + 1 := hd' (i + 1) (by omega) (by omega)
    simp only [shuffleFrom] at heq
    -- position i + 1 of the result is the card drawn at index i + 1
    have htop : cards[draw (i + 1)]? = cards[draw' (i + 1)]? := by
      have h := congrArg (fun l : List Card => l[i + 1]?) heq
      simp only at h
      rw [shuffleFrom_above draw i _ (by rw [length_swapAt]; omega)
          (fun m h1 h2 => hd m h1 (by omega)) (i + 1) (by omega),
        shuffleFrom_above draw' i _ (by rw [length_swapAt]; omega)
          (fun m h1 h2 => hd' m h1 (by omega)) (i + 1) (by omega),
        getElem?_swapAt cards (i + 1) (draw (i + 1)) (i + 1) hlen (by omega),
        getElem?_swapAt cards (i + 1) (draw' (i + 1)) (i + 1) hlen (by omega)] at h
      by_cases e1 : i + 1 = draw (i + 1)
      · by_cases e2 : i + 1 = draw' (i + 1)
        · rw [← e1, ← e2]
        · rw [if_pos e1, if_neg e2, if_pos rfl] at h
          rw [← e1]; exact h
      · by_cases e2 : i + 1 = draw' (i + 1)
        · rw [if_neg e1, if_pos rfl, if_pos e2] at h
          rw [← e2]; exact h
        · rw [if_neg e1, if_pos rfl, if_neg e2, if_pos rfl] at h
          exact h
    have hsame : draw (i + 1) = draw' (i + 1) :=
      List.getElem?_inj (by omega) hnodup htop
    by_cases hm : m = i + 1
    · rw [hm]; exact hsame
    · rw [← hsame] at heq
      exact ih (swapAt cards (i + 1) (draw (i + 1)))
        ((swapAt_perm cards _ _).nodup_iff.mpr hnodup) (by rw [length_swapAt]; omega)
        (fun m h1 h2 => hd m h1 (by omega)) (fun m h1 h2 => hd' m h1 (by omega)) heq
        m h1 (by omega)

/-- Every order of a deck of distinct cards that agrees with the deck above index `i`
is reached by the shuffle loop from `i` down, for some draws that are at most their
index. -/
theorem shuffleFrom_surjective :
    ∀ (i : Nat) (cards order : List Card), cards.Nodup → i < cards.length →
      order.Perm cards → (∀ k, i < k → order[k]? = cards[k]?) →
      ∃ draw : Nat → Nat, (∀ m, draw m ≤ m) ∧ shuffleFrom draw i cards = order := by
  intro i
  induction i with
  | zero =>
    intro cards order hnodup hlen hperm habove
    refine ⟨fun _ => 0, fun m => Nat.zero_le m, ?_⟩
    simp only [shuffleFrom]
    have hnodup' : order.Nodup := hperm.nodup_iff.mpr hnodup
    have hleq : order.length = cards.length := hperm.length_eq
    cases cards with
    | nil => simp at hlen
    | cons b t =>
      cases order with
      | nil => simp at hleq
      | cons a t' =>
        have htail : t' = t := by
          apply List.ext_getElem?
          intro n
          have := habove (n + 1) (by omega)
          simpa using this
        subst htail
        have hmem : a ∈ b :: t' := hperm.subset (List.mem_cons_self a t')
        rcases List.mem_cons.mp hmem with h | h
        · rw [h]
        · exact absurd h (List.nodup_cons.mp hnodup').1
  | succ i ih =>
    intro cards order hnodup hlen hperm habove
    have hnodup' : order.Nodup := hperm.nodup_iff.mpr hnodup
    have hleq : order.length = cards.length := hperm.length_eq
    have hlen' : i + 1 < order.length := by omega
    -- the card that must end at index i + 1, and where it lies in the deck
    have hmem : order[i + 1] ∈ cards := hperm.subset (List.getElem_mem hlen')
    obtain ⟨j, hjlt, hj⟩ := List.getElem_of_mem hmem
    have hjle : j ≤ i + 1 := by
      by_contra hgt
      have h1 : order[j]? = cards[j]? := habove j (by omega)
      have h2 : order[j]? = order[i + 1]? := by
        rw [h1, List.getElem?_eq_getElem hjlt, List.getElem?_eq_getElem hlen', hj]
      have := List.getElem?_inj (by omega) hnodup' h2
      omega
    have hswap : ∀ k, i < k → order[k]? = (swapAt cards (i + 1) j)[k]? := by
      intro k hk
      rw [getElem?_swapAt cards (i + 1) j k hlen hjlt]
      by_cases hkj : k = j
      · have hji : j = i + 1 := by omega
        rw [if_pos hkj, hkj]
        subst hji
        rw [List.getElem?_eq_getElem hlen', List.getElem?_eq_getElem hjlt, hj]
      · rw [if_neg hkj]
        by_cases hki : k = i + 1
        · rw [if_pos hki, hki, List.getElem?_eq_getElem hlen', List.getElem?_eq_getElem hjlt, hj]
        · rw [if_neg hki]
          exact habove k (by omega)
    obtain ⟨draw', hvalid, hrun⟩ := ih (swapAt cards (i + 1) j) order
      ((swapAt_perm cards _ _).nodup_iff.mpr hnodup) (by rw [length_swapAt]; omega)
      (hperm.trans (swapAt_perm cards _ _).symm) hswap
    refine ⟨fun m => if m = i + 1 then j else draw' m, ?_, ?_⟩
    · intro m
      by_cases hm : m = i + 1
      · simp only [if_pos hm]; omega
      · simp only [if_neg hm]; exact hvalid m
    · simp only [shuffleFrom, if_true]
      rw [← hrun]
      apply shuffleFrom_congr
      intro m _ h2
      rw [if_neg (by omega)]

/-- The fresh deck has 52 cards. -/
theorem Deck.new_length : Deck.new.length = 52 := by decide

/-- On the fresh deck `shuffle` runs its loop from index 51 down. -/
theorem Deck.shuffle_new (draw : Nat → Nat) :
    Deck.shuffle Deck.new draw = shuffleFrom draw 51 Deck.new := by
  simp only [Deck.shuffle, Deck.new_length]

/-- The draw of a `DrawSeq` at an index from 1 to 51 is at most the index. -/
theorem DrawSeq.draw_le (s : DrawSeq) (m : Nat) (h1 : 1 ≤ m) (h2 : m ≤ 51) : s.draw m ≤ m := by
  simp only [DrawSeq.draw, dif_pos (And.intro h1 h2)]
  have := (s ⟨m - 1, by omega⟩).isLt
  simp only at this
  omega

/-- The draw of a `DrawSeq` at index `i + 1` is its entry `i`. -/
theorem DrawSeq.draw_succ (s : DrawSeq) (i : Fin 51) : s.draw (i.val + 1) = (s i).val := by
  have h : 1 ≤ i.val + 1 ∧ i.val + 1 ≤ 51 := ⟨by omega, by have := i.isLt; omega⟩
  simp only [DrawSeq.draw, dif_pos h]
  rfl

/-- There are 52! draw sequences. -/
theorem DrawSeq.card : Fintype.card DrawSeq = Nat.factorial 52 := by
  rw [Fintype.card_pi]
  simp only [Fintype.card_fin]
  rfl

/-- C19. With each random draw of `shuffle` a choice `j` from 0 to `i` at the index `i`
from 51 down to 1: every sequence of draws shuffles the fresh deck to a permutation of
it, and every order of the 52 cards comes from exactly one sequence of draws; there are
52! sequences of draws, as many as orders. -/
theorem Deck.shuffle_unbiased :
    (∀ s : DrawSeq, (Deck.shuffle Deck.new s.draw).Perm Deck.new) ∧
    (∀ order : List Card, order.Perm Deck.new →
      ∃! s : DrawSeq, Deck.shuffle Deck.new s.draw = order) ∧
    Fintype.card DrawSeq = Nat.factorial 52 := by
  refine ⟨fun s => Deck.shuffle_perm Deck.new s.draw, ?_, DrawSeq.card⟩
  intro order hperm
  have hlen : order.length = 52 := by rw [hperm.length_eq, Deck.new_length]
  obtain ⟨draw, hvalid, hrun⟩ := shuffleFrom_surjective 51 Deck.new order Deck.new_nodup
    (by rw [Deck.new_length]; omega) hperm (by
      intro k hk
      rw [List.getElem?_eq_none (by omega), List.getElem?_eq_none (by rw [Deck.new_length]; omega)])
  refine ⟨fun i => ⟨draw (i.val + 1), by have := hvalid (i.val + 1); omega⟩, ?_, ?_⟩
  · show Deck.shuffle Deck.new (DrawSeq.draw _) = order
    rw [Deck.shuffle_new, ← hrun]
    apply shuffleFrom_congr
    intro m h1 h2
    have hm : m = (⟨m - 1, by omega⟩ : Fin 51).val + 1 := by simp only; omega
    rw [hm, DrawSeq.draw_succ]
  · intro s hs
    rw [Deck.shuffle_new, ← hrun] at hs
    have heq := shuffleFrom_injective s.draw draw 51 Deck.new Deck.new_nodup
      (by rw [Deck.new_length]; omega) (fun m h1 h2 => s.draw_le m h1 h2)
      (fun m _ _ => hvalid m) hs
    funext i
    apply Fin.ext
    have hi := heq (i.val + 1) (by omega) (by have := i.isLt; omega)
    rw [DrawSeq.draw_succ] at hi
    exact hi

/-! ## Sorted hands -/

/-- The table `suitOrder` orders the suits as the rules do. -/
theorem suitOrder_lt_iff (s t : Suit) : suitOrder s < suitOrder t ↔ s.order < t.order := by
  cases s <;> cases t <;> decide

/-- The table `suitOrder` gives different suits different numbers. -/
theorem suitOrder_eq_iff (s t : Suit) : suitOrder s = suitOrder t ↔ s = t := by
  cases s <;> cases t <;> decide

/-- The comparator of `sortHand` is not positive exactly when the first card comes first
in the suit table, or the suits are equal and the first value is not later in
`VALUE_ORDER`. -/
theorem compareCards_nonpos_iff (a b : Card) :
    compareCards a b ≤ 0 ↔
      suitOrder a.suit < suitOrder b.suit ∨
        (suitOrder a.suit = suitOrder b.suit ∧ valueIndex a.value ≤ valueIndex b.value) := by
  unfold compareCards
  by_cases hs : a.suit = b.suit
  · rw [if_neg (by simpa using hs)]
    have := (suitOrder_eq_iff a.suit b.suit).mpr hs
    constructor
    · intro h; right; exact ⟨this, by omega⟩
    · rintro (h | ⟨_, h⟩) <;> omega
  · rw [if_pos hs]
    have hne : suitOrder a.suit ≠ suitOrder b.suit :=
      fun h => hs ((suitOrder_eq_iff a.suit b.suit).mp h)
    constructor
    · intro h; left; omega
    · rintro (h | ⟨h, _⟩)
      · omega
      · exact absurd h hne

/-- The comparator of `sortHand` orders cards as the rules do. -/
theorem compareCards_nonpos_iff_cardLE (a b : Card) : compareCards a b ≤ 0 ↔ cardLE a b := by
  rw [compareCards_nonpos_iff, cardLE, suitOrder_lt_iff, suitOrder_eq_iff, valueIndex_le_iff]

/-- `sortHand` returns its hand sorted by the comparator. -/
theorem Deck.sortHand_sorted_compare (hand : List Card) :
    (Deck.sortHand hand).Sorted (fun a b => compareCards a b ≤ 0) := by
  haveI : IsTotal Card (fun a b => compareCards a b ≤ 0) :=
    ⟨fun a b => by
      simp only [compareCards_nonpos_iff]
      omega⟩
  haveI : IsTrans Card (fun a b => compareCards a b ≤ 0) :=
    ⟨fun a b c => by
      simp only [compareCards_nonpos_iff]
      omega⟩
  exact List.sorted_insertionSort _ hand

/-- `sortHand` returns its hand in the order of the rules. -/
theorem Deck.sortHand_sorted (hand : List Card) : (Deck.sortHand hand).Sorted cardLE :=
  (Deck.sortHand_sorted_compare hand).imp
    (fun {a b} h => (compareCards_nonpos_iff_cardLE a b).mp h)

/-- For 4 and for 6 players the dealing loop on a shuffled fresh deck ends by its own
guard within its fuel. -/
theorem dealLoop_runs (cards : List Card) (numPlayers : Nat) (hlen : cards.length = 52)
    (hn : numPlayers = 4 ∨ numPlayers = 6) :
    ∃ st, dealLoop numPlayers (if numPlayers = 6 then 8 else 13)
        ((if numPlayers = 6 then 8 else 13) * numPlayers)
        { hands := List.replicate numPlayers [], cards := cards, cardIndex := 0 } = some st := by
  have hsim := dealLoop_sizes numPlayers (if numPlayers = 6 then 8 else 13)
    ((if numPlayers = 6 then 8 else 13) * numPlayers)
    { hands := List.replicate numPlayers [], cards := cards, cardIndex := 0 }
  simp only [DealState.sizes, hlen] at hsim
  rcases hn with h | h
  · subst h
    have hsz : dealSizes 4 13 (13 * 4) ([0, 0, 0, 0], 52, 0)
        = some ([13, 13, 13, 13], 0, 52) := by decide
    simp only [List.replicate, List.map_cons, List.map_nil, List.length_nil,
      show ((4 : Nat) = 6) = False by decide, if_false] at hsim ⊢
    rw [hsz] at hsim
    cases hd : dealLoop 4 13 (13 * 4)
        { hands := [[], [], [], []], cards := cards, cardIndex := 0 } with
    | none => rw [hd] at hsim; simp at hsim
    | some st => exact ⟨st, rfl⟩
  · subst h
    have hsz : dealSizes 6 8 (8 * 6) ([0, 0, 0, 0, 0, 0], 52, 0)
        = some ([8, 8, 8, 8, 8, 8], 4, 48) := by decide
    simp only [List.replicate, List.map_cons, List.map_nil, List.length_nil,
      if_true] at hsim ⊢
    rw [hsz] at hsim
    cases hd : dealLoop 6 8 (8 * 6)
        { hands := [[], [], [], [], [], []], cards := cards, cardIndex := 0 } with
    | none => rw [hd] at hsim; simp at hsim
    | some st => exact ⟨st, rfl⟩

/-- C20. `sortHand` returns any hand as a permutation of it that is sorted first by the
suit order ♦ < ♣ < ♥ < ♠ and within a suit by rank ascending from 2 to the ace.  For 4
and for 6 players and any order of the deck, `Deck.deal` returns hands, one for each
hand the dealing loop has filled and in the same order, each of them sorted so and a
permutation of the cards dealt to that player. -/
theorem Deck.deal_sorted (cards : List Card) (draw : Nat → Nat) (numPlayers : Nat)
    (hdeck : cards.Perm Deck.new) (hn : numPlayers = 4 ∨ numPlayers = 6) :
    (∀ hand : List Card, (Deck.sortHand hand).Sorted cardLE ∧ (Deck.sortHand hand).Perm hand) ∧
    ∃ hands st, Deck.deal cards draw numPlayers = some hands ∧
      dealLoop numPlayers (if numPlayers = 6 then 8 else 13)
        ((if numPlayers = 6 then 8 else 13) * numPlayers)
        { hands := List.replicate numPlayers [], cards := Deck.shuffle cards draw,
          cardIndex := 0 } = some st ∧
      (∀ hand ∈ hands, hand.Sorted cardLE) ∧
      List.Forall₂ (fun hand dealt => hand.Sorted cardLE ∧ hand.Perm dealt) hands st.hands := by
  refine ⟨fun hand => ⟨Deck.sortHand_sorted hand, Deck.sortHand_perm hand⟩, ?_⟩
  have hlen : (Deck.shuffle cards draw).length = 52 := by
    rw [((Deck.shuffle_perm cards draw).trans hdeck).length_eq]; decide
  obtain ⟨st, hst⟩ := dealLoop_runs (Deck.shuffle cards draw) numPlayers hlen hn
  refine ⟨st.hands.map Deck.sortHand, st, ?_, hst, ?_, ?_⟩
  · simp only [Deck.deal, hst, Option.map_some']
  · intro hand hhand
    obtain ⟨dealt, _, rfl⟩ := List.mem_map.mp hhand
    exact Deck.sortHand_sorted dealt
  · rw [List.forall₂_map_left_iff]
    exact List.forall₂_same.mpr
      (fun dealt _ => ⟨Deck.sortHand_sorted dealt, Deck.sortHand_perm dealt⟩)

/-- Dealing the fresh deck to 4 players with a shuffle that swaps every card with
itself. -/
theorem Deck.deal_sorted_witness :
    ∃ hands st, Deck.deal Deck.new (fun i => i) 4 = some hands ∧
      dealLoop 4 (if 4 = 6 then 8 else 13) ((if 4 = 6 then 8 else 13) * 4)
        { hands := List.replicate 4 [], cards := Deck.shuffle Deck.new (fun i => i),
          cardIndex := 0 } = some st ∧
      (∀ hand ∈ hands, hand.Sorted cardLE) ∧
      List.Forall₂ (fun hand dealt => hand.Sorted cardLE ∧ hand.Perm dealt) hands st.hands :=
  (Deck.deal_sorted Deck.new (fun i => i) 4 (List.Perm.refl _) (Or.inl rfl)).2

/-! ## Accepted plays -/

/-- An accepted `playCard` (state `playing`, sent from the id of the player whose turn it
is, with a card among the legal plays of that player's hand) puts the card on the trick
and goes on with `finishPlay`. -/
theorem playCard_accepted (game : Game) (socketId : SocketId) (card : Card) (turn : Turn)
    (player : Player) (hand : List Card)
    (hstate : game.gameState = GameState.playing)
    (hfind : game.players.find? (fun p => p.id == socketId) = some player)
    (hturn : game.currentTurn = some turn) (hsender : socketId = turn.playerId)
    (hhand : player.hand = some hand)
    (hcard : card ∈ getValidPlays hand (leadSuitOf game.currentTrick) game.spadesBroken) :
    playCard game socketId card
      = finishPlay (playedGame game socketId player hand card) player := by
  have hid : player.id = socketId := by simpa using List.find?_some hfind
  unfold playCard
  rw [if_neg (by simp [hstate])]
  simp only [hfind, hturn]
  rw [if_neg (by rw [hid, hsender]; simp)]
  simp only [hhand, getValidPlaysOf]
  rw [if_neg (by
    simp only [Bool.not_eq_true', ← Bool.not_eq_true, any_same_card]
    exact fun h => h hcard)]
  simp only [finishPlay, playedGame, hturn]

/-- An `updateFirst` whose change does not show under `g` leaves the list as it was
under `g`. -/
theorem map_updateFirst {α β : Type} (p : α → Bool) (f : α → α) (g : α → β)
    (hg : ∀ x, g (f x) = g x) :
    ∀ l : List α, (updateFirst p f l).map g = l.map g := by
  intro l
  induction l with
  | nil => rfl
  | cons a rest ih =>
    simp only [updateFirst]
    split
    · simp [hg]
    · simp [ih]

/-- Lists that agree under `g` agree under `g` at every index. -/
theorem getElem?_map_congr {α β : Type} (g : α → β) (l l' : List α)
    (h : l'.map g = l.map g) (j : Nat) : (l'[j]?).map g = (l[j]?).map g := by
  rw [← List.getElem?_map, ← List.getElem?_map, h]

/-- `finishPlay` keeps the trick, `spadesBroken`, the hands, ids and refs of the roster,
and the objects dropped from it. -/
theorem finishPlay_frame (game : Game) (player : Player) (reply : Reply)
    (h : finishPlay game player = some reply) :
    reply.game.currentTrick = game.currentTrick ∧
      reply.game.spadesBroken = game.spadesBroken ∧
      reply.game.gameState = game.gameState ∧
      reply.game.detached = game.detached ∧
      reply.game.players.map (fun p => p.hand) = game.players.map (fun p => p.hand) ∧
      reply.game.players.map (fun p => p.id) = game.players.map (fun p => p.id) ∧
      reply.game.players.map (fun p => p.ref) = game.players.map (fun p => p.ref) := by
  unfold finishPlay at h
  split at h
  · split at h
    · simp at h
    · split at h
      · simp at h
      · simp only [Option.some.injEq] at h
        subst h
        exact ⟨rfl, rfl, rfl, rfl,
          map_updateFirst _ (fun (p : Player) => { p with tricksWon := p.tricksWon + 1 })
            (fun p => p.hand) (fun _ => rfl) _,
          map_updateFirst _ (fun (p : Player) => { p with tricksWon := p.tricksWon + 1 })
            (fun p => p.id) (fun _ => rfl) _,
          map_updateFirst _ (fun (p : Player) => { p with tricksWon := p.tricksWon + 1 })
            (fun p => p.ref) (fun _ => rfl) _⟩
  · simp only at h
    split at h
    · simp at h
    · rename_i next hnext
      unfold setNextTurn at h
      split at h
      · simp at h
      · simp only at h
        split at h
        · simp at h
        · simp only [Option.map_some', Option.some.injEq] at h
          subst h
          exact ⟨rfl, rfl, rfl, rfl, rfl, rfl, rfl⟩

/-- The winner `getTrickWinner` returns for a non-empty trick is an entry of it. -/
theorem getTrickWinner_mem (trick : List TrickEntry) (hne : trick ≠ []) :
    ∃ winner, getTrickWinner trick = some winner ∧ winner ∈ trick := by
  cases trick with
  | nil => exact absurd rfl hne
  | cons x rest =>
    simp only [getTrickWinner]
    split
    · rename_i hlen
      obtain ⟨w, hw, hmem, _⟩ := reduce1_higherEntry _ (List.ne_nil_of_length_pos hlen)
      exact ⟨w, hw, (List.mem_filter.mp hmem).1⟩
    · have hx : x ∈ (x :: rest).filter (fun p => p.card.suit == x.card.suit) := by simp
      obtain ⟨w, hw, hmem, _⟩ := reduce1_higherEntry _ (List.ne_nil_of_mem hx)
      exact ⟨w, hw, (List.mem_filter.mp hmem).1⟩

/-- `finishPlay` returns when the trick is not empty and either it is as long as the
roster and a player of the roster holds the id of its winning entry, or it is not and
every player has a hand. -/
theorem finishPlay_some (game : Game) (player : Player)
    (hplayers : game.players ≠ []) (htrick : game.currentTrick ≠ [])
    (hwin : game.currentTrick.length = game.players.length →
      ∀ winner, getTrickWinner game.currentTrick = some winner →
        winner.playerId ∈ game.players.map (fun p => p.id))
    (hhands : game.currentTrick.length ≠ game.players.length →
      none ∉ game.players.map (fun p => p.hand)) :
    ∃ reply, finishPlay game player = some reply := by
  unfold finishPlay
  split
  · rename_i hfull
    obtain ⟨winner, hw, _⟩ := getTrickWinner_mem game.currentTrick htrick
    obtain ⟨q, hq, hqid⟩ := List.mem_map.mp (hwin hfull winner hw)
    have hsome : (game.players.find? (fun p => p.id == winner.playerId)).isSome := by
      rw [List.find?_isSome]
      exact ⟨q, hq, by simpa using hqid⟩
    obtain ⟨wp, hwp⟩ := Option.isSome_iff_exists.mp hsome
    simp only [hw, hwp]
    exact ⟨_, rfl⟩
  · rename_i hnotfull
    have hpos : 0 < game.players.length := List.length_pos.mpr hplayers
    have hlt : (game.players.findIdx (fun p => p.id == player.id) + 1) % game.players.length
        < game.players.length := Nat.mod_lt _ hpos
    simp only [List.getElem?_eq_getElem hlt]
    have hnext := List.getElem_mem hlt
    generalize game.players[(game.players.findIdx (fun p => p.id == player.id) + 1)
      % game.players.length] = next at hnext
    have hsome : (game.players.find? (fun p => p.id == next.id)).isSome := by
      rw [List.find?_isSome]
      exact ⟨next, hnext, by simp⟩
    obtain ⟨q, hq⟩ := Option.isSome_iff_exists.mp hsome
    have hqmem := List.mem_of_find?_eq_some hq
    cases hqh : q.hand with
    | none =>
      exfalso
      exact hhands hnotfull (List.mem_map.mpr ⟨q, hqmem, hqh⟩)
    | some h =>
      simp only [setNextTurn, hq, hqh, getValidPlaysOf, Option.map_some']
      exact ⟨_, rfl⟩

/-- The hand left by the filter of `playCard` is the hand without the card played. -/
theorem filter_played (hand : List Card) (card : Card) :
    hand.filter (fun c => !(c.suit == card.suit && c.value == card.value))
      = hand.filter (fun c => decide (c ≠ card)) := by
  apply List.filter_congr
  intro c _
  cases c with
  | mk s v =>
    cases card with
    | mk s' v' =>
      by_cases h1 : s = s' <;> by_cases h2 : v = v' <;> simp [h1, h2]

/-- A hand of distinct cards that holds the card played is one card shorter without
it. -/
theorem length_filter_played (hand : List Card) (card : Card) (hnodup : hand.Nodup)
    (hmem : card ∈ hand) :
    (hand.filter (fun c => decide (c ≠ card))).length + 1 = hand.length := by
  have h1 : hand.erase card = hand.filter (fun c => c != card) := hnodup.erase_eq_filter card
  have h2 : hand.filter (fun c => decide (c ≠ card)) = hand.filter (fun c => c != card) := by
    apply List.filter_congr
    intro c _
    by_cases hc : c = card <;> simp [hc]
  rw [h2, ← h1, List.length_erase_of_mem hmem]
  have : 0 < hand.length := List.length_pos_of_mem hmem
  omega

/-- `setNextTurn` changes nothing but `currentTurn`. -/
theorem setNextTurn_frame (game game' : Game) (playerId : SocketId)
    (h : setNextTurn game playerId = some game') :
    game' = { game with currentTurn := game'.currentTurn } := by
  unfold setNextTurn at h
  split at h
  · simp at h
  · simp only at h
    split at h
    · simp at h
    · simp only [Option.some.injEq] at h
      subst h
      rfl

/-- `calculateScores` changes nothing but `scores`. -/
theorem scoreTeams_frame (teams : List Team) :
    ∀ (i : Nat) (game game' : Game) (roundScores roundScores' : List Int),
      scoreTeams teams i (game, roundScores) = some (game', roundScores') →
      game' = { game with scores := game'.scores } := by
  induction teams with
  | nil =>
    intro i game game' rs rs' h
    simp only [scoreTeams, Option.some.injEq, Prod.mk.injEq] at h
    rw [← h.1]
  | cons team rest ih =>
    intro i game game' rs rs' h
    simp only [scoreTeams, scoreTeam] at h
    split at h
    · simp at h
    · rename_i st hst
      split at hst
      · simp at hst
      · simp only [Option.some.injEq] at hst
        subst hst
        have := ih _ _ _ _ _ h
        rw [this]

/-- `joinGame` keeps `spadesBroken`. -/
theorem joinGame_spadesBroken (game : Game) (socketId : SocketId) (username : String) :
    (joinGame game socketId username).spadesBroken = game.spadesBroken := by
  unfold joinGame
  split
  · rfl
  · split <;> rfl

/-- `kickPlayer` keeps `spadesBroken`. -/
theorem kickPlayer_spadesBroken (game : Game) (socketId playerId : SocketId) :
    (kickPlayer game socketId playerId).spadesBroken = game.spadesBroken := by
  unfold kickPlayer
  split <;> rfl

/-- `leaveRoster` keeps `spadesBroken`. -/
theorem leaveRoster_spadesBroken (game : Game) (socketId : SocketId) :
    (leaveRoster game socketId).spadesBroken = game.spadesBroken := by
  unfold leaveRoster
  split <;> rfl

/-- `transferHost` keeps `spadesBroken`. -/
theorem transferHost_spadesBroken (game : Game) (player : Player) :
    (transferHost game player).spadesBroken = game.spadesBroken := by
  unfold transferHost
  split
  · split <;> rfl
  · rfl

/-- `disconnect` keeps `spadesBroken`. -/
theorem disconnect_spadesBroken (game : Game) (socketId : SocketId) :
    (disconnect game socketId).1.spadesBroken = game.spadesBroken := by
  unfold disconnect
  split
  · rfl
  · simp only [transferHost_spadesBroken, leaveRoster_spadesBroken]

/-- `submitBid` keeps `spadesBroken`. -/
theorem submitBid_spadesBroken (game game' : Game) (socketId : SocketId) (bid : Int)
    (h : submitBid game socketId bid = some game') :
    game'.spadesBroken = game.spadesBroken := by
  unfold submitBid at h
  split at h
  · simp only [Option.some.injEq] at h; rw [← h]
  · split at h
    · simp at h
    · simp only at h
      split at h
      · simp at h
      · split at h
        · simp only [Option.some.injEq] at h; rw [← h]
        · split at h
          · split at h
            · simp at h
            · have := setNextTurn_frame _ _ _ h
              rw [this]
          · simp only [Option.some.injEq] at h; rw [← h]

/-- A `playCard` either leaves the session as it is or puts the card on the trick and
goes on with `finishPlay`. -/
theorem playCard_cases (game : Game) (socketId : SocketId) (card : Card) (reply : Reply)
    (h : playCard game socketId card = some reply) :
    reply = Reply.unchanged game ∨
      ∃ player hand, finishPlay (playedGame game socketId player hand card) player
        = some reply := by
  unfold playCard at h
  split at h
  · left; simpa using h.symm
  · split at h
    · left; simpa using h.symm
    · split at h
      · simp at h
      · split at h
        · left; simpa using h.symm
        · split at h
          · split at h
            · left; simpa using h.symm
            · right
              exact ⟨_, _, h⟩
          · simp at h

/-- A `playCard` keeps `spadesBroken` once it is set. -/
theorem playCard_spadesBroken (game : Game) (socketId : SocketId) (card : Card)
    (reply : Reply) (h : playCard game socketId card = some reply)
    (hsb : game.spadesBroken = true) : reply.game.spadesBroken = true := by
  rcases playCard_cases game socketId card reply h with h | ⟨player, hand, h⟩
  · rw [h]; exact hsb
  · rw [(finishPlay_frame _ _ _ h).2.1]
    simp only [playedGame, hsb, ite_self]

/-- `settleRound` keeps `spadesBroken`. -/
theorem settleRound_spadesBroken (game : Game) (reply : Reply)
    (h : settleRound game = some reply) : reply.game.spadesBroken = game.spadesBroken := by
  unfold settleRound at h
  split at h
  · simp at h
  · rename_i game' rs hcalc
    have hframe := scoreTeams_frame _ _ _ _ _ _ hcalc
    split at h
    · split at h
      · simp at h
      · simp only [Option.some.injEq] at h
        rw [← h, hframe]
    · simp only [Option.some.injEq] at h
      rw [← h, hframe]

/-- The end of a trick keeps `spadesBroken`. -/
theorem trickEnd_spadesBroken (game : Game) (winner : TrickEntry) (winningPlayer : Nat)
    (reply : Reply) (h : trickEnd game winner winningPlayer = some reply) :
    reply.game.spadesBroken = game.spadesBroken := by
  unfold trickEnd at h
  split at h
  · simp at h
  · split at h
    · simp at h
    · split at h
      · exact settleRound_spadesBroken game reply h
      · cases hst : startTrick game winner.playerId with
        | none => rw [hst] at h; simp at h
        | some g =>
          rw [hst] at h
          simp only [Option.map_some', Option.some.injEq] at h
          rw [← h]
          have := setNextTurn_frame _ _ _ hst
          simp only [Reply.unchanged]
          rw [this]

/-- `startNewRound` resets `spadesBroken`. -/
theorem startNewRound_spadesBroken (game game' : Game) (draw : Nat → Nat)
    (h : startNewRound game draw = some game') : game'.spadesBroken = false := by
  unfold startNewRound at h
  simp only at h
  split at h
  · simp at h
  · split at h
    · simp at h
    · simp only [Option.some.injEq] at h
      rw [← h]
      split <;> rfl

/-- A step that does not start a round keeps `spadesBroken` once it is set. -/
theorem step_spadesBroken (s s' : Session) (step : Step) (h : s.step step = some s')
    (hround : ¬ step.startsRound s) (hsb : s.game.spadesBroken = true) :
    s'.game.spadesBroken = true := by
  cases step with
  | joinGame socketId username =>
    simp only [Session.step] at h
    split at h <;> simp only [Option.some.injEq] at h <;> rw [← h]
    · simp only [joinGame_spadesBroken]; exact hsb
    · exact hsb
  | kickPlayer socketId playerId =>
    simp only [Session.step] at h
    split at h <;> simp only [Option.some.injEq] at h <;> rw [← h]
    · simp only [kickPlayer_spadesBroken]; exact hsb
    · exact hsb
  | startGame socketId draw => exact absurd trivial hround
  | submitBid socketId bid =>
    simp only [Session.step] at h
    split at h
    · cases hb : submitBid s.game socketId bid with
      | none => rw [hb] at h; simp at h
      | some g =>
        rw [hb] at h
        simp only [Option.map_some', Option.some.injEq] at h
        rw [← h]
        simp only [submitBid_spadesBroken _ _ _ _ hb]; exact hsb
    · simp only [Option.some.injEq] at h; rw [← h]; exact hsb
  | playCard socketId card =>
    simp only [Session.step] at h
    split at h
    · cases hp : playCard s.game socketId card with
      | none => rw [hp] at h; simp at h
      | some reply =>
        rw [hp] at h
        simp only [Option.map_some', Option.some.injEq] at h
        rw [← h]
        exact playCard_spadesBroken _ _ _ _ hp hsb
    · simp only [Option.some.injEq] at h; rw [← h]; exact hsb
  | disconnect socketId =>
    simp only [Session.step] at h
    split at h <;> simp only [Option.some.injEq] at h <;> rw [← h]
    · simp only [disconnect_spadesBroken]; exact hsb
    · exact hsb
  | fire index draw =>
    simp only [Session.step, Session.fire] at h
    split at h
    · simp only [Option.some.injEq] at h; rw [← h]; exact hsb
    · rename_i winner winningPlayer _
      cases ht : trickEnd s.game winner winningPlayer with
      | none => rw [ht] at h; simp at h
      | some reply =>
        rw [ht] at h
        simp only [Option.map_some', Option.some.injEq] at h
        rw [← h]
        simp only [trickEnd_spadesBroken _ _ _ _ ht]; exact hsb
    · rename_i hnew
      exact absurd hnew hround
    · simp only [Option.some.injEq] at h; rw [← h]; exact hsb

/-- A legal play is a card of the hand. -/
theorem mem_of_mem_getValidPlays (hand : List Card) (leadSuit : Option Suit)
    (spadesBroken : Bool) (card : Card)
    (h : card ∈ getValidPlays hand leadSuit spadesBroken) : card ∈ hand := by
  rcases getValidPlays_cases hand leadSuit spadesBroken with heq | ⟨_, p, heq⟩
  · rw [heq] at h; exact h
  · rw [heq] at h; exact List.mem_of_mem_filter h

/-! ## Dealing to any roster -/

/-- Wrapping every card of the hands commutes with a push. -/
theorem map_some_modify (card : Card) (hands : List (List Card)) (i : Nat) :
    (hands.map (List.map some)).modify (fun hand => hand ++ [some card]) i
      = (hands.modify (fun hand => hand ++ [card]) i).map (List.map some) := by
  induction hands generalizing i with
  | nil => simp
  | cons hand rest ih =>
    cases i with
    | zero => simp
    | succ i => simp [ih i]

/-- Wherever the loop on cards returns, the loop for any roster returns the same
hands. -/
theorem dealArrayLoop_of_dealLoop (numPlayers cardsPerPlayer : Nat) :
    ∀ (fuel : Nat) (st st' : DealState),
      dealLoop numPlayers cardsPerPlayer fuel st = some st' →
      dealArrayLoop numPlayers cardsPerPlayer fuel
          { hands := st.hands.map (List.map some), cards := st.cards,
            cardIndex := st.cardIndex }
        = some { hands := st'.hands.map (List.map some), cards := st'.cards,
                 cardIndex := st'.cardIndex } := by
  intro fuel
  induction fuel with
  | zero =>
    intro st st' h
    unfold dealLoop at h
    unfold dealArrayLoop
    have hlen : (st.hands.map (List.map some)).flatten.length = st.hands.flatten.length := by
      simp [List.length_flatten, Function.comp_def]
    simp only [hlen]
    split at h
    · simp at h
    · rename_i hc
      simp only [Option.some.injEq] at h
      rw [if_neg hc, h]
  | succ fuel ih =>
    intro st st' h
    unfold dealLoop at h
    unfold dealArrayLoop
    have hlen : (st.hands.map (List.map some)).flatten.length = st.hands.flatten.length := by
      simp [List.length_flatten, Function.comp_def]
    simp only [hlen]
    split at h
    · rename_i hc
      rw [if_pos hc]
      simp only at h ⊢
      cases hlast : st.cards.getLast? with
      | none => rw [hlast] at h; simp at h
      | some card =>
        rw [hlast] at h
        simp only at h
        have := ih _ _ h
        simp only at this
        rw [map_some_modify]
        exact this
    · rename_i hc
      simp only [Option.some.injEq] at h
      rw [if_neg hc, h]

/-- The cards of an array of cards only. -/
theorem reduceOption_map_some (hand : List Card) : (hand.map some).reduceOption = hand := by
  induction hand with
  | nil => rfl
  | cons c rest ih => simp [List.reduceOption_cons_of_some, ih]

/-- Sorting an array of cards only is `sortHand`. -/
theorem Deck.sortArray_map_some (hand : List Card) :
    Deck.sortArray (hand.map some) = (Deck.sortHand hand).map some := by
  have hcount : (hand.map some).count none = 0 := by
    rw [List.count_eq_zero]
    simp
  simp [Deck.sortArray, hcount, reduceOption_map_some]

/-- Wherever `Deck.deal` returns hands, `Deck.dealArrays` returns the same hands. -/
theorem Deck.dealArrays_of_deal (cards : List Card) (draw : Nat → Nat) (numPlayers : Nat)
    (hands : List (List Card)) (h : Deck.deal cards draw numPlayers = some hands) :
    Deck.dealArrays cards draw numPlayers = some (hands.map (List.map some)) := by
  simp only [Deck.deal] at h
  cases hloop : dealLoop numPlayers (if numPlayers = 6 then 8 else 13)
      ((if numPlayers = 6 then 8 else 13) * numPlayers)
      { hands := List.replicate numPlayers [], cards := Deck.shuffle cards draw,
        cardIndex := 0 } with
  | none => rw [hloop] at h; simp at h
  | some st =>
    rw [hloop] at h
    simp only [Option.map_some', Option.some.injEq] at h
    have hraw := dealArrayLoop_of_dealLoop _ _ _ _ _ hloop
    simp only [List.map_replicate, List.map_nil] at hraw
    simp only [Deck.dealArrays, hraw, Option.map_some', Option.some.injEq, ← h, List.map_map]
    apply List.map_congr_left
    intro hand _
    exact Deck.sortArray_map_some hand

/-- A hand of cards only is taken as a hand of cards. -/
theorem takeHand_map_some (p : Player) (hand : List Card) :
    takeHand p (hand.map some) = { p with hand := some hand, undefinedHand := none } := by
  have hall : (hand.map some).all Option.isSome = true := by simp
  simp [takeHand, hall, reduceOption_map_some]

/-- Pushing an entry on one of the hands adds one to the number of entries. -/
theorem length_flatten_modify {α : Type} (x : α) (hands : List (List α)) (i : Nat)
    (hi : i < hands.length) :
    (hands.modify (fun hand => hand ++ [x]) i).flatten.length = hands.flatten.length + 1 := by
  induction hands generalizing i with
  | nil => simp at hi
  | cons hand rest ih =>
    cases i with
    | zero => simp; omega
    | succ i =>
      simp only [List.length_cons, Nat.add_lt_add_iff_right] at hi
      simp only [List.modify_succ_cons, List.flatten_cons, List.length_append, ih i hi]
      omega

/-- The loop for any roster returns: with fuel for the entries still to deal it comes to
its end, with as many hands as it started with. -/
theorem dealArrayLoop_runs (numPlayers cardsPerPlayer : Nat) :
    ∀ (fuel : Nat) (st : DealArrays), st.hands.length = numPlayers →
      cardsPerPlayer * numPlayers ≤ st.hands.flatten.length + fuel →
      ∃ st', dealArrayLoop numPlayers cardsPerPlayer fuel st = some st' ∧
        st'.hands.length = numPlayers := by
  intro fuel
  induction fuel with
  | zero =>
    intro st hlen hfuel
    unfold dealArrayLoop
    rw [if_neg (by omega)]
    exact ⟨st, rfl, hlen⟩
  | succ fuel ih =>
    intro st hlen hfuel
    unfold dealArrayLoop
    split
    · rename_i hc
      have hpos : 0 < numPlayers := by
        rcases Nat.eq_zero_or_pos numPlayers with h0 | h0
        · rw [h0] at hc; simp at hc
        · exact h0
      have hidx : st.cardIndex % numPlayers < st.hands.length := by
        rw [hlen]; exact Nat.mod_lt _ hpos
      apply ih
      · simp only [List.length_modify, hlen]
      · simp only [length_flatten_modify _ _ _ hidx]
        omega
    · exact ⟨st, rfl, hlen⟩

/-- `Deck.dealArrays` returns for every deck and every roster, one hand for each
player. -/
theorem Deck.dealArrays_runs (cards : List Card) (draw : Nat → Nat) (numPlayers : Nat) :
    ∃ hands, Deck.dealArrays cards draw numPlayers = some hands ∧
      hands.length = numPlayers := by
  obtain ⟨st, hst, hlen⟩ := dealArrayLoop_runs numPlayers (if numPlayers = 6 then 8 else 13)
    ((if numPlayers = 6 then 8 else 13) * numPlayers)
    { hands := List.replicate numPlayers [], cards := Deck.shuffle cards draw, cardIndex := 0 }
    (by simp) (by simp)
  refine ⟨st.hands.map Deck.sortArray, ?_, ?_⟩
  · simp only [Deck.dealArrays, hst, Option.map_some']
  · simp only [List.length_map, hlen]

/-- `Deck.dealArrays` deals one hand for each player. -/
theorem Deck.dealArrays_length (cards : List Card) (draw : Nat → Nat) (numPlayers : Nat)
    (hands : List (List (Option Card)))
    (h : Deck.dealArrays cards draw numPlayers = some hands) : hands.length = numPlayers := by
  obtain ⟨hands', hh, hlen⟩ := Deck.dealArrays_runs cards draw numPlayers
  rw [hh] at h
  rw [← Option.some.inj h]
  exact hlen

/-- `Deck.dealArrays` never throws. -/
theorem Deck.dealArrays_ne_none (cards : List Card) (draw : Nat → Nat) (numPlayers : Nat) :
    Deck.dealArrays cards draw numPlayers ≠ none := by
  obtain ⟨hands, hh, _⟩ := Deck.dealArrays_runs cards draw numPlayers
  rw [hh]
  simp

/-- `startNewRound` returns for every session with a player, in state `bidding` with
`spadesBroken` reset and the roster as long as before. -/
theorem startNewRound_runs (game : Game) (draw : Nat → Nat) (hplayers : game.players ≠ []) :
    ∃ game', startNewRound game draw = some game' ∧ game'.spadesBroken = false ∧
      game'.gameState = GameState.bidding ∧ game'.players.length = game.players.length := by
  have hpos : 0 < game.players.length := List.length_pos.mpr hplayers
  by_cases ht : game.teams.length = 0
  · simp only [startNewRound, ht, if_true]
    split
    · rename_i hnone
      exact absurd hnone (Deck.dealArrays_ne_none _ _ _)
    · rename_i hands hdeal
      have hlen := Deck.dealArrays_length _ _ _ _ hdeal
      simp only [List.length_map, List.enum_length] at hlen
      split
      · rename_i hnone
        rw [List.getElem?_eq_none_iff] at hnone
        simp only [List.length_zipWith, List.length_map, List.enum_length, hlen] at hnone
        omega
      · refine ⟨_, rfl, rfl, rfl, ?_⟩
        simp only [List.length_zipWith, List.length_map, List.enum_length, hlen]
        omega
  · simp only [startNewRound, ht, if_false]
    split
    · rename_i hnone
      exact absurd hnone (Deck.dealArrays_ne_none _ _ _)
    · rename_i hands hdeal
      have hlen := Deck.dealArrays_length _ _ _ _ hdeal
      simp only [List.length_map] at hlen
      split
      · rename_i hnone
        rw [List.getElem?_eq_none_iff] at hnone
        simp only [List.length_zipWith, List.length_map, hlen] at hnone
        omega
      · refine ⟨_, rfl, rfl, rfl, ?_⟩
        simp only [List.length_zipWith, List.length_map, hlen]
        omega

/-- Taking hands of cards only gives every player the hand at its index. -/
theorem map_hand_zipWith_takeHand :
    ∀ (players : List Player) (hands : List (List Card)), players.length = hands.length →
      (List.zipWith takeHand players (hands.map (List.map some))).map (fun p => p.hand)
        = hands.map some := by
  intro players
  induction players with
  | nil =>
    intro hands hlen
    cases hands with
    | nil => rfl
    | cons hand rest => simp at hlen
  | cons p ps ih =>
    intro hands hlen
    cases hands with
    | nil => simp at hlen
    | cons hand rest =>
      simp only [List.length_cons, Nat.add_right_cancel_iff] at hlen
      simp only [List.map_cons, List.zipWith_cons_cons, takeHand_map_some, ih rest hlen]

/-- Where `Deck.deal` returns hands for the roster, `startNewRound` gives every player
the hand `Deck.deal` returns at its index. -/
theorem startNewRound_deal (game game' : Game) (draw : Nat → Nat) (hands : List (List Card))
    (hdeal : Deck.deal Deck.new draw game.players.length = some hands)
    (h : startNewRound game draw = some game') :
    game'.players.map (fun p => p.hand) = hands.map some := by
  have harrays := Deck.dealArrays_of_deal _ _ _ _ hdeal
  have hlen : hands.length = game.players.length := by
    have := Deck.dealArrays_length _ _ _ _ harrays
    simpa using this
  by_cases ht : game.teams.length = 0
  · simp only [startNewRound, ht, if_true, List.length_map, List.enum_length, harrays] at h
    split at h
    · simp at h
    · simp only [Option.some.injEq] at h
      rw [← h]
      exact map_hand_zipWith_takeHand _ _ (by simp [hlen])
  · simp only [startNewRound, ht, if_false, List.length_map, harrays] at h
    split at h
    · simp at h
    · simp only [Option.some.injEq] at h
      rw [← h]
      exact map_hand_zipWith_takeHand _ _ (by simp [hlen])

/-! ## Hands hold no card twice -/

/-- Pushing a card on one hand adds at most that card to the cards held. -/
theorem reduceOption_modify_some (card : Card) (hands : List (List (Option Card))) (i : Nat) :
    (hands.modify (fun hand => hand ++ [some card]) i).flatten.reduceOption.Subperm
      (card :: hands.flatten.reduceOption) := by
  induction hands generalizing i with
  | nil => simp [List.nil_subperm]
  | cons hand rest ih =>
    cases i with
    | zero =>
      simp only [List.modify_zero_cons, List.flatten_cons, List.reduceOption_append,
        List.reduceOption_cons_of_some, List.reduceOption_nil, List.append_assoc]
      apply List.Perm.subperm
      exact (List.perm_middle).trans (List.Perm.refl _)
    | succ i =>
      simp only [List.modify_succ_cons, List.flatten_cons, List.reduceOption_append]
      have h1 : (hand.reduceOption
            ++ (rest.modify (fun hand => hand ++ [some card]) i).flatten.reduceOption).Subperm
          (hand.reduceOption ++ card :: rest.flatten.reduceOption) :=
        (List.subperm_append_left hand.reduceOption).mpr (ih i)
      exact h1.trans (List.perm_middle).subperm

/-- Pushing `undefined` on one hand adds no card to the cards held. -/
theorem reduceOption_modify_none (hands : List (List (Option Card))) (i : Nat) :
    (hands.modify (fun hand => hand ++ [none]) i).flatten.reduceOption
      = hands.flatten.reduceOption := by
  induction hands generalizing i with
  | nil => simp
  | cons hand rest ih =>
    cases i with
    | zero =>
      simp [List.reduceOption_append]
    | succ i =>
      simp only [List.modify_succ_cons, List.flatten_cons, List.reduceOption_append, ih i]

/-- The cards in the hands after the loop for any roster come from the hands and the deck
before it, each at most as often. -/
theorem dealArrayLoop_subperm (numPlayers cardsPerPlayer : Nat) :
    ∀ (fuel : Nat) (st st' : DealArrays),
      dealArrayLoop numPlayers cardsPerPlayer fuel st = some st' →
      st'.hands.flatten.reduceOption.Subperm (st.hands.flatten.reduceOption ++ st.cards) := by
  intro fuel
  induction fuel with
  | zero =>
    intro st st' h
    unfold dealArrayLoop at h
    split at h
    · simp at h
    · simp only [Option.some.injEq] at h
      subst h
      exact (List.sublist_append_left _ _).subperm
  | succ fuel ih =>
    intro st st' h
    unfold dealArrayLoop at h
    split at h
    · simp only at h
      have hstep := ih _ _ h
      simp only at hstep
      refine hstep.trans ?_
      cases hlast : st.cards.getLast? with
      | none =>
        have hnil : st.cards = [] := List.getLast?_eq_none_iff.mp hlast
        rw [reduceOption_modify_none, hnil]
        exact List.Subperm.refl _
      | some card =>
        have hcards : st.cards = st.cards.dropLast ++ [card] :=
          (List.dropLast_append_getLast? card hlast).symm
        have h1 := (List.subperm_append_right st.cards.dropLast).mpr
          (reduceOption_modify_some card st.hands (st.cardIndex % numPlayers))
        refine h1.trans (List.Perm.subperm ?_)
        conv_rhs => rw [hcards]
        simp only [List.cons_append]
        rw [← List.append_assoc]
        exact (List.perm_append_singleton _ _).symm
    · simp only [Option.some.injEq] at h
      subst h
      exact (List.sublist_append_left _ _).subperm

/-- The cards of a sorted array are the cards of the array, sorted. -/
theorem Deck.reduceOption_sortArray (hand : List (Option Card)) :
    (Deck.sortArray hand).reduceOption = Deck.sortHand hand.reduceOption := by
  have hrep : ∀ n : Nat, (List.replicate n (none : Option Card)).reduceOption = [] := by
    intro n
    induction n with
    | zero => rfl
    | succ n ih => simp [List.replicate_succ, List.reduceOption_cons_of_none, ih]
  simp only [Deck.sortArray, List.reduceOption_append, reduceOption_map_some, hrep,
    List.append_nil]

/-- From a deck of distinct cards no hand is dealt a card twice. -/
theorem Deck.dealArrays_nodup (cards : List Card) (draw : Nat → Nat) (numPlayers : Nat)
    (hands : List (List (Option Card))) (hnodup : cards.Nodup)
    (h : Deck.dealArrays cards draw numPlayers = some hands) :
    ∀ hand ∈ hands, hand.reduceOption.Nodup := by
  simp only [Deck.dealArrays] at h
  cases hloop : dealArrayLoop numPlayers (if numPlayers = 6 then 8 else 13)
      ((if numPlayers = 6 then 8 else 13) * numPlayers)
      { hands := List.replicate numPlayers [], cards := Deck.shuffle cards draw,
        cardIndex := 0 } with
  | none => rw [hloop] at h; simp at h
  | some st =>
    rw [hloop] at h
    simp only [Option.map_some', Option.some.injEq] at h
    have hsub := dealArrayLoop_subperm _ _ _ _ _ hloop
    have hflat : (List.replicate numPlayers ([] : List (Option Card))).flatten = [] := by
      simp
    simp only [hflat, List.reduceOption_nil, List.nil_append] at hsub
    have hall : st.hands.flatten.reduceOption.Nodup := by
      obtain ⟨l, hl, hls⟩ := hsub.trans (Deck.shuffle_perm cards draw).subperm
      exact hl.nodup_iff.mp (hnodup.sublist hls)
    intro hand hhand
    rw [← h] at hhand
    obtain ⟨raw, hraw, rfl⟩ := List.mem_map.mp hhand
    rw [Deck.reduceOption_sortArray]
    apply (Deck.sortHand_perm raw.reduceOption).nodup_iff.mpr
    have hsl : raw.reduceOption.Sublist st.hands.flatten.reduceOption :=
      (List.sublist_flatten_of_mem hraw).filterMap id
    exact hall.sublist hsl

/-- A roster with the hands of a roster whose hands hold no card twice. -/
theorem hands_nodup_of_map (l l' : List Player)
    (hmap : l'.map (fun p => p.hand) = l.map (fun p => p.hand))
    (h : ∀ p ∈ l, ∀ hand, p.hand = some hand → hand.Nodup) :
    ∀ p ∈ l', ∀ hand, p.hand = some hand → hand.Nodup := by
  intro p hp hand hhand
  have hmem : p.hand ∈ l'.map (fun p => p.hand) := List.mem_map.mpr ⟨p, hp, rfl⟩
  rw [hmap] at hmem
  obtain ⟨q, hq, hqh⟩ := List.mem_map.mp hmem
  exact h q hq hand (hqh.trans hhand)

/-- An element of the list after `updateFirst` is one of the list before, or `f` of
one. -/
theorem mem_updateFirst {α : Type} (p : α → Bool) (f : α → α) (x : α) :
    ∀ l : List α, x ∈ updateFirst p f l → x ∈ l ∨ ∃ y ∈ l, x = f y := by
  intro l
  induction l with
  | nil => intro h; simp [updateFirst] at h
  | cons a rest ih =>
    intro h
    simp only [updateFirst] at h
    split at h
    · rcases List.mem_cons.mp h with h | h
      · exact Or.inr ⟨a, List.mem_cons_self _ _, h⟩
      · exact Or.inl (List.mem_cons_of_mem _ h)
    · rcases List.mem_cons.mp h with h | h
      · exact Or.inl (h ▸ List.mem_cons_self _ _)
      · rcases ih h with h | ⟨y, hy, hxy⟩
        · exact Or.inl (List.mem_cons_of_mem _ h)
        · exact Or.inr ⟨y, List.mem_cons_of_mem _ hy, hxy⟩

/-- An element of `zipWith f` is `f` of an element of each list. -/
theorem mem_zipWith {α β γ : Type} (f : α → β → γ) (x : γ) :
    ∀ (l₁ : List α) (l₂ : List β), x ∈ List.zipWith f l₁ l₂ →
      ∃ a b, a ∈ l₁ ∧ b ∈ l₂ ∧ x = f a b := by
  intro l₁
  induction l₁ with
  | nil => intro l₂ h; simp at h
  | cons a rest ih =>
    intro l₂ h
    cases l₂ with
    | nil => simp at h
    | cons b rest₂ =>
      simp only [List.zipWith_cons_cons, List.mem_cons] at h
      rcases h with h | h
      · exact ⟨a, b, List.mem_cons_self _ _, List.mem_cons_self _ _, h⟩
      · obtain ⟨a', b', ha, hb, hx⟩ := ih rest₂ h
        exact ⟨a', b', List.mem_cons_of_mem _ ha, List.mem_cons_of_mem _ hb, hx⟩

/-- `joinGame` keeps the hands free of doubles. -/
theorem joinGame_hands (game : Game) (socketId : SocketId) (username : String)
    (h : ∀ p ∈ game.players, ∀ hand, p.hand = some hand → hand.Nodup) :
    ∀ p ∈ (joinGame game socketId username).players, ∀ hand,
      p.hand = some hand → hand.Nodup := by
  unfold joinGame
  split
  · exact hands_nodup_of_map _ _
      (map_updateFirst _ (fun (p : Player) => { p with disconnected := false, id := socketId })
        (fun (p : Player) => p.hand) (fun _ => rfl) _) h
  · split
    · exact h
    · intro p hp hand hhand
      simp only [List.mem_append, List.mem_singleton] at hp
      rcases hp with hp | hp
      · exact h p hp hand hhand
      · rw [hp] at hhand; simp at hhand

/-- `kickPlayer` keeps the hands free of doubles. -/
theorem kickPlayer_hands (game : Game) (socketId playerId : SocketId)
    (h : ∀ p ∈ game.players, ∀ hand, p.hand = some hand → hand.Nodup) :
    ∀ p ∈ (kickPlayer game socketId playerId).players, ∀ hand,
      p.hand = some hand → hand.Nodup := by
  unfold kickPlayer
  split
  · exact h
  · intro p hp hand hhand
    exact h p (List.mem_of_mem_filter hp) hand hhand

/-- `disconnect` keeps the hands free of doubles. -/
theorem disconnect_hands (game : Game) (socketId : SocketId)
    (h : ∀ p ∈ game.players, ∀ hand, p.hand = some hand → hand.Nodup) :
    ∀ p ∈ (disconnect game socketId).1.players, ∀ hand,
      p.hand = some hand → hand.Nodup := by
  have hleave : ∀ p ∈ (leaveRoster game socketId).players, ∀ hand,
      p.hand = some hand → hand.Nodup := by
    unfold leaveRoster
    split
    · intro p hp hand hhand
      exact h p (List.mem_of_mem_filter hp) hand hhand
    · exact hands_nodup_of_map _ _
        (map_updateFirst _ (fun (p : Player) => { p with disconnected := true })
          (fun (p : Player) => p.hand) (fun _ => rfl) _) h
  have htransfer : ∀ (g : Game) (player : Player),
      (∀ p ∈ g.players, ∀ hand, p.hand = some hand → hand.Nodup) →
      ∀ p ∈ (transferHost g player).players, ∀ hand, p.hand = some hand → hand.Nodup := by
    intro g player hg
    unfold transferHost
    split
    · split
      · exact hands_nodup_of_map _ _
          (map_updateFirst _ (fun (p : Player) => { p with isHost := true })
            (fun (p : Player) => p.hand) (fun _ => rfl) _) hg
      · exact hg
    · exact hg
  unfold disconnect
  split
  · exact h
  · exact htransfer _ _ hleave

/-- `startNewRound` deals hands free of doubles. -/
theorem startNewRound_hands (game game' : Game) (draw : Nat → Nat)
    (h : startNewRound game draw = some game') :
    ∀ p ∈ game'.players, ∀ hand, p.hand = some hand → hand.Nodup := by
  unfold startNewRound at h
  simp only at h
  split at h
  · simp at h
  · rename_i hands hdeal
    split at h
    · simp at h
    · simp only [Option.some.injEq] at h
      rw [← h]
      intro p hp hand hhand
      obtain ⟨q, array, _, harray, rfl⟩ := mem_zipWith _ _ _ _ hp
      have hnodup := Deck.dealArrays_nodup _ _ _ _ Deck.new_nodup hdeal array harray
      unfold takeHand at hhand
      split at hhand
      · simp only [Option.some.injEq] at hhand
        rw [← hhand]
        exact hnodup
      · simp at hhand

/-- `startGame` keeps the hands free of doubles. -/
theorem startGame_hands (game game' : Game) (socketId : SocketId) (draw : Nat → Nat)
    (hstart : startGame game socketId draw = some game')
    (h : ∀ p ∈ game.players, ∀ hand, p.hand = some hand → hand.Nodup) :
    ∀ p ∈ game'.players, ∀ hand, p.hand = some hand → hand.Nodup := by
  unfold startGame at hstart
  split at hstart
  · simp only [Option.some.injEq] at hstart; rw [← hstart]; exact h
  · split at hstart
    · simp only [Option.some.injEq] at hstart; rw [← hstart]; exact h
    · exact startNewRound_hands _ _ _ hstart

/-- `submitBid` keeps the hands free of doubles. -/
theorem submitBid_hands (game game' : Game) (socketId : SocketId) (bid : Int)
    (hbid : submitBid game socketId bid = some game')
    (h : ∀ p ∈ game.players, ∀ hand, p.hand = some hand → hand.Nodup) :
    ∀ p ∈ game'.players, ∀ hand, p.hand = some hand → hand.Nodup := by
  have hset : ∀ (i : Nat) (player : Player), game.players[i]? = some player →
      ∀ p ∈ game.players.set i { player with bid := some bid }, ∀ hand,
        p.hand = some hand → hand.Nodup := by
    intro i player hplayer p hp hand hhand
    rcases List.mem_or_eq_of_mem_set hp with hp | hp
    · exact h p hp hand hhand
    · rw [hp] at hhand
      exact h player (List.mem_iff_getElem?.mpr ⟨i, hplayer⟩) hand hhand
  unfold submitBid at hbid
  split at hbid
  · simp only [Option.some.injEq] at hbid; rw [← hbid]; exact h
  · split at hbid
    · simp at hbid
    · simp only at hbid
      split at hbid
      · simp at hbid
      · rename_i player hplayer
        split at hbid
        · simp only [Option.some.injEq] at hbid; rw [← hbid]; exact h
        · split at hbid
          · split at hbid
            · simp at hbid
            · have hframe := setNextTurn_frame _ _ _ hbid
              rw [hframe]
              exact hset _ _ hplayer
          · simp only [Option.some.injEq] at hbid
            rw [← hbid]
            exact hset _ _ hplayer

/-- A `playCard` either leaves the session as it is or takes a card from the hand of
the player found and goes on with `finishPlay`. -/
theorem playCard_cases_hand (game : Game) (socketId : SocketId) (card : Card) (reply : Reply)
    (h : playCard game socketId card = some reply) :
    reply = Reply.unchanged game ∨
      ∃ player hand, game.players.find? (fun p => p.id == socketId) = some player ∧
        player.hand = some hand ∧
        finishPlay (playedGame game socketId player hand card) player = some reply := by
  unfold playCard at h
  split at h
  · left; simpa using h.symm
  · split at h
    · left; simpa using h.symm
    · rename_i player hfind
      split at h
      · simp at h
      · split at h
        · left; simpa using h.symm
        · split at h
          · rename_i validPlays hand hvalid hhand
            split at h
            · left; simpa using h.symm
            · right
              exact ⟨player, hand, hfind, hhand, h⟩
          · simp at h

/-- `playCard` keeps the hands free of doubles. -/
theorem playCard_hands (game : Game) (socketId : SocketId) (card : Card) (reply : Reply)
    (hplay : playCard game socketId card = some reply)
    (h : ∀ p ∈ game.players, ∀ hand, p.hand = some hand → hand.Nodup) :
    ∀ p ∈ reply.game.players, ∀ hand, p.hand = some hand → hand.Nodup := by
  rcases playCard_cases_hand game socketId card reply hplay with hr | ⟨player, held, hfind, hheld, hfin⟩
  · rw [hr]; exact h
  · obtain ⟨_, _, _, _, hmap, _, _⟩ := finishPlay_frame _ _ _ hfin
    apply hands_nodup_of_map _ _ hmap
    intro p hp hand hhand
    simp only [playedGame] at hp
    rcases mem_updateFirst _ _ _ _ hp with hp | ⟨y, _, hpy⟩
    · exact h p hp hand hhand
    · rw [hpy] at hhand
      simp only [Option.some.injEq] at hhand
      rw [← hhand]
      exact (h player (List.mem_of_find?_eq_some hfind) held hheld).filter _

/-- The end of a trick keeps the hands free of doubles. -/
theorem trickEnd_hands (game : Game) (winner : TrickEntry) (winningPlayer : Nat)
    (reply : Reply) (hend : trickEnd game winner winningPlayer = some reply)
    (h : ∀ p ∈ game.players, ∀ hand, p.hand = some hand → hand.Nodup) :
    ∀ p ∈ reply.game.players, ∀ hand, p.hand = some hand → hand.Nodup := by
  unfold trickEnd at hend
  split at hend
  · simp at hend
  · split at hend
    · simp at hend
    · split at hend
      · unfold settleRound at hend
        split at hend
        · simp at hend
        · rename_i game' rs hcalc
          have hframe := scoreTeams_frame _ _ _ _ _ _ hcalc
          split at hend
          · split at hend
            · simp at hend
            · simp only [Option.some.injEq] at hend
              rw [← hend, hframe]; exact h
          · simp only [Option.some.injEq] at hend
            rw [← hend, hframe]; exact h
      · cases hst : startTrick game winner.playerId with
        | none => rw [hst] at hend; simp at hend
        | some g =>
          rw [hst] at hend
          simp only [Option.map_some', Option.some.injEq] at hend
          rw [← hend]
          have hframe := setNextTurn_frame _ _ _ hst
          simp only [Reply.unchanged]
          rw [hframe]; exact h

/-- A step of a session keeps the hands free of doubles. -/
theorem step_hands (s s' : Session) (step : Step) (hstep : s.step step = some s')
    (h : ∀ p ∈ s.game.players, ∀ hand, p.hand = some hand → hand.Nodup) :
    ∀ p ∈ s'.game.players, ∀ hand, p.hand = some hand → hand.Nodup := by
  cases step with
  | joinGame socketId username =>
    simp only [Session.step] at hstep
    split at hstep <;> simp only [Option.some.injEq] at hstep <;> rw [← hstep]
    · exact joinGame_hands _ _ _ h
    · exact h
  | kickPlayer socketId playerId =>
    simp only [Session.step] at hstep
    split at hstep <;> simp only [Option.some.injEq] at hstep <;> rw [← hstep]
    · exact kickPlayer_hands _ _ _ h
    · exact h
  | startGame socketId draw =>
    simp only [Session.step] at hstep
    split at hstep
    · cases hg : startGame s.game socketId draw with
      | none => rw [hg] at hstep; simp at hstep
      | some g =>
        rw [hg] at hstep
        simp only [Option.map_some', Option.some.injEq] at hstep
        rw [← hstep]
        exact startGame_hands _ _ _ _ hg h
    · simp only [Option.some.injEq] at hstep; rw [← hstep]; exact h
  | submitBid socketId bid =>
    simp only [Session.step] at hstep
    split at hstep
    · cases hb : submitBid s.game socketId bid with
      | none => rw [hb] at hstep; simp at hstep
      | some g =>
        rw [hb] at hstep
        simp only [Option.map_some', Option.some.injEq] at hstep
        rw [← hstep]
        exact submitBid_hands _ _ _ _ hb h
    · simp only [Option.some.injEq] at hstep; rw [← hstep]; exact h
  | playCard socketId card =>
    simp only [Session.step] at hstep
    split at hstep
    · cases hp : playCard s.game socketId card with
      | none => rw [hp] at hstep; simp at hstep
      | some reply =>
        rw [hp] at hstep
        simp only [Option.map_some', Option.some.injEq] at hstep
        rw [← hstep]
        exact playCard_hands _ _ _ _ hp h
    · simp only [Option.some.injEq] at hstep; rw [← hstep]; exact h
  | disconnect socketId =>
    simp only [Session.step] at hstep
    split at hstep <;> simp only [Option.some.injEq] at hstep <;> rw [← hstep]
    · exact disconnect_hands _ _ h
    · exact h
  | fire index draw =>
    simp only [Session.step, Session.fire] at hstep
    split at hstep
    · simp only [Option.some.injEq] at hstep; rw [← hstep]; exact h
    · rename_i winner winningPlayer _
      cases ht : trickEnd s.game winner winningPlayer with
      | none => rw [ht] at hstep; simp at hstep
      | some reply =>
        rw [ht] at hstep
        simp only [Option.map_some', Option.some.injEq] at hstep
        rw [← hstep]
        exact trickEnd_hands _ _ _ _ ht h
    · cases hg : startNewRound s.game draw with
      | none => rw [hg] at hstep; simp at hstep
      | some g =>
        rw [hg] at hstep
        simp only [Option.map_some', Option.some.injEq] at hstep
        rw [← hstep]
        exact startNewRound_hands _ _ _ hg
    · simp only [Option.some.injEq] at hstep; rw [← hstep]; exact h

/-- In every session reached from `createGame` by commands and timer firings, no hand
holds a card twice. -/
theorem run_hands : ∀ (steps : List Step) (s s' : Session), s.run steps = some s' →
    (∀ p ∈ s.game.players, ∀ hand, p.hand = some hand → hand.Nodup) →
    ∀ p ∈ s'.game.players, ∀ hand, p.hand = some hand → hand.Nodup := by
  intro steps
  induction steps with
  | nil =>
    intro s s' hrun h
    simp only [Session.run, Option.some.injEq] at hrun
    rw [← hrun]; exact h
  | cons step rest ih =>
    intro s s' hrun h
    simp only [Session.run] at hrun
    split at hrun
    · simp at hrun
    · rename_i s₁ hs₁
      exact ih s₁ s' hrun (step_hands s s₁ step hs₁ h)

/-- A step of a session keeps `spadesBroken` once it is set, unless it runs
`startNewRound` on the session. -/
theorem step_spadesBroken_or (s s' : Session) (step : Step) (h : s.step step = some s')
    (hsb : s.game.spadesBroken = true) :
    s'.game.spadesBroken = true ∨ ∃ draw, startNewRound s.game draw = some s'.game := by
  cases step with
  | joinGame socketId username =>
    exact Or.inl (step_spadesBroken s s' _ h (fun hr => hr) hsb)
  | kickPlayer socketId playerId =>
    exact Or.inl (step_spadesBroken s s' _ h (fun hr => hr) hsb)
  | submitBid socketId bid =>
    exact Or.inl (step_spadesBroken s s' _ h (fun hr => hr) hsb)
  | playCard socketId card =>
    exact Or.inl (step_spadesBroken s s' _ h (fun hr => hr) hsb)
  | disconnect socketId =>
    exact Or.inl (step_spadesBroken s s' _ h (fun hr => hr) hsb)
  | startGame socketId draw =>
    simp only [Session.step] at h
    split at h
    · cases hg : startGame s.game socketId draw with
      | none => rw [hg] at h; simp at h
      | some g =>
        rw [hg] at h
        simp only [Option.map_some', Option.some.injEq] at h
        rw [← h]
        unfold startGame at hg
        split at hg
        · simp only [Option.some.injEq] at hg; rw [← hg]; exact Or.inl hsb
        · split at hg
          · simp only [Option.some.injEq] at hg; rw [← hg]; exact Or.inl hsb
          · exact Or.inr ⟨draw, hg⟩
    · simp only [Option.some.injEq] at h; rw [← h]; exact Or.inl hsb
  | fire index draw =>
    by_cases hr : s.timers[index]? = some Timer.newRound
    · simp only [Session.step, Session.fire, hr] at h
      cases hg : startNewRound s.game draw with
      | none => rw [hg] at h; simp at h
      | some g =>
        rw [hg] at h
        simp only [Option.map_some', Option.some.injEq] at h
        rw [← h]
        exact Or.inr ⟨draw, hg⟩
    · exact Or.inl (step_spadesBroken s s' _ h hr hsb)

/-! ## The effect of an accepted play -/

/-- The filter of `playCard` takes from the hand as many cards as the card played occurs
in it. -/
theorem length_filter_count (hand : List Card) (card : Card) :
    (hand.filter (fun c => decide (c ≠ card))).length + hand.count card = hand.length := by
  induction hand with
  | nil => rfl
  | cons c rest ih =>
    simp only [ne_eq] at ih
    by_cases hc : c = card
    · subst hc
      simp only [ne_eq, not_true_eq_false, decide_False, Bool.false_eq_true, not_false_eq_true,
        List.filter_cons_of_neg, List.count_cons_self, List.length_cons]
      omega
    · have hne : (c == card) = false := by simpa using hc
      simp only [ne_eq, hc, not_false_eq_true, decide_True, List.filter_cons_of_pos,
        List.length_cons, List.count_cons, hne, Bool.false_eq_true, if_false]
      omega

/-- C23. Every accepted `playCard` (state `playing`, sent from the id of the player
whose turn it is, with a legal card of that player's hand) brings the session into the
state `playedGame` (`server.js` lines 112-115) and goes on with `finishPlay` from there.  In
`playedGame` the hand of the player is the old hand without the card played, in order
(shorter by the number of times the card was in the hand: by one where the hand holds no
card twice); the hands at all other seats are as before; `{card, playerId}` is the last
entry of the trick; `spadesBroken` is the old `spadesBroken` or whether the card is a
spade.  `finishPlay`, whenever it returns, leaves the hands, the trick and `spadesBroken`
as they are in `playedGame`; and it returns when a player holds the id of the winning
entry (where the trick is now as long as the roster) or every player has a hand (where it
is not).  A step of a session (a command or a timer firing) leaves `spadesBroken` set
unless it runs `startNewRound` on the session, and `startNewRound` returns for every
session with a player and leaves `spadesBroken` at `false`.  In every session reached
from `createGame` by commands and timer firings no hand holds a card twice. -/
theorem playCard_effect (game : Game) (socketId : SocketId) (card : Card) (turn : Turn)
    (player : Player) (hand : List Card)
    (hstate : game.gameState = GameState.playing)
    (hfind : game.players.find? (fun p => p.id == socketId) = some player)
    (hturn : game.currentTurn = some turn) (hsender : socketId = turn.playerId)
    (hhand : player.hand = some hand)
    (hcard : card ∈ getValidPlays hand (leadSuitOf game.currentTrick) game.spadesBroken) :
    playCard game socketId card
      = finishPlay (playedGame game socketId player hand card) player ∧
    (∃ i : Nat, game.players[i]? = some player ∧
      ((playedGame game socketId player hand card).players[i]?).map (fun p => p.hand)
        = some (some (hand.filter (fun c => decide (c ≠ card)))) ∧
      ∀ j : Nat, j ≠ i →
        ((playedGame game socketId player hand card).players[j]?).map (fun p => p.hand)
          = (game.players[j]?).map (fun p => p.hand)) ∧
    (hand.filter (fun c => decide (c ≠ card))).length + hand.count card = hand.length ∧
    (hand.Nodup → (hand.filter (fun c => decide (c ≠ card))).length + 1 = hand.length) ∧
    (playedGame game socketId player hand card).currentTrick
      = game.currentTrick ++ [{ card := card, playerId := socketId }] ∧
    (playedGame game socketId player hand card).spadesBroken
      = (game.spadesBroken || decide (card.suit = Suit.spades)) ∧
    (∀ reply, playCard game socketId card = some reply →
      reply.game.players.map (fun p => p.hand)
        = (playedGame game socketId player hand card).players.map (fun p => p.hand) ∧
      reply.game.currentTrick = (playedGame game socketId player hand card).currentTrick ∧
      reply.game.spadesBroken = (playedGame game socketId player hand card).spadesBroken) ∧
    ((game.currentTrick.length + 1 = game.players.length →
        ∀ winner,
          getTrickWinner (game.currentTrick ++ [{ card := card, playerId := socketId }])
            = some winner →
          ∃ p ∈ game.players, p.id = winner.playerId) →
      (game.currentTrick.length + 1 ≠ game.players.length →
        ∀ p ∈ game.players, p.hand ≠ none) →
      ∃ reply, playCard game socketId card = some reply) ∧
    (∀ (s s' : Session) (step : Step), s.step step = some s' →
      s.game.spadesBroken = true →
      s'.game.spadesBroken = true ∨ ∃ draw, startNewRound s.game draw = some s'.game) ∧
    (∀ (g : Game) (draw : Nat → Nat), g.players ≠ [] →
      ∃ g', startNewRound g draw = some g' ∧ g'.spadesBroken = false) ∧
    (∀ (g g' : Game) (draw : Nat → Nat), startNewRound g draw = some g' →
      g'.spadesBroken = false) ∧
    (∀ (host : SocketId) (username : String) (players : Nat) (winScore : Int)
      (steps : List Step) (s : Session),
      (Session.create host username players winScore).run steps = some s →
      ∀ p ∈ s.game.players, ∀ held, p.hand = some held → held.Nodup) := by
  have hid : player.id = socketId := by simpa using List.find?_some hfind
  have hpmem : player ∈ game.players := List.mem_of_find?_eq_some hfind
  have hmem : card ∈ hand := mem_of_mem_getValidPlays _ _ _ _ hcard
  have hplay := playCard_accepted game socketId card turn player hand hstate hfind hturn
    hsender hhand hcard
  -- the roster after the card has left the hand
  obtain ⟨i, hi, _, hat, hother, hlen⟩ :=
    updateFirst_spec (fun p => p.id == socketId)
      (fun p => { p with
        hand := some (hand.filter (fun c => !(c.suit == card.suit && c.value == card.value))) })
      game.players player hfind
  have hids : (playedGame game socketId player hand card).players.map (fun p => p.id)
      = game.players.map (fun p => p.id) :=
    map_updateFirst (fun (p : Player) => p.id == socketId)
      (fun (p : Player) => { p with
        hand := some (hand.filter (fun c => !(c.suit == card.suit && c.value == card.value))) })
      (fun (p : Player) => p.id) (fun _ => rfl) game.players
  have htr : (playedGame game socketId player hand card).currentTrick
      = game.currentTrick ++ [{ card := card, playerId := socketId }] := by
    simp only [playedGame, hid]
  have hplen : (playedGame game socketId player hand card).players.length
      = game.players.length := hlen
  refine ⟨hplay, ⟨i, hi, ?_, ?_⟩, length_filter_count hand card,
    fun hnodup => length_filter_played hand card hnodup hmem, htr, ?_, ?_, ?_,
    fun s s' step h hsb => step_spadesBroken_or s s' step h hsb,
    fun g draw hg => ?_, fun g g' draw h => startNewRound_spadesBroken g g' draw h,
    fun host username players winScore steps s hrun =>
      run_hands steps _ s hrun (by
        intro p hp held hheld
        simp only [Session.create, createGame, List.mem_singleton] at hp
        rw [hp] at hheld
        simp at hheld)⟩
  · simp only [playedGame]
    rw [hat]
    simp only [Option.map_some', filter_played]
  · intro j hj
    simp only [playedGame]
    rw [hother j hj]
  · simp only [playedGame]
    by_cases hs : card.suit = Suit.spades <;> simp [hs]
  · intro reply hreply
    rw [hplay] at hreply
    obtain ⟨h1, h2, _, _, h3, _, _⟩ := finishPlay_frame _ _ _ hreply
    exact ⟨h3, h1, h2⟩
  · intro hwin hhands
    rw [hplay]
    apply finishPlay_some
    · intro hnil
      have h0 : (playedGame game socketId player hand card).players.length = 0 := by
        rw [hnil]; rfl
      have hpos : 0 < game.players.length := List.length_pos_of_mem hpmem
      omega
    · rw [htr]; simp
    · intro hfull winner hw
      rw [htr, hplen, List.length_append, List.length_singleton] at hfull
      rw [htr] at hw
      obtain ⟨p, hp, hpid⟩ := hwin hfull winner hw
      rw [hids]
      exact List.mem_map.mpr ⟨p, hp, hpid⟩
    · intro hnotfull hnone
      rw [htr, hplen, List.length_append, List.length_singleton] at hnotfull
      obtain ⟨x, hx, hxh⟩ := List.mem_map.mp hnone
      obtain ⟨j, hj⟩ := List.mem_iff_getElem?.mp hx
      simp only [playedGame] at hj
      by_cases hji : j = i
      · rw [hji, hat] at hj
        simp only [Option.some.injEq] at hj
        rw [← hj] at hxh
        simp at hxh
      · rw [hother j hji] at hj
        exact hhands hnotfull x (List.mem_iff_getElem?.mpr ⟨j, hj⟩) hxh
  · obtain ⟨g', hg', hsb, _⟩ := startNewRound_runs g draw hg
    exact ⟨g', hg', hsb⟩

/-- In `tableGame` the lead of `ann`, the ♦5 of her hand ♦5 ♠A, is accepted: the handler
returns, she is left with the ♠A, the ♦5 is the only entry of the trick and spades are
not broken. -/
theorem playCard_effect_witness :
    ∃ reply, playCard tableGame 1 ⟨.diamonds, .five⟩ = some reply ∧
      reply.game.players.map (fun p => p.hand)
        = [some [⟨.spades, .ace⟩], some [⟨.diamonds, .king⟩, ⟨.clubs, .two⟩],
           some [⟨.hearts, .nine⟩, ⟨.spades, .three⟩], some [⟨.diamonds, .two⟩, ⟨.hearts, .queen⟩]] ∧
      reply.game.currentTrick = [⟨⟨.diamonds, .five⟩, 1⟩] ∧
      reply.game.spadesBroken = false := by
  obtain ⟨_, _, _, _, htrick, hsb, hframe, hreturns, _⟩ :=
    playCard_effect tableGame 1 ⟨.diamonds, .five⟩ { playerId := 1, username := "ann" }
      { seat 1 "ann" "Team 1" true 3 3 with hand := some [⟨.diamonds, .five⟩, ⟨.spades, .ace⟩] }
      [⟨.diamonds, .five⟩, ⟨.spades, .ace⟩]
      (by decide) (by decide) (by decide) (by decide) (by decide) (by decide)
  obtain ⟨reply, hreply⟩ := hreturns (fun h => absurd h (by decide)) (fun _ => by decide)
  obtain ⟨hh, ht, hs⟩ := hframe reply hreply
  refine ⟨reply, hreply, ?_, ?_, ?_⟩
  · rw [hh]; decide
  · rw [ht, htrick]; rfl
  · rw [hs, hsb]; rfl

/-! ## The end of a trick -/

/-- The mutation of one element keeps the length of the array. -/
theorem length_updateFirst {α : Type} (p : α → Bool) (f : α → α) :
    ∀ l : List α, (updateFirst p f l).length = l.length := by
  intro l
  induction l with
  | nil => rfl
  | cons a rest ih =>
    simp only [updateFirst]
    split
    · rfl
    · simp only [List.length_cons, ih]

/-- The value of `find`: the first element satisfying `p`. -/
theorem find?_of_first {α : Type} (p : α → Bool) :
    ∀ (l : List α) (i : Nat) (x : α), l[i]? = some x → p x = true →
      (∀ j : Nat, j < i → ∀ y, l[j]? = some y → p y = false) → l.find? p = some x := by
  intro l
  induction l with
  | nil => intro i x h; simp at h
  | cons a rest ih =>
    intro i x hat hpx hfirst
    cases i with
    | zero =>
      simp only [List.getElem?_cons_zero, Option.some.injEq] at hat
      subst hat
      simp [List.find?_cons, hpx]
    | succ k =>
      have ha : p a = false := hfirst 0 (Nat.succ_pos k) a (by simp)
      rw [List.find?_cons, ha]
      simp only [List.getElem?_cons_succ] at hat
      exact ih k x hat hpx (fun j hj y hy => hfirst (j + 1) (by omega) y (by simpa using hy))

/-- Among players of distinct `ref`, the lookup by `ref` returns the player that holds
it. -/
theorem find?_ref (l : List Player) (i : Nat) (x : Player)
    (hnodup : (l.map (fun p => p.ref)).Nodup) (hat : l[i]? = some x) :
    l.find? (fun p => p.ref == x.ref) = some x := by
  apply find?_of_first _ l i x hat (by simp)
  intro j hj y hy
  have hi : i < l.length := (List.getElem?_eq_some_iff.mp hat).1
  have hne := (List.nodup_iff_getElem?_ne_getElem?.mp hnodup) j i hj (by simpa using hi)
  rw [List.getElem?_map, List.getElem?_map, hy, hat] at hne
  simp only [Option.map_some', ne_eq, Option.some.injEq] at hne
  simpa using hne

/-- When the trick is as long as the roster and each of its entries carries the id of a
player, `finishPlay` credits the first player holding the id of the winning entry and
schedules the end of the trick. -/
theorem finishPlay_full (game : Game) (player : Player)
    (hfull : game.currentTrick.length = game.players.length)
    (hne : game.currentTrick ≠ [])
    (hids : ∀ e ∈ game.currentTrick, e.playerId ∈ game.players.map (fun p => p.id)) :
    ∃ (winner : TrickEntry) (wp : Player) (i : Nat),
      getTrickWinner game.currentTrick = some winner ∧
      game.players[i]? = some wp ∧ wp.id = winner.playerId ∧
      (∀ j : Nat, j < i → ∀ y, game.players[j]? = some y → (y.id == winner.playerId) = false) ∧
      finishPlay game player
        = some { game :=
                   { game with
                       players := updateFirst (fun p => p.id == winner.playerId)
                         (fun p => { p with tricksWon := p.tricksWon + 1 }) game.players }
                 timers := [Timer.trickEnd winner wp.ref]
                 gameOver := none } ∧
      (updateFirst (fun p => p.id == winner.playerId)
          (fun p => { p with tricksWon := p.tricksWon + 1 }) game.players)[i]?
        = some { wp with tricksWon := wp.tricksWon + 1 } ∧
      (∀ j : Nat, j ≠ i →
        (updateFirst (fun p => p.id == winner.playerId)
            (fun p => { p with tricksWon := p.tricksWon + 1 }) game.players)[j]?
          = game.players[j]?) := by
  obtain ⟨winner, hw, hmem⟩ := getTrickWinner_mem game.currentTrick hne
  obtain ⟨q, hq, hqid⟩ := List.mem_map.mp (hids winner hmem)
  have hsome : (game.players.find? (fun p => p.id == winner.playerId)).isSome := by
    rw [List.find?_isSome]
    exact ⟨q, hq, by simpa using hqid⟩
  obtain ⟨wp, hwp⟩ := Option.isSome_iff_exists.mp hsome
  have hwpid : wp.id = winner.playerId := by simpa using List.find?_some hwp
  obtain ⟨i, hi, hfirst, hat, hother, _⟩ :=
    updateFirst_spec (fun p => p.id == winner.playerId)
      (fun (p : Player) => { p with tricksWon := p.tricksWon + 1 }) game.players wp hwp
  refine ⟨winner, wp, i, hw, hi, hwpid, hfirst, ?_, hat, hother⟩
  simp only [finishPlay, hfull, if_true, hw, hwp]

/-- The continuation of a full trick, fired on a session in which the winning player
object (of `ref` distinct from all others) is the first to hold the winning id and still
holds cards: the trick is emptied and the turn is the winner's. -/
theorem trickEnd_next (game : Game) (winner : TrickEntry) (i : Nat) (w : Player)
    (hand : List Card)
    (hat : game.players[i]? = some w) (hid : w.id = winner.playerId)
    (hfirst : ∀ j : Nat, j < i → ∀ y, game.players[j]? = some y →
      (y.id == winner.playerId) = false)
    (href : ((game.players ++ game.detached).map (fun p => p.ref)).Nodup)
    (hhand : w.hand = some hand) (hne : hand ≠ []) :
    trickEnd game winner w.ref
      = some (Reply.unchanged
          { game with
              currentTrick := []
              currentTurn := some { playerId := winner.playerId, username := w.username } }) := by
  have hi : i < game.players.length := (List.getElem?_eq_some_iff.mp hat).1
  have hat' : (game.players ++ game.detached)[i]? = some w := by
    rw [List.getElem?_append_left hi]; exact hat
  have hfindref := find?_ref _ i w href hat'
  have hfindid : game.players.find? (fun p => p.id == winner.playerId) = some w :=
    find?_of_first _ game.players i w hat (by simpa using hid) hfirst
  have hlen : ¬ hand.length = 0 := by
    intro h0
    exact hne (List.length_eq_zero.mp h0)
  simp only [trickEnd, hfindref, Player.handLength, hhand, hlen, if_false, startTrick,
    setNextTurn, hfindid, getValidPlaysOf, Option.map_some', hid]

/-- An accepted play (state `playing`, sent from the id of the player whose turn it is,
with a legal card of that player's hand) that makes the trick as long as the roster, in
a session in which every entry of the trick carries the id of a player: the handler
returns with the end of the trick scheduled for the winning entry `getTrickWinner` gives
for the full trick; the first player `w` holding the id of that entry, at seat `i`, has
`tricksWon` one higher and `tricksWon` at every other seat is as before.  When the
scheduled continuation fires on that state (player objects having distinct `ref`) and
`w` still holds cards, the trick is empty and `currentTurn` names the id of the winning
entry and `w`. -/
theorem playCard_full_trick (game : Game) (socketId : SocketId) (card : Card) (turn : Turn)
    (player : Player) (hand : List Card)
    (hstate : game.gameState = GameState.playing)
    (hfind : game.players.find? (fun p => p.id == socketId) = some player)
    (hturn : game.currentTurn = some turn) (hsender : socketId = turn.playerId)
    (hhand : player.hand = some hand)
    (hcard : card ∈ getValidPlays hand (leadSuitOf game.currentTrick) game.spadesBroken)
    (hfull : game.currentTrick.length + 1 = game.players.length)
    (htrick : ∀ e ∈ game.currentTrick, ∃ p ∈ game.players, p.id = e.playerId)
    (href : ((game.players ++ game.detached).map (fun p => p.ref)).Nodup) :
    ∃ (reply : Reply) (winner : TrickEntry) (i : Nat) (w : Player),
      playCard game socketId card = some reply ∧
      getTrickWinner (game.currentTrick ++ [{ card := card, playerId := socketId }])
        = some winner ∧
      game.players[i]? = some w ∧ w.id = winner.playerId ∧
      (∀ j : Nat, j < i → ∀ y, game.players[j]? = some y → y.id ≠ winner.playerId) ∧
      (reply.game.players[i]?).map (fun p => p.tricksWon) = some (w.tricksWon + 1) ∧
      (∀ j : Nat, j ≠ i →
        (reply.game.players[j]?).map (fun p => p.tricksWon)
          = (game.players[j]?).map (fun p => p.tricksWon)) ∧
      reply.timers = [Timer.trickEnd winner w.ref] ∧
      (∀ held : List Card,
        (reply.game.players[i]?).map (fun p => p.hand) = some (some held) → held ≠ [] →
        trickEnd reply.game winner w.ref
          = some (Reply.unchanged
              { reply.game with
                  currentTrick := []
                  currentTurn :=
                    some { playerId := winner.playerId, username := w.username } })) := by
  have hid : player.id = socketId := by simpa using List.find?_some hfind
  have hpmem : player ∈ game.players := List.mem_of_find?_eq_some hfind
  -- the roster after the card has left the hand keeps every field but the hand
  have hlen : (playedGame game socketId player hand card).players.length
      = game.players.length := by
    simp only [playedGame]
    exact length_updateFirst _ _ _
  have hids : (playedGame game socketId player hand card).players.map (fun p => p.id)
      = game.players.map (fun p => p.id) :=
    map_updateFirst (fun (p : Player) => p.id == socketId)
      (fun (p : Player) => { p with
        hand := some (hand.filter (fun c => !(c.suit == card.suit && c.value == card.value))) })
      (fun (p : Player) => p.id) (fun _ => rfl) game.players
  have hrefs : (playedGame game socketId player hand card).players.map (fun p => p.ref)
      = game.players.map (fun p => p.ref) :=
    map_updateFirst (fun (p : Player) => p.id == socketId)
      (fun (p : Player) => { p with
        hand := some (hand.filter (fun c => !(c.suit == card.suit && c.value == card.value))) })
      (fun (p : Player) => p.ref) (fun _ => rfl) game.players
  have hwon : (playedGame game socketId player hand card).players.map (fun p => p.tricksWon)
      = game.players.map (fun p => p.tricksWon) :=
    map_updateFirst (fun (p : Player) => p.id == socketId)
      (fun (p : Player) => { p with
        hand := some (hand.filter (fun c => !(c.suit == card.suit && c.value == card.value))) })
      (fun (p : Player) => p.tricksWon) (fun _ => rfl) game.players
  have hnames : (playedGame game socketId player hand card).players.map (fun p => p.username)
      = game.players.map (fun p => p.username) :=
    map_updateFirst (fun (p : Player) => p.id == socketId)
      (fun (p : Player) => { p with
        hand := some (hand.filter (fun c => !(c.suit == card.suit && c.value == card.value))) })
      (fun (p : Player) => p.username) (fun _ => rfl) game.players
  have htr : (playedGame game socketId player hand card).currentTrick
      = game.currentTrick ++ [{ card := card, playerId := socketId }] := by
    simp only [playedGame, hid]
  obtain ⟨winner, wp, i, hw, hi, hwpid, hfirst, hfinish, hat, hother⟩ :=
    finishPlay_full (playedGame game socketId player hand card) player
      (by rw [htr, hlen, List.length_append, List.length_singleton, hfull])
      (by rw [htr]; simp)
      (by
        intro e he
        rw [hids]
        rw [htr] at he
        simp only [List.mem_append, List.mem_singleton] at he
        rcases he with he | he
        · obtain ⟨p, hp, hpe⟩ := htrick e he
          exact List.mem_map.mpr ⟨p, hp, hpe⟩
        · rw [he]
          exact List.mem_map.mpr ⟨player, hpmem, hid⟩)
  rw [htr] at hw
  -- the player at seat `i` before the play
  have hilt : i < game.players.length := by
    rw [← hlen]; exact (List.getElem?_eq_some_iff.mp hi).1
  obtain ⟨w, hwat⟩ : ∃ w, game.players[i]? = some w :=
    ⟨game.players[i], List.getElem?_eq_getElem hilt⟩
  have hwid : w.id = wp.id := by
    have h := getElem?_map_congr (fun (p : Player) => p.id) _ _ hids i
    rw [hi, hwat] at h
    simpa using h.symm
  have hwref : w.ref = wp.ref := by
    have h := getElem?_map_congr (fun (p : Player) => p.ref) _ _ hrefs i
    rw [hi, hwat] at h
    simpa using h.symm
  have hwwon : w.tricksWon = wp.tricksWon := by
    have h := getElem?_map_congr (fun (p : Player) => p.tricksWon) _ _ hwon i
    rw [hi, hwat] at h
    simpa using h.symm
  have hwname : w.username = wp.username := by
    have h := getElem?_map_congr (fun (p : Player) => p.username) _ _ hnames i
    rw [hi, hwat] at h
    simpa using h.symm
  refine ⟨{ game :=
              { playedGame game socketId player hand card with
                  players := updateFirst (fun p => p.id == winner.playerId)
                    (fun p => { p with tricksWon := p.tricksWon + 1 })
                    (playedGame game socketId player hand card).players }
            timers := [Timer.trickEnd winner wp.ref]
            gameOver := none },
    winner, i, w, ?_, hw, hwat, by rw [hwid, hwpid], ?_, ?_, ?_, ?_, ?_⟩
  · rw [playCard_accepted game socketId card turn player hand hstate hfind hturn hsender
      hhand hcard]
    exact hfinish
  · intro j hj y hy hyid
    have h := getElem?_map_congr (fun (p : Player) => p.id) _ _ hids j
    rw [hy] at h
    cases hpj : (playedGame game socketId player hand card).players[j]? with
    | none => rw [hpj] at h; simp at h
    | some y' =>
      rw [hpj] at h
      simp only [Option.map_some', Option.some.injEq] at h
      have hfalse := hfirst j hj y' hpj
      rw [h, hyid] at hfalse
      simp at hfalse
  · show (((updateFirst (fun p => p.id == winner.playerId)
        (fun p => { p with tricksWon := p.tricksWon + 1 })
        (playedGame game socketId player hand card).players)[i]?).map (fun p => p.tricksWon))
      = some (w.tricksWon + 1)
    rw [hat, hwwon]
    rfl
  · intro j hj
    show (((updateFirst (fun p => p.id == winner.playerId)
        (fun p => { p with tricksWon := p.tricksWon + 1 })
        (playedGame game socketId player hand card).players)[j]?).map (fun p => p.tricksWon))
      = (game.players[j]?).map (fun p => p.tricksWon)
    rw [hother j hj]
    exact getElem?_map_congr (fun (p : Player) => p.tricksWon) _ _ hwon j
  · show [Timer.trickEnd winner wp.ref] = [Timer.trickEnd winner w.ref]
    rw [hwref]
  · intro held hheld hne
    have hheld' : (((updateFirst (fun p => p.id == winner.playerId)
        (fun p => { p with tricksWon := p.tricksWon + 1 })
        (playedGame game socketId player hand card).players)[i]?).map (fun p => p.hand))
        = some (some held) := hheld
    rw [hat] at hheld'
    simp only [Option.map_some', Option.some.injEq] at hheld'
    have hnext := trickEnd_next
      { playedGame game socketId player hand card with
          players := updateFirst (fun p => p.id == winner.playerId)
            (fun p => { p with tricksWon := p.tricksWon + 1 })
            (playedGame game socketId player hand card).players }
      winner i { wp with tricksWon := wp.tricksWon + 1 } held hat hwpid
      (by
        intro j hj y hy
        have hy' : (updateFirst (fun p => p.id == winner.playerId)
            (fun p => { p with tricksWon := p.tricksWon + 1 })
            (playedGame game socketId player hand card).players)[j]? = some y := hy
        rw [hother j (by omega)] at hy'
        exact hfirst j hj y hy')
      (by
        have hmap : (updateFirst (fun p => p.id == winner.playerId)
            (fun p => { p with tricksWon := p.tricksWon + 1 })
            (playedGame game socketId player hand card).players).map (fun p => p.ref)
            = game.players.map (fun p => p.ref) := by
          rw [map_updateFirst (fun (p : Player) => p.id == winner.playerId)
            (fun (p : Player) => { p with tricksWon := p.tricksWon + 1 })
            (fun (p : Player) => p.ref) (fun _ => rfl)]
          exact hrefs
        show ((updateFirst (fun p => p.id == winner.playerId)
            (fun p => { p with tricksWon := p.tricksWon + 1 })
            (playedGame game socketId player hand card).players
              ++ game.detached).map (fun p => p.ref)).Nodup
        rw [List.map_append, hmap, ← List.map_append]
        exact href)
      hheld' hne
    rw [hwref, hwname]
    exact hnext

/-- In `lastCardGame` the ♦2 of `dan` is the fourth card of the trick ♦5 ♦K ♥9: the ♦K
of `bob` wins, `bob` has one trick more, and when the continuation fires `bob`, who
holds the ♣2, is to lead the next trick. -/
theorem playCard_full_trick_witness :
    ∃ (reply : Reply) (i : Nat) (w : Player),
      playCard lastCardGame 4 ⟨.diamonds, .two⟩ = some reply ∧
      lastCardGame.players[i]? = some w ∧ w.id = 2 ∧
      (reply.game.players[i]?).map (fun p => p.tricksWon) = some (w.tricksWon + 1) ∧
      reply.timers = [Timer.trickEnd ⟨⟨.diamonds, .king⟩, 2⟩ w.ref] ∧
      trickEnd reply.game ⟨⟨.diamonds, .king⟩, 2⟩ w.ref
        = some (Reply.unchanged
            { reply.game with
                currentTrick := []
                currentTurn := some { playerId := 2, username := w.username } }) := by
  obtain ⟨reply, winner, i, w, hplay, hw, hat, hid, _, hwon, _, htimers, hnext⟩ :=
    playCard_full_trick lastCardGame 4 ⟨.diamonds, .two⟩ { playerId := 4, username := "dan" }
      { seat 4 "dan" "Team 2" false 4 3 with
          hand := some [⟨.diamonds, .two⟩, ⟨.hearts, .queen⟩] }
      [⟨.diamonds, .two⟩, ⟨.hearts, .queen⟩]
      (by decide) (by decide) (by decide) (by decide) (by decide) (by decide) (by decide)
      (by decide) (by decide)
  have hwin : winner = ⟨⟨.diamonds, .king⟩, 2⟩ := by
    have h : getTrickWinner (lastCardGame.currentTrick ++ [⟨⟨.diamonds, .two⟩, 4⟩])
        = some ⟨⟨.diamonds, .king⟩, 2⟩ := by decide
    rw [h] at hw
    exact (Option.some.inj hw).symm
  subst hwin
  have hhands : (playCard lastCardGame 4 ⟨.diamonds, .two⟩).map
      (fun r => r.game.players.map (fun p => p.hand))
      = some [some [⟨.spades, .ace⟩], some [⟨.clubs, .two⟩], some [⟨.spades, .three⟩],
           some [⟨.hearts, .queen⟩]] := by decide
  rw [hplay] at hhands
  simp only [Option.map_some', Option.some.injEq] at hhands
  have hilt : i < 4 := (List.getElem?_eq_some_iff.mp hat).1
  obtain ⟨held, hheld, hne⟩ : ∃ held,
      (reply.game.players[i]?).map (fun p => p.hand) = some (some held) ∧ held ≠ [] := by
    rw [← List.getElem?_map, hhands]
    interval_cases i <;> simp
  exact ⟨reply, i, w, hplay, hat, hid, hwon, htimers, hnext held hheld hne⟩

/-! ## Sessions that break an invariant -/

set_option maxRecDepth 100000 in
/-- C21. A session of four is followed from its creation through the bids and the first
trick (`ann` ♦5, `bob` ♦4, `cat` ♦3, `dan` ♦2): the trick holds the ids 1, 2, 3, 4 and,
while the end of the trick is pending, `currentTurn` still names `dan`.  `dan` then
plays the ♦6: it is accepted, and the trick of the four-player session holds five
entries, the id of `dan` twice. -/
theorem playCard_fifth_card :
    ((Session.create 1 "ann" 4 200).run (openingSteps ++ firstTrickSteps)).map
        (fun s => (s.game.players.length, s.game.currentTrick.map (fun e => e.playerId),
          s.game.currentTurn.map (fun t => t.playerId), s.timers.length))
      = some (4, [1, 2, 3, 4], some 4, 1) ∧
    ((Session.create 1 "ann" 4 200).run
        (openingSteps ++ firstTrickSteps ++ [Step.playCard 4 ⟨.diamonds, .six⟩])).map
        (fun s => (s.game.players.length, s.game.currentTrick.map (fun e => e.playerId),
          s.game.players.map (fun p => p.hand.map (fun h => h.length))))
      = some (4, [1, 2, 3, 4, 4], [some 12, some 12, some 12, some 11]) := by
  decide!

set_option maxRecDepth 100000 in
/-- C24. A session of four is started by its host `ann` (id 1), who then disconnects:
the session goes on with `game.host = 2`, and both `ann`, still in the roster, and `bob`
carry `isHost`.  And in a lobby of two, the host kicking its own id leaves a roster of
one player without `isHost`, while `game.host` is still the id 1 that nobody holds. -/
theorem disconnect_two_hosts :
    ((Session.create 1 "ann" 4 200).run
        [Step.joinGame 2 "bob", Step.joinGame 3 "cat", Step.joinGame 4 "dan",
         Step.startGame 1 (fun i => i), Step.disconnect 1]).map
        (fun s => (s.live, s.game.host))
      = some (true, 2) ∧
    ((Session.create 1 "ann" 4 200).run
        [Step.joinGame 2 "bob", Step.joinGame 3 "cat", Step.joinGame 4 "dan",
         Step.startGame 1 (fun i => i), Step.disconnect 1]).map
        (fun s => s.game.players.map (fun p => (p.id, p.isHost, p.disconnected)))
      = some [(1, true, true), (2, true, false), (3, false, false), (4, false, false)] ∧
    ((Session.create 1 "ann" 4 200).run [Step.joinGame 2 "bob", Step.kickPlayer 1 1]).map
        (fun s => (s.live, s.game.host))
      = some (true, 1) ∧
    ((Session.create 1 "ann" 4 200).run [Step.joinGame 2 "bob", Step.kickPlayer 1 1]).map
        (fun s => s.game.players.map (fun p => (p.id, p.isHost, p.disconnected)))
      = some [(2, false, false)] := by
  decide!

set_option maxRecDepth 100000 in
/-- A session of five is started: `startNewRound` returns, the session is in `bidding`
with `spadesBroken` at `false`, and every hand is an array of 13 entries of which the
last 2 or 3 are `undefined` (the deck has 52 cards for 65 entries). -/
theorem startGame_five_seats :
    ((Session.create 1 "ann" 5 200).run fiveSeatSteps).map
        (fun s => (s.game.gameState, s.game.spadesBroken,
          s.game.players.map (fun p => p.hand)))
      = some (GameState.bidding, false, [none, none, none, none, none]) ∧
    ((Session.create 1 "ann" 5 200).run fiveSeatSteps).map
        (fun s => s.game.players.map
          (fun p => p.undefinedHand.map (fun array => (array.length, array.count none))))
      = some [some (13, 2), some (13, 2), some (13, 3), some (13, 3), some (13, 3)] := by
  decide!

set_option maxRecDepth 100000 in
/-- C22. Two sessions of four in which the winner of the first trick has reconnected.
In the first, `bob` reconnects as 8 in the middle of the trick (♦5 of `ann`, ♦Q of `bob`
under id 2, ♦3 of `cat`); it is the turn of `dan`, whose ♦2 is legal and makes the trick
full with the ♦Q entry of id 2 winning: no player holds id 2, `playCard` throws where it
credits the player found (`none`), and no player is credited.  In the second, the trick
♦5 ♦Q ♦3 ♦2 is full, `bob` is credited and the continuation for the entry of id 2 is
pending when `bob` reconnects as 8; `bob` still holds 12 cards: the continuation throws
when it fires (`none`), in `setNextTurn`, which finds no player of id 2, and
`currentTurn` is not set to the winner. -/
theorem playCard_winner_reconnected :
    ((Session.create 1 "ann" 4 200).run reconnectInTrickSteps).map
        (fun s => (s.game.players.map (fun p => p.id),
          s.game.currentTrick.map (fun e => e.playerId),
          s.game.currentTurn.map (fun t => t.playerId)))
      = some ([1, 8, 3, 4], [1, 2, 3], some 4) ∧
    ((Session.create 1 "ann" 4 200).run reconnectInTrickSteps).map
        (fun s => (s.game.players.find? (fun p => p.id == 4)).bind
          (fun p => p.hand.map
            (fun hand => getValidPlays hand (leadSuitOf s.game.currentTrick)
              s.game.spadesBroken)))
      = some (some [⟨.diamonds, .two⟩, ⟨.diamonds, .six⟩, ⟨.diamonds, .ten⟩,
          ⟨.diamonds, .ace⟩]) ∧
    ((Session.create 1 "ann" 4 200).run reconnectInTrickSteps).map
        (fun s => getTrickWinner (s.game.currentTrick ++ [⟨⟨.diamonds, .two⟩, 4⟩]))
      = some (some ⟨⟨.diamonds, .queen⟩, 2⟩) ∧
    ((Session.create 1 "ann" 4 200).run
        (reconnectInTrickSteps ++ [Step.playCard 4 ⟨.diamonds, .two⟩])).isSome = false ∧
    ((Session.create 1 "ann" 4 200).run reconnectAfterTrickSteps).map
        (fun s => (s.game.players.map (fun p => p.id),
          s.game.players.map (fun p => p.tricksWon), s.timers))
      = some ([1, 8, 3, 4], [0, 1, 0, 0], [Timer.trickEnd ⟨⟨.diamonds, .queen⟩, 2⟩ 1]) ∧
    ((Session.create 1 "ann" 4 200).run reconnectAfterTrickSteps).map
        (fun s => s.game.players.map (fun p => p.hand.map List.length))
      = some [some 12, some 12, some 12, some 12] ∧
    ((Session.create 1 "ann" 4 200).run
        (reconnectAfterTrickSteps ++ [Step.fire 0 (fun i => i)])).isSome = false := by
  decide!

end Spades
